import Mathlib

/-!
# x402go: payment-gated HTTP exchange

A shallow embedding of the Go package `x402go` (`types.go`, `headers.go`,
`middleware.go`, `client.go`) together with the parts of the Go standard
library the package calls (`unicode/utf8`, `encoding/json`, `encoding/base64`,
`net/http`), followed by theorems about the embedded code.

Go strings are byte sequences; they are embedded as lists of bytes, so that
strings that are not valid UTF-8 are values of the model as they are of Go.
-/

namespace X402

/-! ## Bytes and Go strings -/

/-- A Go `byte`. -/
abbrev Byte := Fin 256

/-- A Go `string` (or `[]byte`): a finite sequence of bytes. -/
abbrev GoString := List Byte

/-- Conversion `byte(n)`: keeps the low eight bits. -/
def Byte.ofNat (n : Nat) : Byte := ⟨n % 256, Nat.mod_lt n (by decide)⟩

namespace utf8

/-- The constant `utf8.RuneError` (U+FFFD). -/
def RuneError : Nat := 0xFFFD

/-- The constant `utf8.MaxRune`. -/
def MaxRune : Nat := 0x10FFFF

/-- Entry of the table `first` of package `unicode/utf8` for a lead byte
`0x80 ≤ b`: the length of the sequence and the accepted range of the second byte;
`none` for the bytes marked invalid (`xx`). -/
def first (b : Nat) : Option (Nat × Nat × Nat) :=
  if b < 0xC2 then none
  else if b ≤ 0xDF then some (2, 0x80, 0xBF)
  else if b = 0xE0 then some (3, 0xA0, 0xBF)
  else if b ≤ 0xEC then some (3, 0x80, 0xBF)
  else if b = 0xED then some (3, 0x80, 0x9F)
  else if b ≤ 0xEF then some (3, 0x80, 0xBF)
  else if b = 0xF0 then some (4, 0x90, 0xBF)
  else if b ≤ 0xF3 then some (4, 0x80, 0xBF)
  else if b = 0xF4 then some (4, 0x80, 0x8F)
  else none

/-- Continuation byte test (`locb ≤ b ≤ hicb`). -/
def isCont (b : Byte) : Bool := decide (0x80 ≤ b.val) && decide (b.val ≤ 0xBF)

/-- Function `utf8.DecodeRune`: the first rune of `p` and its width in bytes.
Returns `(RuneError, 0)` on empty input and `(RuneError, 1)` on an invalid
encoding. -/
def DecodeRune (p : List Byte) : Nat × Nat :=
  match p with
  | [] => (RuneError, 0)
  | p0 :: rest =>
    if p0.val < 0x80 then (p0.val, 1)
    else
      match first p0.val with
      | none => (RuneError, 1)
      | some (sz, lo, hi) =>
        match rest with
        | [] => (RuneError, 1)
        | b1 :: rest1 =>
          if b1.val < lo ∨ hi < b1.val then (RuneError, 1)
          else if sz ≤ 2 then ((p0.val % 32) * 64 + b1.val % 64, 2)
          else
            match rest1 with
            | [] => (RuneError, 1)
            | b2 :: rest2 =>
              if !isCont b2 then (RuneError, 1)
              else if sz ≤ 3 then
                ((p0.val % 16) * 4096 + (b1.val % 64) * 64 + b2.val % 64, 3)
              else
                match rest2 with
                | [] => (RuneError, 1)
                | b3 :: _ =>
                  if !isCont b3 then (RuneError, 1)
                  else
                    ((p0.val % 8) * 262144 + (b1.val % 64) * 4096
                      + (b2.val % 64) * 64 + b3.val % 64, 4)

/-- Function `utf8.AppendRune` on an empty buffer (`utf8.EncodeRune`): the
UTF-8 encoding of rune `r`; runes out of range and surrogates are encoded as
`RuneError`. -/
def EncodeRune (r : Nat) : List Byte :=
  if r ≤ 0x7F then [Byte.ofNat r]
  else if r ≤ 0x7FF then [Byte.ofNat (0xC0 + r / 64), Byte.ofNat (0x80 + r % 64)]
  else if MaxRune < r ∨ (0xD800 ≤ r ∧ r ≤ 0xDFFF) then
    [Byte.ofNat 0xEF, Byte.ofNat 0xBF, Byte.ofNat 0xBD]
  else if r ≤ 0xFFFF then
    [Byte.ofNat (0xE0 + r / 4096), Byte.ofNat (0x80 + (r / 64) % 64),
      Byte.ofNat (0x80 + r % 64)]
  else
    [Byte.ofNat (0xF0 + r / 262144), Byte.ofNat (0x80 + (r / 4096) % 64),
      Byte.ofNat (0x80 + (r / 64) % 64), Byte.ofNat (0x80 + r % 64)]

/-- Loop of `utf8.ValidString`: every decoding step yields a proper rune. The
first argument bounds the number of steps; the length of the input is enough. -/
def validLoop : Nat → List Byte → Bool
  | 0, s => s.isEmpty
  | _ + 1, [] => true
  | fuel + 1, b :: rest =>
    if b.val < 0x80 then validLoop fuel rest
    else
      let d := DecodeRune (b :: rest)
      if d.2 = 1 then false else validLoop fuel (rest.drop (d.2 - 1))

/-- Function `utf8.ValidString`. -/
def ValidString (s : GoString) : Bool := validLoop s.length s

end utf8

/-- A Go string constant: the UTF-8 bytes of the literal. -/
def goStr (s : String) : GoString :=
  s.toList.flatMap (fun c => utf8.EncodeRune c.toNat)

/-- A Go `int64`. -/
abbrev Int64 := { i : Int // -9223372036854775808 ≤ i ∧ i ≤ 9223372036854775807 }

/-- The `int64` zero value. -/
def Int64.zero : Int64 := ⟨0, by decide⟩

/-- Conversion `int64(i)` of an integer, wrapping around modulo `2^64`. -/
def Int64.wrap (i : Int) : Int64 :=
  ⟨(i + 9223372036854775808) % 18446744073709551616 - 9223372036854775808, by omega⟩

/-! ## Package `strconv` -/

namespace strconv

/-- Digit loop of `strconv.formatBits` in base 10: the decimal digits of `n`
are put in front of `acc`, the last digit first. -/
def formatLoop : Nat → Nat → List Byte → List Byte
  | 0, _, acc => acc
  | fuel + 1, n, acc =>
    if n < 10 then Byte.ofNat (48 + n) :: acc
    else formatLoop fuel (n / 10) (Byte.ofNat (48 + n % 10) :: acc)

/-- Decimal digits of a natural number (`strconv.FormatUint(n, 10)`). -/
def formatNat (n : Nat) : List Byte := formatLoop (n + 1) n []

/-- Function `strconv.AppendInt(nil, i, 10)`. -/
def formatInt (i : Int) : List Byte :=
  if i < 0 then Byte.ofNat 45 :: formatNat i.natAbs else formatNat i.natAbs

/-- A decimal digit byte. -/
def isDigit (b : Byte) : Bool := decide (48 ≤ b.val) && decide (b.val ≤ 57)

/-- Value of a digit sequence, most significant digit first. -/
def digitsValue (ds : List Byte) : Nat := ds.foldl (fun acc d => acc * 10 + (d.val - 48)) 0

/-- Function `strconv.ParseInt(s, 10, 64)`: an optional sign followed by one or
more decimal digits, within the range of `int64`; `none` stands for the error
result (syntax or range). -/
def parseInt64 (s : List Byte) : Option Int64 :=
  let neg := decide (s.head?.map Fin.val = some 45)
  let ds := if neg ∨ s.head?.map Fin.val = some 43 then s.drop 1 else s
  if ds.isEmpty ∨ !ds.all isDigit then none
  else
    let v : Int := if neg then -(digitsValue ds : Int) else (digitsValue ds : Int)
    if h : -9223372036854775808 ≤ v ∧ v ≤ 9223372036854775807 then some ⟨v, h⟩ else none

end strconv

/-! ## Package `encoding/json`: encoding -/

namespace json

/-- The table `hex` of package `encoding/json`: a lower-case hexadecimal digit. -/
def hex (n : Nat) : Byte := if n % 16 < 10 then Byte.ofNat (48 + n % 16) else Byte.ofNat (87 + n % 16)

/-- The table `htmlSafeSet`: the ASCII bytes that `json.Marshal` copies
unescaped (all of `0x20..0x7F` but the double quote, the backslash and the
HTML-sensitive ampersand and angle brackets). -/
def htmlSafeSet (b : Nat) : Bool :=
  decide (0x20 ≤ b) && decide (b < 0x80) && decide (b ≠ 0x22) && decide (b ≠ 0x26)
    && decide (b ≠ 0x3C) && decide (b ≠ 0x3E) && decide (b ≠ 0x5C)

/-- Escape sequence written by `appendString` for an ASCII byte outside
`htmlSafeSet`. -/
def escapeByte (b : Nat) : List Byte :=
  if b = 0x5C ∨ b = 0x22 then [Byte.ofNat 0x5C, Byte.ofNat b]
  else if b = 0x08 then [Byte.ofNat 0x5C, Byte.ofNat 0x62]
  else if b = 0x0C then [Byte.ofNat 0x5C, Byte.ofNat 0x66]
  else if b = 0x0A then [Byte.ofNat 0x5C, Byte.ofNat 0x6E]
  else if b = 0x0D then [Byte.ofNat 0x5C, Byte.ofNat 0x72]
  else if b = 0x09 then [Byte.ofNat 0x5C, Byte.ofNat 0x74]
  else [Byte.ofNat 0x5C, Byte.ofNat 0x75, Byte.ofNat 0x30, Byte.ofNat 0x30, hex (b / 16), hex b]

/-- Body of the loop of `appendString` (with `escapeHTML` set, as under
`json.Marshal`): the characters of the string between the quotes. Bytes that do
not start a valid UTF-8 sequence are written as the escape of U+FFFD, and
U+2028 and U+2029 are escaped. The first argument bounds the number of
iterations; the length of the string is enough. -/
def appendStringLoop : Nat → List Byte → List Byte
  | 0, _ => []
  | _ + 1, [] => []
  | fuel + 1, b :: rest =>
    if b.val < 0x80 then
      (if htmlSafeSet b.val then [b] else escapeByte b.val) ++ appendStringLoop fuel rest
    else
      let d := utf8.DecodeRune (b :: rest)
      if d.1 = utf8.RuneError ∧ d.2 = 1 then
        goStr "\\ufffd" ++ appendStringLoop fuel rest
      else if d.1 = 0x2028 ∨ d.1 = 0x2029 then
        goStr "\\u202" ++ hex d.1 :: appendStringLoop fuel (rest.drop (d.2 - 1))
      else
        (b :: rest).take d.2 ++ appendStringLoop fuel (rest.drop (d.2 - 1))

/-- Function `appendString`: a Go string as a JSON string literal. -/
def appendString (s : GoString) : List Byte :=
  Byte.ofNat 0x22 :: (appendStringLoop s.length s ++ [Byte.ofNat 0x22])

/-! ## Package `encoding/json`: decoding

`json.Unmarshal` first checks the whole input with its scanner (`checkValid`)
and then walks it, storing values into the target. The model reads the input
into a tree (`parseJSON`, accepting exactly the texts the scanner accepts) and
then stores the tree into the target (`decodeStruct`). -/

/-- A JSON value as the decoder sees it; a number is kept as its literal and a
string is kept unquoted. -/
inductive JValue where
  | null
  | bool (b : Bool)
  | number (lit : List Byte)
  | string (s : GoString)
  | array (elems : List JValue)
  | object (members : List (GoString × JValue))

/-- Function `isSpace` of the scanner: space, tab, carriage return, line feed. -/
def isSpace (b : Byte) : Bool :=
  decide (b.val = 0x20) || decide (b.val = 0x09) || decide (b.val = 0x0D) || decide (b.val = 0x0A)

/-- Skips insignificant whitespace. -/
def skipSpace : List Byte → List Byte
  | [] => []
  | b :: rest => if isSpace b then skipSpace rest else b :: rest

/-- Value of a hexadecimal digit, as in `getu4`. -/
def hexValue (c : Byte) : Option Nat :=
  if 48 ≤ c.val ∧ c.val ≤ 57 then some (c.val - 48)
  else if 97 ≤ c.val ∧ c.val ≤ 102 then some (c.val - 97 + 10)
  else if 65 ≤ c.val ∧ c.val ≤ 70 then some (c.val - 65 + 10)
  else none

/-- Function `getu4`: the code unit of a `\uXXXX` escape at the start of `s`;
`none` stands for the result `-1`. -/
def getu4 (s : List Byte) : Option Nat :=
  match s with
  | b :: u :: c1 :: c2 :: c3 :: c4 :: _ =>
    if b.val = 0x5C ∧ u.val = 0x75 then
      match hexValue c1, hexValue c2, hexValue c3, hexValue c4 with
      | some h1, some h2, some h3, some h4 => some (((h1 * 16 + h2) * 16 + h3) * 16 + h4)
      | _, _, _, _ => none
    else none
  | _ => none

/-- Function `utf16.IsSurrogate`. -/
def isSurrogate (r : Nat) : Bool := decide (0xD800 ≤ r) && decide (r < 0xE000)

/-- Function `utf16.DecodeRune`: the rune of a surrogate pair, U+FFFD when the
pair is not valid (`none` for the second unit stands for `-1`). -/
def utf16DecodeRune (r1 : Nat) (r2 : Option Nat) : Nat :=
  match r2 with
  | some r2 =>
    if 0xD800 ≤ r1 ∧ r1 < 0xDC00 ∧ 0xDC00 ≤ r2 ∧ r2 < 0xE000 then
      (r1 - 0xD800) * 1024 + (r2 - 0xDC00) + 0x10000
    else 0xFFFD
  | none => 0xFFFD

/-- Puts `pre` in front of the string of a parse result. -/
def withPre (pre : GoString) (r : Option (GoString × List Byte)) : Option (GoString × List Byte) :=
  match r with
  | some (s, rest) => some (pre ++ s, rest)
  | none => none

/-- Byte stored by `unquoteBytes` for the single-character escape `\c`, for the
escapes the scanner accepts. -/
def unescape (c : Nat) : Option Byte :=
  if c = 0x22 ∨ c = 0x5C ∨ c = 0x2F then some (Byte.ofNat c)
  else if c = 0x62 then some (Byte.ofNat 0x08)
  else if c = 0x66 then some (Byte.ofNat 0x0C)
  else if c = 0x6E then some (Byte.ofNat 0x0A)
  else if c = 0x72 then some (Byte.ofNat 0x0D)
  else if c = 0x74 then some (Byte.ofNat 0x09)
  else none

/-- Reads a string literal after its opening quote: the scanner states
`stateInString`, `stateInStringEsc`, `stateInStringEscU...` together with
`unquoteBytes`. Returns the unquoted string and the input after the closing
quote. Control characters and bad escapes are errors; bytes that are not valid
UTF-8 are replaced by U+FFFD; a `\u` escape of a surrogate is combined with a
following low surrogate escape, and is U+FFFD when alone. The first argument
bounds the number of iterations; the length of the input is enough. -/
def parseStringBody : Nat → List Byte → Option (GoString × List Byte)
  | 0, _ => none
  | _ + 1, [] => none
  | fuel + 1, c :: rest =>
    if c.val = 0x22 then some ([], rest)
    else if c.val = 0x5C then
      match rest with
      | [] => none
      | e :: rest1 =>
        if e.val = 0x75 then
          match getu4 (c :: rest) with
          | none => none
          | some rr =>
            if isSurrogate rr then
              let dec := utf16DecodeRune rr (getu4 (rest1.drop 4))
              if dec ≠ 0xFFFD then
                withPre (utf8.EncodeRune dec) (parseStringBody fuel (rest1.drop 10))
              else
                withPre (utf8.EncodeRune 0xFFFD) (parseStringBody fuel (rest1.drop 4))
            else withPre (utf8.EncodeRune rr) (parseStringBody fuel (rest1.drop 4))
        else
          match unescape e.val with
          | none => none
          | some b => withPre [b] (parseStringBody fuel rest1)
    else if c.val < 0x20 then none
    else if c.val < 0x80 then withPre [c] (parseStringBody fuel rest)
    else
      let d := utf8.DecodeRune (c :: rest)
      withPre (utf8.EncodeRune d.1) (parseStringBody fuel (rest.drop (d.2 - 1)))

/-- Splits off the longest run of decimal digits. -/
def spanDigits : List Byte → List Byte × List Byte
  | [] => ([], [])
  | b :: rest =>
    if strconv.isDigit b then ((spanDigits rest).1.cons b, (spanDigits rest).2) else ([], b :: rest)

/-- Optional exponent of a number (scanner states `stateE`, `stateESign`,
`stateE0`), after the integer and fraction parts `acc`. -/
def scanExponent (acc : List Byte) (s : List Byte) : Option (List Byte × List Byte) :=
  match s with
  | e :: rest =>
    if e.val = 0x65 ∨ e.val = 0x45 then
      match rest with
      | sg :: rest1 =>
        if sg.val = 0x2B ∨ sg.val = 0x2D then
          if (spanDigits rest1).1.isEmpty then none
          else some (acc ++ e :: sg :: (spanDigits rest1).1, (spanDigits rest1).2)
        else if (spanDigits rest).1.isEmpty then none
        else some (acc ++ e :: (spanDigits rest).1, (spanDigits rest).2)
      | [] => none
    else some (acc, s)
  | [] => some (acc, s)

/-- Optional fraction of a number (scanner states `stateDot`, `stateDot0`),
then the exponent. -/
def scanFraction (acc : List Byte) (s : List Byte) : Option (List Byte × List Byte) :=
  match s with
  | dot :: rest =>
    if dot.val = 0x2E then
      if (spanDigits rest).1.isEmpty then none
      else scanExponent (acc ++ dot :: (spanDigits rest).1) (spanDigits rest).2
    else scanExponent acc s
  | [] => some (acc, s)

/-- Integer part of a number after an optional sign `acc` (scanner states
`stateNeg`, `state0`, `state1`): a single zero or a digit sequence that does
not start with zero. -/
def scanInteger (acc : List Byte) (s : List Byte) : Option (List Byte × List Byte) :=
  match s with
  | d :: rest =>
    if d.val = 0x30 then scanFraction (acc ++ [d]) rest
    else if 0x31 ≤ d.val ∧ d.val ≤ 0x39 then
      scanFraction (acc ++ d :: (spanDigits rest).1) (spanDigits rest).2
    else none
  | [] => none

/-- Scans a number literal: the literal and the input after it. -/
def scanNumber (s : List Byte) : Option (List Byte × List Byte) :=
  match s with
  | m :: rest => if m.val = 0x2D then scanInteger [m] rest else scanInteger [] s
  | [] => none

/-- Strips the bytes of keyword `kw` off the front of `s`. -/
def stripKeyword : List Byte → List Byte → Option (List Byte)
  | [], s => some s
  | _ :: _, [] => none
  | k :: kw, b :: s => if k = b then stripKeyword kw s else none

/-- The scanner constant `maxNestingDepth`. -/
def maxNestingDepth : Nat := 10000

mutual

/-- Reads one JSON value (scanner state `stateBeginValue`), after optional
whitespace, with `depth` enclosing arrays and objects. The first argument
bounds the number of nested calls; the length of the input plus one is enough. -/
def parseValue : Nat → Nat → List Byte → Option (JValue × List Byte)
  | 0, _, _ => none
  | fuel + 1, depth, s =>
    match skipSpace s with
    | [] => none
    | c :: rest =>
      if c.val = 0x7B then
        if maxNestingDepth ≤ depth then none
        else
          match skipSpace rest with
          | [] => none
          | c1 :: rest1 =>
            if c1.val = 0x7D then some (JValue.object [], rest1)
            else
              match parseMembers fuel (depth + 1) (c1 :: rest1) with
              | some (ms, rest2) => some (JValue.object ms, rest2)
              | none => none
      else if c.val = 0x5B then
        if maxNestingDepth ≤ depth then none
        else
          match skipSpace rest with
          | [] => none
          | c1 :: rest1 =>
            if c1.val = 0x5D then some (JValue.array [], rest1)
            else
              match parseElements fuel (depth + 1) (c1 :: rest1) with
              | some (es, rest2) => some (JValue.array es, rest2)
              | none => none
      else if c.val = 0x22 then
        match parseStringBody rest.length rest with
        | some (str, rest1) => some (JValue.string str, rest1)
        | none => none
      else if c.val = 0x74 then (stripKeyword (goStr "rue") rest).map (fun r => (JValue.bool true, r))
      else if c.val = 0x66 then (stripKeyword (goStr "alse") rest).map (fun r => (JValue.bool false, r))
      else if c.val = 0x6E then (stripKeyword (goStr "ull") rest).map (fun r => (JValue.null, r))
      else
        match scanNumber (c :: rest) with
        | some (lit, rest1) => some (JValue.number lit, rest1)
        | none => none

/-- Reads the members of an object from the first key on (scanner states
`stateBeginString`, `stateEndValue` under `parseObjectKey` and
`parseObjectValue`), up to and including the closing brace. -/
def parseMembers : Nat → Nat → List Byte → Option (List (GoString × JValue) × List Byte)
  | 0, _, _ => none
  | fuel + 1, depth, s =>
    match s with
    | [] => none
    | q :: rest =>
      if q.val ≠ 0x22 then none
      else
        match parseStringBody rest.length rest with
        | none => none
        | some (key, rest1) =>
          match skipSpace rest1 with
          | [] => none
          | colon :: rest2 =>
            if colon.val ≠ 0x3A then none
            else
              match parseValue fuel depth rest2 with
              | none => none
              | some (v, rest3) =>
                match skipSpace rest3 with
                | [] => none
                | sep :: rest4 =>
                  if sep.val = 0x7D then some ([(key, v)], rest4)
                  else if sep.val = 0x2C then
                    match parseMembers fuel depth (skipSpace rest4) with
                    | some (ms, rest5) => some ((key, v) :: ms, rest5)
                    | none => none
                  else none

/-- Reads the elements of an array from the first element on (scanner state
`stateEndValue` under `parseArrayValue`), up to and including the closing
bracket. -/
def parseElements : Nat → Nat → List Byte → Option (List JValue × List Byte)
  | 0, _, _ => none
  | fuel + 1, depth, s =>
    match parseValue fuel depth s with
    | none => none
    | some (v, rest) =>
      match skipSpace rest with
      | [] => none
      | sep :: rest1 =>
        if sep.val = 0x5D then some ([v], rest1)
        else if sep.val = 0x2C then
          match parseElements fuel depth rest1 with
          | some (es, rest2) => some (v :: es, rest2)
          | none => none
        else none

end

/-- Function `checkValid` together with the reading of the value: a complete
JSON text is one value surrounded by optional whitespace. `none` stands for a
`*json.SyntaxError`. -/
def parseJSON (data : List Byte) : Option JValue :=
  match parseValue (data.length + 1) 0 data with
  | some (v, rest) => if (skipSpace rest).isEmpty then some v else none
  | none => none

/-! ### Struct values -/

/-- The errors `json.Unmarshal` reports for the struct types of this package. -/
inductive JsonError where
  /-- A `*json.SyntaxError`: the input is not a JSON text. -/
  | syntaxError
  /-- A `*json.UnmarshalTypeError`: the JSON value described by `value` does not
  fit the Go value it is stored into (`field` is empty at the top level). -/
  | unmarshalTypeError (value : GoString) (field : GoString)
  deriving DecidableEq

/-- The value of a struct field: the field kinds the struct types of this
package use. -/
inductive FieldVal where
  | str (s : GoString)
  | int (i : Int64)
  deriving DecidableEq

/-- Entry of the cached field list of a struct type (`typeFields`): the JSON key
of the tag, its `omitempty` option, and access to the field. -/
structure Field (α : Type) where
  name : GoString
  omitEmpty : Bool
  get : α → FieldVal
  set : α → FieldVal → α

/-- Function `isEmptyValue` for the field kinds in use: the empty string and
the integer zero. -/
def isEmptyValue (v : FieldVal) : Bool :=
  match v with
  | FieldVal.str s => s.isEmpty
  | FieldVal.int i => decide (i.val = 0)

/-- Encoder of a field value: `appendString` for strings, `strconv.AppendInt`
for integers. -/
def encodeValue (v : FieldVal) : List Byte :=
  match v with
  | FieldVal.str s => appendString s
  | FieldVal.int i => strconv.formatInt i.val

/-- Loop of `structEncoder.encode`: each field that is not omitted is written
after the byte `next` (the opening brace for the first, a comma afterwards) as
its quoted name, a colon and its value. For the keys of valid tags the quoted
name (`nameEscHTML`) is what `appendString` writes. -/
def encodeFields {α : Type} (v : α) : List (Field α) → Byte → List Byte
  | [], next => if next.val = 0x7B then [Byte.ofNat 0x7B, Byte.ofNat 0x7D] else [Byte.ofNat 0x7D]
  | f :: fs, next =>
    if f.omitEmpty && isEmptyValue (f.get v) then encodeFields v fs next
    else
      next :: (appendString f.name ++ Byte.ofNat 0x3A :: (encodeValue (f.get v)
        ++ encodeFields v fs (Byte.ofNat 0x2C)))

/-- Function `json.Marshal` applied to a pointer to a struct with field list
`fields`: `null` for the nil pointer. Values of these types are always
encodable, so the error result is nil. -/
def Marshal {α : Type} (fields : List (Field α)) (v : Option α) : List Byte × Option JsonError :=
  match v with
  | none => (goStr "null", none)
  | some v => (encodeFields v fields (Byte.ofNat 0x7B), none)

/-- Function `foldRune` restricted to what matters for ASCII names: U+017F and
U+212A are the only runes beyond ASCII whose case-folding orbit holds an ASCII
letter (`S` and `K`); every other rune beyond ASCII folds to a rune beyond
ASCII and is left as it is here. -/
def foldRune (r : Nat) : Nat :=
  if r = 0x17F then 0x53 else if r = 0x212A then 0x4B else r

/-- Loop of `appendFoldedName`: ASCII letters in upper case, other runes
folded. The first argument bounds the number of iterations. -/
def foldNameLoop : Nat → List Byte → List Byte
  | 0, _ => []
  | _ + 1, [] => []
  | fuel + 1, c :: rest =>
    if c.val < 0x80 then
      (if 0x61 ≤ c.val ∧ c.val ≤ 0x7A then Byte.ofNat (c.val - 0x20) else c) :: foldNameLoop fuel rest
    else
      let d := utf8.DecodeRune (c :: rest)
      utf8.EncodeRune (foldRune d.1) ++ foldNameLoop fuel (rest.drop (d.2 - 1))

/-- Function `foldName`: the key under which names are compared without regard
to case. -/
def foldName (s : GoString) : GoString := foldNameLoop s.length s

/-- Field lookup of `decodeState.object`: the field whose name is the key
(`byExactName`), or else the first field whose folded name is the folded key
(`byFoldedName`). -/
def findField {α : Type} (fields : List (Field α)) (key : GoString) : Option (Field α) :=
  match fields.find? (fun f => decide (f.name = key)) with
  | some f => some f
  | none => fields.find? (fun f => decide (foldName f.name = foldName key))

/-- Functions `literalStore`, `array` and `object` of the decoder for a field of
string or integer kind: `null` leaves the field as it is, a JSON string is
stored into a string field, a number that `strconv.ParseInt` accepts is stored
into an integer field, and anything else is an `UnmarshalTypeError` that
leaves the field as it is. -/
def storeValue {α : Type} (f : Field α) (target : α) (v : JValue) : α × Option JsonError :=
  match v, f.get target with
  | JValue.null, _ => (target, none)
  | JValue.string s, FieldVal.str _ => (f.set target (FieldVal.str s), none)
  | JValue.string _, FieldVal.int _ =>
    (target, some (JsonError.unmarshalTypeError (goStr "string") f.name))
  | JValue.number _, FieldVal.str _ =>
    (target, some (JsonError.unmarshalTypeError (goStr "number") f.name))
  | JValue.number lit, FieldVal.int _ =>
    match strconv.parseInt64 lit with
    | some i => (f.set target (FieldVal.int i), none)
    | none => (target, some (JsonError.unmarshalTypeError (goStr "number " ++ lit) f.name))
  | JValue.bool _, _ => (target, some (JsonError.unmarshalTypeError (goStr "bool") f.name))
  | JValue.array _, _ => (target, some (JsonError.unmarshalTypeError (goStr "array") f.name))
  | JValue.object _, _ => (target, some (JsonError.unmarshalTypeError (goStr "object") f.name))

/-- Function `saveError`: only the first error is kept. -/
def saveError (saved : Option JsonError) (err : Option JsonError) : Option JsonError :=
  match saved with
  | some e => some e
  | none => err

/-- Loop of `decodeState.object` for a struct target: members are stored in
order, members whose key names no field are skipped, and decoding goes on
after a type error. -/
def decodeMembers {α : Type} (fields : List (Field α)) :
    List (GoString × JValue) → α × Option JsonError → α × Option JsonError
  | [], st => st
  | (key, v) :: ms, st =>
    match findField fields key with
    | none => decodeMembers fields ms st
    | some f => decodeMembers fields ms ((storeValue f st.1 v).1, saveError st.2 (storeValue f st.1 v).2)

/-- Function `json.Unmarshal(data, &target)` for a struct with field list
`fields`: the new value of the target and the error result. A text that is not
JSON leaves the target as it is; `null` is a no-op; a JSON value that is not an
object is a type error. -/
def Unmarshal {α : Type} (fields : List (Field α)) (data : List Byte) (target : α) :
    α × Option JsonError :=
  match parseJSON data with
  | none => (target, some JsonError.syntaxError)
  | some (JValue.object ms) => decodeMembers fields ms (target, none)
  | some JValue.null => (target, none)
  | some (JValue.bool _) => (target, some (JsonError.unmarshalTypeError (goStr "bool") []))
  | some (JValue.number _) => (target, some (JsonError.unmarshalTypeError (goStr "number") []))
  | some (JValue.string _) => (target, some (JsonError.unmarshalTypeError (goStr "string") []))
  | some (JValue.array _) => (target, some (JsonError.unmarshalTypeError (goStr "array") []))

end json

/-! ## Go errors -/

/-- A Go `error` value. -/
inductive GoError where
  /-- An error known by its message (`errors.New`, `fmt.Errorf` without `%w`,
  or an error of a collaborator). -/
  | text (msg : GoString)
  /-- An error of package `encoding/json`. -/
  | json (e : json.JsonError)
  /-- The value of `fmt.Errorf(msg + "%w", inner)`. -/
  | wrap (msg : GoString) (inner : GoError)
  deriving DecidableEq

/-- Method `Error()`: the message of an error. The wording of the messages of
package `encoding/json` is not modelled; it is the parameter `jsonText`. -/
def GoError.Error (jsonText : json.JsonError → GoString) : GoError → GoString
  | GoError.text msg => msg
  | GoError.json e => jsonText e
  | GoError.wrap msg inner => msg ++ GoError.Error jsonText inner

/-! ## File `headers.go` -/

/-- Header key for payment requirements (server to client). -/
def HeaderPayment : GoString := goStr "X-Payment"

/-- Header key for the payment payload (client to server). -/
def HeaderPaymentResponse : GoString := goStr "X-Payment-Response"

/-- Header key used with the 402 status code. -/
def HeaderWWWAuthenticate : GoString := goStr "WWW-Authenticate"

/-- The "exact" payment scheme. -/
def SchemeExact : GoString := goStr "exact"

/-! ## File `types.go` -/

/-- Type `PaymentRequirements`: the payment details required by a server. -/
structure PaymentRequirements where
  Scheme : GoString
  Amount : GoString
  Token : GoString
  Chain : GoString
  Recipient : GoString
  Nonce : GoString
  Expiry : Int64
  Facilitator : GoString
  deriving DecidableEq

/-- Type `Payment`: a payment made by a client. -/
structure Payment where
  Scheme : GoString
  TxHash : GoString
  Chain : GoString
  Token : GoString
  Amount : GoString
  Sender : GoString
  Recipient : GoString
  Nonce : GoString
  Timestamp : Int64
  deriving DecidableEq

/-- The zero value of `PaymentRequirements`. -/
def PaymentRequirements.empty : PaymentRequirements :=
  { Scheme := [], Amount := [], Token := [], Chain := [], Recipient := [], Nonce := [],
    Expiry := Int64.zero, Facilitator := [] }

/-- The zero value of `Payment`. -/
def Payment.empty : Payment :=
  { Scheme := [], TxHash := [], Chain := [], Token := [], Amount := [], Sender := [],
    Recipient := [], Nonce := [], Timestamp := Int64.zero }

/-- Reads a string out of a field value (the value itself for a string field). -/
def strOf (d : GoString) (v : json.FieldVal) : GoString :=
  match v with
  | json.FieldVal.str s => s
  | json.FieldVal.int _ => d

/-- Reads an integer out of a field value. -/
def intOf (d : Int64) (v : json.FieldVal) : Int64 :=
  match v with
  | json.FieldVal.int i => i
  | json.FieldVal.str _ => d

/-- The JSON fields of `PaymentRequirements`, from its struct tags. -/
def PaymentRequirements.fields : List (json.Field PaymentRequirements) :=
  [ { name := goStr "scheme", omitEmpty := false, get := fun r => json.FieldVal.str r.Scheme,
      set := fun r v => { r with Scheme := strOf r.Scheme v } },
    { name := goStr "amount", omitEmpty := false, get := fun r => json.FieldVal.str r.Amount,
      set := fun r v => { r with Amount := strOf r.Amount v } },
    { name := goStr "token", omitEmpty := false, get := fun r => json.FieldVal.str r.Token,
      set := fun r v => { r with Token := strOf r.Token v } },
    { name := goStr "chain", omitEmpty := false, get := fun r => json.FieldVal.str r.Chain,
      set := fun r v => { r with Chain := strOf r.Chain v } },
    { name := goStr "recipient", omitEmpty := false, get := fun r => json.FieldVal.str r.Recipient,
      set := fun r v => { r with Recipient := strOf r.Recipient v } },
    { name := goStr "nonce", omitEmpty := true, get := fun r => json.FieldVal.str r.Nonce,
      set := fun r v => { r with Nonce := strOf r.Nonce v } },
    { name := goStr "expiry", omitEmpty := true, get := fun r => json.FieldVal.int r.Expiry,
      set := fun r v => { r with Expiry := intOf r.Expiry v } },
    { name := goStr "facilitator", omitEmpty := true,
      get := fun r => json.FieldVal.str r.Facilitator,
      set := fun r v => { r with Facilitator := strOf r.Facilitator v } } ]

/-- The JSON fields of `Payment`, from its struct tags. -/
def Payment.fields : List (json.Field Payment) :=
  [ { name := goStr "scheme", omitEmpty := false, get := fun p => json.FieldVal.str p.Scheme,
      set := fun p v => { p with Scheme := strOf p.Scheme v } },
    { name := goStr "txHash", omitEmpty := false, get := fun p => json.FieldVal.str p.TxHash,
      set := fun p v => { p with TxHash := strOf p.TxHash v } },
    { name := goStr "chain", omitEmpty := false, get := fun p => json.FieldVal.str p.Chain,
      set := fun p v => { p with Chain := strOf p.Chain v } },
    { name := goStr "token", omitEmpty := false, get := fun p => json.FieldVal.str p.Token,
      set := fun p v => { p with Token := strOf p.Token v } },
    { name := goStr "amount", omitEmpty := false, get := fun p => json.FieldVal.str p.Amount,
      set := fun p v => { p with Amount := strOf p.Amount v } },
    { name := goStr "sender", omitEmpty := false, get := fun p => json.FieldVal.str p.Sender,
      set := fun p v => { p with Sender := strOf p.Sender v } },
    { name := goStr "recipient", omitEmpty := false, get := fun p => json.FieldVal.str p.Recipient,
      set := fun p v => { p with Recipient := strOf p.Recipient v } },
    { name := goStr "nonce", omitEmpty := true, get := fun p => json.FieldVal.str p.Nonce,
      set := fun p v => { p with Nonce := strOf p.Nonce v } },
    { name := goStr "timestamp", omitEmpty := true, get := fun p => json.FieldVal.int p.Timestamp,
      set := fun p v => { p with Timestamp := intOf p.Timestamp v } } ]

/-- Wraps the error result of package `encoding/json` as a Go `error`. -/
def jsonErr (e : Option json.JsonError) : Option GoError := e.map GoError.json

/-- Method `(*PaymentRequirements).ToJSON`: the JSON string and the error
result. -/
def PaymentRequirements.ToJSON (pr : Option PaymentRequirements) : GoString × Option GoError :=
  match json.Marshal PaymentRequirements.fields pr with
  | (_, some err) => ([], some (GoError.json err))
  | (data, none) => (data, none)

/-- Method `(*Payment).ToJSON`: the JSON string and the error result. -/
def Payment.ToJSON (p : Option Payment) : GoString × Option GoError :=
  match json.Marshal Payment.fields p with
  | (_, some err) => ([], some (GoError.json err))
  | (data, none) => (data, none)

/-- Method `(*Payment).FromJSON` on a receiver that is not nil: the value of the
receiver after the call and the error result. -/
def Payment.FromJSON (p : Payment) (jsonStr : GoString) : Payment × Option GoError :=
  ((json.Unmarshal Payment.fields jsonStr p).1, jsonErr (json.Unmarshal Payment.fields jsonStr p).2)

/-! ## Package `time` -/

/-- A `time.Time`: seconds since the Unix epoch and nanoseconds within the
second (`0 ≤ nsec < 10^9`). The monotonic clock reading is not modelled. -/
structure Time where
  sec : Int
  nsec : Int
  deriving DecidableEq

/-- Method `Time.Add` for a duration of `d` nanoseconds. -/
def Time.Add (t : Time) (d : Int) : Time :=
  let dsec := Int.tdiv d 1000000000
  let nsec := t.nsec + Int.tmod d 1000000000
  if 1000000000 ≤ nsec then { sec := t.sec + dsec + 1, nsec := nsec - 1000000000 }
  else if nsec < 0 then { sec := t.sec + dsec - 1, nsec := nsec + 1000000000 }
  else { sec := t.sec + dsec, nsec := nsec }

/-- Method `Time.Unix`: seconds since the Unix epoch as an `int64`. -/
def Time.Unix (t : Time) : Int64 := Int64.wrap t.sec

/-- The constant `time.Minute` in nanoseconds. -/
def Minute : Int := 60000000000

/-- What the code takes from its surroundings, over a state `σ` of the world:
the wall clock (`time.Now`), the system random source (`crypto/rand.Read` of
`n` bytes), and the wording of the messages of the errors of package
`encoding/json`, which is not modelled. -/
structure Runtime (σ : Type) where
  Now : σ → Time × σ
  RandRead : Nat → σ → List Byte × σ
  jsonText : json.JsonError → GoString

/-! ## Package `encoding/base64` -/

namespace base64

/-- The alphabet `encodeURL`. -/
def encodeURL (n : Nat) : Byte :=
  if n < 26 then Byte.ofNat (65 + n)
  else if n < 52 then Byte.ofNat (97 + (n - 26))
  else if n < 62 then Byte.ofNat (48 + (n - 52))
  else if n = 62 then Byte.ofNat 45
  else Byte.ofNat 95

/-- Method `base64.URLEncoding.EncodeToString`, with padding. -/
def EncodeToString : List Byte → GoString
  | [] => []
  | [a] => [encodeURL (a.val / 4), encodeURL (a.val % 4 * 16), Byte.ofNat 61, Byte.ofNat 61]
  | [a, b] =>
    [encodeURL (a.val / 4), encodeURL (a.val % 4 * 16 + b.val / 16),
      encodeURL (b.val % 16 * 4), Byte.ofNat 61]
  | a :: b :: c :: rest =>
    encodeURL (a.val / 4) :: encodeURL (a.val % 4 * 16 + b.val / 16)
      :: encodeURL (b.val % 16 * 4 + c.val / 64) :: encodeURL (c.val % 64) :: EncodeToString rest

end base64

/-! ## Package `net/http` -/

namespace http

/-- Function `validHeaderFieldByte`: the bytes of an HTTP token. -/
def validHeaderFieldByte (c : Byte) : Bool :=
  (decide (0x30 ≤ c.val) && decide (c.val ≤ 0x39)) || (decide (0x41 ≤ c.val) && decide (c.val ≤ 0x5A))
    || (decide (0x61 ≤ c.val) && decide (c.val ≤ 0x7A))
    || [0x21, 0x23, 0x24, 0x25, 0x26, 0x27, 0x2A, 0x2B, 0x2D, 0x2E, 0x5E, 0x5F, 0x60, 0x7C, 0x7E].contains c.val

/-- Case loop of `canonicalMIMEHeaderKey`: upper case at the start and after a
hyphen, lower case elsewhere. -/
def canonicalLoop : Bool → List Byte → List Byte
  | _, [] => []
  | upper, c :: rest =>
    let c1 : Byte :=
      if upper ∧ 0x61 ≤ c.val ∧ c.val ≤ 0x7A then Byte.ofNat (c.val - 0x20)
      else if ¬ upper ∧ 0x41 ≤ c.val ∧ c.val ≤ 0x5A then Byte.ofNat (c.val + 0x20)
      else c
    c1 :: canonicalLoop (decide (c1.val = 0x2D)) rest

/-- Function `textproto.CanonicalMIMEHeaderKey`: a key made of token bytes is
put in canonical case, any other key is returned as it is. -/
def CanonicalMIMEHeaderKey (s : GoString) : GoString :=
  if s.all validHeaderFieldByte then canonicalLoop true s else s

end http

/-- Type `http.Header`: the map from keys to their values, as an association
list that holds each key once. -/
abbrev Header := List (GoString × List GoString)

/-- Method `Header.Get`: the first value under the canonical form of `key`, the
empty string when there is none. -/
def Header.Get (h : Header) (key : GoString) : GoString :=
  match h.lookup (http.CanonicalMIMEHeaderKey key) with
  | some (v :: _) => v
  | _ => []

/-- Method `Header.Del`. -/
def Header.Del (h : Header) (key : GoString) : Header :=
  h.filter (fun kv => decide (kv.1 ≠ http.CanonicalMIMEHeaderKey key))

/-- Method `Header.Set`: the single value `value` under the canonical form of
`key`. -/
def Header.Set (h : Header) (key : GoString) (value : GoString) : Header :=
  (http.CanonicalMIMEHeaderKey key, [value]) :: Header.Del h key

/-- An `io.ReadCloser` used as a request body, by what reading it to the end
gives from its current state on: the bytes read and the error that ends the
reading (`none` for end of file). -/
structure Body where
  data : GoString
  err : Option GoError
  deriving DecidableEq

/-- Type `PaymentContext`: information about a verified payment. -/
structure PaymentContext where
  Payment : Payment
  Verified : Bool
  VerifiedAt : Time
  deriving DecidableEq

/-- Keys of context values: keys of type `contextKey` of this package, and keys
of any other type. -/
inductive CtxKey where
  | contextKey (s : GoString)
  | other (s : GoString)
  deriving DecidableEq

/-- Context values: a pointer to a `PaymentContext`, or a value of any other
type. -/
inductive CtxValue where
  | paymentContext (pc : PaymentContext)
  | other (v : GoString)
  deriving DecidableEq

/-- A `context.Context`, by the values it carries, the innermost first. -/
abbrev Context := List (CtxKey × CtxValue)

/-- Function `context.WithValue`. -/
def Context.WithValue (ctx : Context) (key : CtxKey) (val : CtxValue) : Context :=
  (key, val) :: ctx

/-- Method `Context.Value`; `none` stands for nil. -/
def Context.Value (ctx : Context) (key : CtxKey) : Option CtxValue := ctx.lookup key

/-- Type `http.Request`, by the parts the package touches. -/
structure Request where
  Method : GoString
  URL : GoString
  Header : Header
  Body : Option Body
  ctx : Context
  deriving DecidableEq

/-- Method `Request.Context`. -/
def Request.Context (r : Request) : Context := r.ctx

/-- Method `Request.WithContext`. -/
def Request.WithContext (r : Request) (ctx : X402.Context) : Request := { r with ctx := ctx }

/-- An `http.ResponseWriter`: the header map handlers write to, the status code
and the headers as sent by the first `WriteHeader` (`none` before it), and the
body written so far. -/
structure ResponseWriter where
  header : Header
  sent : Option (Nat × Header)
  body : List Byte
  deriving DecidableEq

/-- A response writer nothing has been written to. -/
def ResponseWriter.fresh : ResponseWriter := { header := [], sent := none, body := [] }

/-- Status code of the response, once the header is written. -/
def ResponseWriter.status (w : ResponseWriter) : Option Nat := w.sent.map (fun x => x.1)

/-- Headers of the response, once the header is written. -/
def ResponseWriter.sentHeader (w : ResponseWriter) : Option Header := w.sent.map (fun x => x.2)

/-- Method `ResponseWriter.WriteHeader`: sends the status code with the headers
set so far; a second call has no effect. -/
def ResponseWriter.WriteHeader (w : ResponseWriter) (code : Nat) : ResponseWriter :=
  match w.sent with
  | some _ => w
  | none => { w with sent := some (code, w.header) }

/-- Method `ResponseWriter.Write`: writes the header with status 200 if it is
not written yet, then the data. -/
def ResponseWriter.Write (w : ResponseWriter) (data : List Byte) : ResponseWriter :=
  { (w.WriteHeader 200) with body := (w.WriteHeader 200).body ++ data }

/-- Sets a header of the response writer (`w.Header().Set`). -/
def ResponseWriter.SetHeader (w : ResponseWriter) (key value : GoString) : ResponseWriter :=
  { w with header := w.header.Set key value }

namespace http

/-- Status codes of package `net/http`. -/
def StatusBadRequest : Nat := 400

/-- Status code 402. -/
def StatusPaymentRequired : Nat := 402

/-- Status code 500. -/
def StatusInternalServerError : Nat := 500

/-- Function `http.Error`: plain-text error reply with the given status code. -/
def Error (w : ResponseWriter) (error : GoString) (code : Nat) : ResponseWriter :=
  let w1 : ResponseWriter := { w with header := w.header.Del (goStr "Content-Length") }
  let w2 := w1.SetHeader (goStr "Content-Type") (goStr "text/plain; charset=utf-8")
  let w3 := w2.SetHeader (goStr "X-Content-Type-Options") (goStr "nosniff")
  (w3.WriteHeader code).Write (error ++ goStr "\n")

end http

/-! ## File `middleware.go`

The collaborators of the middleware (verifier, callbacks, nonce generator,
wrapped handler) act on the state `σ` of the world, and on what they are handed
by pointer: the verifier on the payment and on the configured requirements,
`OnPaymentVerified` on the payment and on the request. Each call of a
collaborator is recorded in a trace. -/

/-- The context key for storing payment information. -/
def paymentContextKey : CtxKey := CtxKey.contextKey (goStr "x402_payment")

/-- Interface `PaymentVerifier`. Method `Verify` is handed a pointer to the
payment and the pointer `config.Requirements`; a call is given in two parts:
`Verify` is the verdict, the error result and the new state of the world, and
`Writes` is what the call leaves in the payment and in the requirements it
points to. -/
structure PaymentVerifier (σ : Type) where
  Verify : Payment → PaymentRequirements → σ → (Bool × Option GoError) × σ
  Writes : Payment → PaymentRequirements → σ → Payment × PaymentRequirements

/-- An `http.Handler` given by the application. -/
abbrev Handler (σ : Type) := ResponseWriter → Request → σ → ResponseWriter × σ

/-- Type `MiddlewareConfig`. Pointer, interface and function fields are `none`
when nil; `ExpiryDuration` is a `time.Duration` in nanoseconds. The request
argument of `OnPaymentRequired` is a pointer. `OnPaymentVerified` is handed a
pointer to the payment and the pointer to the request: it returns what it
leaves in both, and the new state of the world. -/
structure MiddlewareConfig (σ : Type) where
  Requirements : Option PaymentRequirements
  Verifier : Option (PaymentVerifier σ)
  OnPaymentVerified : Option (Payment → Request → σ → Payment × Request × σ)
  OnPaymentRequired : Option (ResponseWriter → Option Request → σ → ResponseWriter × σ)
  NonceGenerator : Option (σ → GoString × σ)
  ExpiryDuration : Int

/-- The configuration as the handler closure finds it once
`RequirePaymentWithConfig` has checked `Requirements` and set the defaults. -/
structure Config (σ : Type) where
  Requirements : PaymentRequirements
  Verifier : PaymentVerifier σ
  OnPaymentVerified : Option (Payment → Request → σ → Payment × Request × σ)
  OnPaymentRequired : Option (ResponseWriter → Option Request → σ → ResponseWriter × σ)
  NonceGenerator : σ → GoString × σ
  ExpiryDuration : Int

/-- Calls of collaborators made while a request is handled. -/
inductive Event where
  /-- Call of `config.Verifier.Verify`. -/
  | verify (payment : Payment) (requirements : PaymentRequirements)
  /-- Call of `config.OnPaymentVerified`. -/
  | paymentVerified (payment : Payment) (r : Request)
  /-- Call of `config.OnPaymentRequired`. -/
  | paymentRequired (r : Option Request)
  /-- Call of `config.NonceGenerator`. -/
  | nonce
  /-- Call of `next.ServeHTTP`. -/
  | next (r : Request)
  deriving DecidableEq

/-- What handling a request leaves: the response writer, the world, the calls
made, in order, and the value `config.Requirements` points to. -/
structure Outcome (σ : Type) where
  w : ResponseWriter
  world : σ
  trace : List Event
  requirements : PaymentRequirements

/-- Method `(*DefaultVerifier).Verify`: basic validation of chain, token,
amount and recipient. -/
def DefaultVerifier.Verify (payment : Payment) (requirements : PaymentRequirements) :
    Bool × Option GoError :=
  if payment.Chain ≠ requirements.Chain then (false, none)
  else if payment.Token ≠ requirements.Token then (false, none)
  else if payment.Amount ≠ requirements.Amount then (false, none)
  else if payment.Recipient ≠ requirements.Recipient then (false, none)
  else (true, none)

/-- The value `&DefaultVerifier{}` as a `PaymentVerifier`. -/
def DefaultVerifier (σ : Type) : PaymentVerifier σ :=
  { Verify := fun payment requirements s => (DefaultVerifier.Verify payment requirements, s),
    Writes := fun payment requirements _ => (payment, requirements) }

/-- Function `generateNonce`: 16 random bytes in URL-safe base64. The buffer
starts zeroed and the result of `rand.Read` is not checked. -/
def generateNonce {σ : Type} (rt : Runtime σ) (s : σ) : GoString × σ :=
  let b := ((rt.RandRead 16 s).1 ++ List.replicate 16 (Byte.ofNat 0)).take 16
  (base64.EncodeToString b, (rt.RandRead 16 s).2)

/-- Body written by `json.NewEncoder(w).Encode` for the map with keys `error`
and `payment` (keys in sorted order, a newline at the end). -/
def paymentRequiredBody (requirements : PaymentRequirements) : List Byte :=
  goStr "\x7b\"error\":" ++ json.appendString (goStr "Payment Required") ++ goStr ",\"payment\":"
    ++ (json.Marshal PaymentRequirements.fields (some requirements)).1 ++ goStr "\x7d\n"

/-- Function `sendPaymentRequired`: sends a 402 Payment Required response with
the payment requirements. Nonce and expiry are set in a copy of
`*config.Requirements`. -/
def sendPaymentRequired {σ : Type} (rt : Runtime σ) (w : ResponseWriter) (config : Config σ)
    (s : σ) : Outcome σ :=
  match config.OnPaymentRequired with
  | some hook =>
    { w := (hook w none s).1, world := (hook w none s).2, trace := [Event.paymentRequired none],
      requirements := config.Requirements }
  | none =>
    -- Set nonce and expiry if not already set
    let requirements := config.Requirements
    let noNonce := decide (requirements.Nonce = [])
    let s1 := if noNonce then (config.NonceGenerator s).2 else s
    let requirements1 :=
      if noNonce then { requirements with Nonce := (config.NonceGenerator s).1 } else requirements
    let noExpiry := decide (requirements1.Expiry.val = 0)
    let s2 := if noExpiry then (rt.Now s1).2 else s1
    let requirements2 :=
      if noExpiry then
        { requirements1 with Expiry := ((rt.Now s1).1.Add config.ExpiryDuration).Unix }
      else requirements1
    let trace := if noNonce then [Event.nonce] else []
    -- Convert requirements to JSON
    match PaymentRequirements.ToJSON (some requirements2) with
    | (_, some _) =>
      { w := http.Error w (goStr "Failed to generate payment requirements")
          http.StatusInternalServerError,
        world := s2, trace := trace, requirements := config.Requirements }
    | (reqJSON, none) =>
      -- Set headers
      let w1 := w.SetHeader HeaderPayment reqJSON
      let w2 := w1.SetHeader HeaderWWWAuthenticate (goStr "X-Payment")
      let w3 := w2.SetHeader (goStr "Content-Type") (goStr "application/json")
      -- Send 402 response
      let w4 := w3.WriteHeader http.StatusPaymentRequired
      { w := w4.Write (paymentRequiredBody requirements2), world := s2, trace := trace,
        requirements := config.Requirements }

/-- The handler closure returned by `RequirePaymentWithConfig`, for the value
`config.Requirements` points to when the request comes in. The verifier and
`OnPaymentVerified` are handed a pointer to the decoded payment, which is
copied into the context after both have run. -/
def paymentHandler {σ : Type} (rt : Runtime σ) (config : Config σ) (next : Handler σ)
    (w : ResponseWriter) (r : Request) (s : σ) : Outcome σ :=
  -- Check if payment response header is present
  let paymentHeader := r.Header.Get HeaderPaymentResponse
  if paymentHeader = [] then
    -- No payment provided, return 402 with requirements
    sendPaymentRequired rt w config s
  else
    -- Parse payment from header
    match json.Unmarshal Payment.fields paymentHeader Payment.empty with
    | (_, some _) =>
      { w := http.Error w (goStr "Invalid payment format") http.StatusBadRequest, world := s,
        trace := [], requirements := config.Requirements }
    | (payment, none) =>
      -- Verify payment
      let payment1 := (config.Verifier.Writes payment config.Requirements s).1
      let requirements1 := (config.Verifier.Writes payment config.Requirements s).2
      match config.Verifier.Verify payment config.Requirements s with
      | ((_, some err), s1) =>
        { w := http.Error w (goStr "Payment verification failed: " ++ err.Error rt.jsonText)
            http.StatusBadRequest,
          world := s1, trace := [Event.verify payment config.Requirements],
          requirements := requirements1 }
      | ((false, none), s1) =>
        { w := http.Error w (goStr "Payment verification failed") http.StatusPaymentRequired,
          world := s1, trace := [Event.verify payment config.Requirements],
          requirements := requirements1 }
      | ((true, none), s1) =>
        -- Payment verified, call callback if provided
        let left := match config.OnPaymentVerified with
          | some hook => hook payment1 r s1
          | none => (payment1, r, s1)
        let hooked := match config.OnPaymentVerified with
          | some _ => [Event.paymentVerified payment1 r]
          | none => []
        let payment2 := left.1
        let r2 := left.2.1
        let s2 := left.2.2
        -- Add payment to context
        let ctx := r2.Context.WithValue paymentContextKey
          (CtxValue.paymentContext
            { Payment := payment2, Verified := true, VerifiedAt := (rt.Now s2).1 })
        -- Continue to next handler
        let r3 := r2.WithContext ctx
        { w := (next w r3 (rt.Now s2).2).1, world := (next w r3 (rt.Now s2).2).2,
          trace := Event.verify payment config.Requirements :: (hooked ++ [Event.next r3]),
          requirements := requirements1 }

/-- The step "Set defaults" of `RequirePaymentWithConfig`, for requirements
that are not nil: `generateNonce`, five minutes and `&DefaultVerifier{}` take
the place of what is unset. -/
def setDefaults {σ : Type} (rt : Runtime σ) (config : MiddlewareConfig σ)
    (requirements : PaymentRequirements) : Config σ :=
  { Requirements := requirements,
    Verifier := match config.Verifier with
      | some v => v
      | none => DefaultVerifier σ,
    OnPaymentVerified := config.OnPaymentVerified,
    OnPaymentRequired := config.OnPaymentRequired,
    NonceGenerator := match config.NonceGenerator with
      | some g => g
      | none => generateNonce rt,
    ExpiryDuration := if config.ExpiryDuration = 0 then 5 * Minute else config.ExpiryDuration }

/-- Function `RequirePaymentWithConfig`: the middleware with custom
configuration; `none` stands for the panic on nil requirements. The handler is
given as it is while `config.Requirements` points to the configured value; a
request leaves in `requirements` the value a later request finds there. -/
def RequirePaymentWithConfig {σ : Type} (rt : Runtime σ) (config : MiddlewareConfig σ)
    (next : Handler σ) : Option (ResponseWriter → Request → σ → Outcome σ) :=
  match config.Requirements with
  | none => none
  | some requirements => some (paymentHandler rt (setDefaults rt config requirements) next)

/-- Function `RequirePayment`: middleware that requires payment before
processing requests. -/
def RequirePayment {σ : Type} (rt : Runtime σ) (requirements : Option PaymentRequirements)
    (next : Handler σ) : Option (ResponseWriter → Request → σ → Outcome σ) :=
  RequirePaymentWithConfig rt
    { Requirements := requirements, Verifier := none, OnPaymentVerified := none,
      OnPaymentRequired := none, NonceGenerator := none, ExpiryDuration := 0 }
    next

/-- Function `GetPayment`: the payment information of the request context and
whether it is there. -/
def GetPayment (r : Request) : Option PaymentContext × Bool :=
  match r.Context.Value paymentContextKey with
  | none => (none, false)
  | some (CtxValue.paymentContext pc) => (some pc, true)
  | some (CtxValue.other _) => (none, false)

/-! ## File `client.go` -/

/-- Type `http.Response`, by the parts the package touches. -/
structure Response where
  StatusCode : Nat
  Header : Header
  Body : GoString
  deriving DecidableEq

/-- Result of `(*http.Client).Do`: a response without error, or an error
(with which a response comes only when a redirect check fails). -/
inductive RoundTrip where
  | response (resp : Response)
  | failure (resp : Option Response) (err : GoError)
  deriving DecidableEq

/-- The Go result pair `(*http.Response, error)` of a round trip. -/
def RoundTrip.pair (rt : RoundTrip) : Option Response × Option GoError :=
  match rt with
  | RoundTrip.response resp => (some resp, none)
  | RoundTrip.failure resp err => (resp, some err)

/-- Type `Client`: an HTTP client that handles x402 payments. Method `Do` of
the underlying `*http.Client` returns its result, the state in which it leaves
the body of the request it was given (which it reads and closes), and the new
state of the world. -/
structure Client (σ : Type) where
  httpClient : Request → σ → RoundTrip × Option Body × σ
  PaymentHandler : Option (PaymentRequirements → σ → (Option Payment × Option GoError) × σ)
  MaxRetries : Int

/-- Function `NewClient`, over the given `http.Client`. -/
def NewClient {σ : Type} (httpClient : Request → σ → RoundTrip × Option Body × σ) : Client σ :=
  { httpClient := httpClient, PaymentHandler := none, MaxRetries := 1 }

/-- Function `NewClientWithHandler`, over the given `http.Client`. -/
def NewClientWithHandler {σ : Type} (httpClient : Request → σ → RoundTrip × Option Body × σ)
    (handler : PaymentRequirements → σ → (Option Payment × Option GoError) × σ) : Client σ :=
  { httpClient := httpClient, PaymentHandler := some handler, MaxRetries := 1 }

/-- Calls made by the client while it executes a request. -/
inductive ClientEvent where
  /-- Call of `c.httpClient.Do` with this request. -/
  | send (req : Request)
  /-- Call of `c.PaymentHandler` with these requirements. -/
  | pay (requirements : PaymentRequirements)
  /-- Deferred call of `Body.Close` on the 402 response. -/
  | close (resp : Response)
  deriving DecidableEq

/-- What `Do` leaves: its result pair, the world, and the calls made, in order. -/
structure ClientOutcome (σ : Type) where
  resp : Option Response
  err : Option GoError
  world : σ
  trace : List ClientEvent

/-- Function `cloneRequest`: a copy of the request. When the request has a body
it is read to the end; a read error is returned, otherwise both the request
and the copy get a fresh reader over the bytes read. Returns the request as it
is left, and the copy or the error. -/
def cloneRequest (req : Request) : Request × Except GoError Request :=
  let clone := req
  -- If original request had a body, we need to copy it
  match req.Body with
  | some body =>
    match body.err with
    | some err => (req, Except.error err)
    | none =>
      ({ req with Body := some { data := body.data, err := none } },
        Except.ok { clone with Body := some { data := body.data, err := none } })
  | none => (req, Except.ok clone)

/-- Method `(*Client).handlePaymentRequired`: processes a 402 response and
retries with payment. -/
def Client.handlePaymentRequired {σ : Type} (c : Client σ) (originalReq : Request)
    (paymentResp : Response) (s : σ) : ClientOutcome σ :=
  -- Extract payment requirements from header
  let paymentHeader := paymentResp.Header.Get HeaderPayment
  if paymentHeader = [] then
    { resp := none,
      err := some (GoError.text (goStr "402 response missing " ++ HeaderPayment ++ goStr " header")),
      world := s, trace := [ClientEvent.close paymentResp] }
  else
    -- Parse payment requirements
    match json.Unmarshal PaymentRequirements.fields paymentHeader PaymentRequirements.empty with
    | (_, some err) =>
      { resp := none,
        err := some (GoError.wrap (goStr "failed to parse payment requirements: ") (GoError.json err)),
        world := s, trace := [ClientEvent.close paymentResp] }
    | (requirements, none) =>
      -- Check if we have a payment handler
      match c.PaymentHandler with
      | none =>
        { resp := none,
          err := some (GoError.text (goStr "payment required but no payment handler configured")),
          world := s, trace := [ClientEvent.close paymentResp] }
      | some handler =>
        -- Call payment handler to make payment
        match handler requirements s with
        | ((_, some err), s1) =>
          { resp := none, err := some (GoError.wrap (goStr "payment handler failed: ") err),
            world := s1, trace := [ClientEvent.pay requirements, ClientEvent.close paymentResp] }
        | ((payment, none), s1) =>
          -- Convert payment to JSON
          match Payment.ToJSON payment with
          | (_, some err) =>
            { resp := none, err := some (GoError.wrap (goStr "failed to encode payment: ") err),
              world := s1, trace := [ClientEvent.pay requirements, ClientEvent.close paymentResp] }
          | (paymentJSON, none) =>
            -- Clone the original request
            match cloneRequest originalReq with
            | (_, Except.error err) =>
              { resp := none, err := some (GoError.wrap (goStr "failed to clone request: ") err),
                world := s1,
                trace := [ClientEvent.pay requirements, ClientEvent.close paymentResp] }
            | (_, Except.ok retryReq) =>
              -- Add payment response header
              let retryReq1 : Request :=
                { retryReq with Header := retryReq.Header.Set HeaderPaymentResponse paymentJSON }
              -- Retry request with payment
              { resp := (c.httpClient retryReq1 s1).1.pair.1,
                err := (c.httpClient retryReq1 s1).1.pair.2,
                world := (c.httpClient retryReq1 s1).2.2,
                trace := [ClientEvent.pay requirements, ClientEvent.send retryReq1,
                  ClientEvent.close paymentResp] }

/-- Method `(*Client).Do`: executes an HTTP request and handles 402 payment
requirements. -/
def Client.Do {σ : Type} (c : Client σ) (req : Request) (s : σ) : ClientOutcome σ :=
  match c.httpClient req s with
  | (RoundTrip.failure _ err, _, s1) =>
    { resp := none, err := some err, world := s1, trace := [ClientEvent.send req] }
  | (RoundTrip.response resp, body1, s1) =>
    -- If not 402, return response as-is
    if resp.StatusCode ≠ http.StatusPaymentRequired then
      { resp := some resp, err := none, world := s1, trace := [ClientEvent.send req] }
    else
      -- Handle payment requirement
      let out := c.handlePaymentRequired { req with Body := body1 } resp s1
      { out with trace := ClientEvent.send req :: out.trace }

/-! ## File `types.go`: the messages of the facilitator -/

/-- Type `VerifyRequest`: a request to verify a payment. -/
structure VerifyRequest where
  TxHash : GoString
  Chain : GoString
  deriving DecidableEq

/-- Type `VerifyResponse`: a response from payment verification. -/
structure VerifyResponse where
  Valid : Bool
  TxHash : GoString
  Chain : GoString
  Token : GoString
  Amount : GoString
  Sender : GoString
  Recipient : GoString
  Error : GoString
  deriving DecidableEq

/-- Type `SettleRequest`: a request to settle a payment. -/
structure SettleRequest where
  Payment : Payment
  deriving DecidableEq

/-- Type `SettleResponse`: a response from payment settlement. -/
structure SettleResponse where
  Settled : Bool
  TxHash : GoString
  Error : GoString
  Timestamp : Int64
  deriving DecidableEq

/-- The zero value of `VerifyRequest`. -/
def VerifyRequest.empty : VerifyRequest := { TxHash := [], Chain := [] }

/-- The zero value of `SettleRequest`. -/
def SettleRequest.empty : SettleRequest := { Payment := Payment.empty }

/-- The JSON fields of `VerifyRequest`, from its struct tags. -/
def VerifyRequest.fields : List (json.Field VerifyRequest) :=
  [ { name := goStr "txHash", omitEmpty := false, get := fun r => json.FieldVal.str r.TxHash,
      set := fun r v => { r with TxHash := strOf r.TxHash v } },
    { name := goStr "chain", omitEmpty := false, get := fun r => json.FieldVal.str r.Chain,
      set := fun r v => { r with Chain := strOf r.Chain v } } ]

namespace json

/-- A field as the struct encoder finds it in a value of a response type: of
string, integer or boolean kind. -/
inductive Encoded where
  | str (s : GoString)
  | int (i : Int64)
  | bool (b : Bool)
  deriving DecidableEq

/-- Function `isEmptyValue` for these kinds: the empty string, zero and false. -/
def Encoded.isEmpty (v : Encoded) : Bool :=
  match v with
  | Encoded.str s => s.isEmpty
  | Encoded.int i => decide (i.val = 0)
  | Encoded.bool b => !b

/-- Encoder of a field value: `appendString`, `strconv.AppendInt`, and `true`
or `false` for a boolean. -/
def Encoded.encode (v : Encoded) : List Byte :=
  match v with
  | Encoded.str s => appendString s
  | Encoded.int i => strconv.formatInt i.val
  | Encoded.bool b => if b then goStr "true" else goStr "false"

/-- Loop of `structEncoder.encode` over the fields of a value, each given by
its key, its `omitempty` option and its value: the loop of `encodeFields`. -/
def encodeStruct : List (GoString × Bool × Encoded) → Byte → List Byte
  | [], next => if next.val = 0x7B then [Byte.ofNat 0x7B, Byte.ofNat 0x7D] else [Byte.ofNat 0x7D]
  | (name, omitEmpty, v) :: fs, next =>
    if omitEmpty && v.isEmpty then encodeStruct fs next
    else
      next :: (appendString name ++ Byte.ofNat 0x3A :: (v.encode ++ encodeStruct fs (Byte.ofNat 0x2C)))

/-- Encoding of a `map[string]string` with the single key `key`. -/
def encodeMap1 (key value : GoString) : List Byte :=
  Byte.ofNat 0x7B :: (appendString key ++ Byte.ofNat 0x3A :: (appendString value ++ [Byte.ofNat 0x7D]))

/-- Method `(*Encoder).Encode` on `json.NewEncoder(w)`, for a value whose
encoding is `data`: the encoding and a newline are written to `w`. -/
def Encode (w : ResponseWriter) (data : List Byte) : ResponseWriter :=
  w.Write (data ++ [Byte.ofNat 0x0A])

/-- The errors of `(*Decoder).Decode` on a fresh decoder. -/
inductive DecodeError where
  /-- No JSON value could be read from the stream: a `*json.SyntaxError`,
  `io.EOF`, `io.ErrUnexpectedEOF` or the read error of the stream. -/
  | noValue
  /-- The value was read and storing it failed. -/
  | value (e : JsonError)
  deriving DecidableEq

/-- Function `decodeState.value` for a struct target with field list `fields`:
an object is stored member by member, `null` is a no-op, and a JSON value of
another kind is a type error. -/
def storeStruct {α : Type} (fields : List (Field α)) (v : JValue) (target : α) :
    α × Option JsonError :=
  match v with
  | JValue.object ms => decodeMembers fields ms (target, none)
  | JValue.null => (target, none)
  | JValue.bool _ => (target, some (JsonError.unmarshalTypeError (goStr "bool") []))
  | JValue.number _ => (target, some (JsonError.unmarshalTypeError (goStr "number") []))
  | JValue.string _ => (target, some (JsonError.unmarshalTypeError (goStr "string") []))
  | JValue.array _ => (target, some (JsonError.unmarshalTypeError (goStr "array") []))

/-- Whether a value is an object or an array. -/
def JValue.isComposite (v : JValue) : Bool :=
  match v with
  | JValue.object _ => true
  | JValue.array _ => true
  | _ => false

/-- Method `(*Decoder).Decode` on `json.NewDecoder(body)`: the first JSON value
of the stream is read (`readValue`) and stored into the target by `store`;
what follows the value is left unread. A value that is not an object or an
array ends only at the byte after it or at the end of the stream, so that it
is lost when the stream ends with a read error right after it. Returns the new
value of the target and the error result. -/
def Decode {α : Type} (store : JValue → α → α × Option JsonError) (body : Body) (target : α) :
    α × Option DecodeError :=
  match parseValue (body.data.length + 1) 0 body.data with
  | none => (target, some DecodeError.noValue)
  | some (v, rest) =>
    if rest.isEmpty && body.err.isSome && !v.isComposite then (target, some DecodeError.noValue)
    else ((store v target).1, (store v target).2.map DecodeError.value)

end json

/-- The JSON encoding of a `*VerifyResponse`, from its struct tags; `null` for
the nil pointer. -/
def VerifyResponse.marshal (v : Option VerifyResponse) : List Byte :=
  match v with
  | none => goStr "null"
  | some v =>
    json.encodeStruct
      [ (goStr "valid", false, json.Encoded.bool v.Valid),
        (goStr "txHash", false, json.Encoded.str v.TxHash),
        (goStr "chain", false, json.Encoded.str v.Chain),
        (goStr "token", false, json.Encoded.str v.Token),
        (goStr "amount", false, json.Encoded.str v.Amount),
        (goStr "sender", false, json.Encoded.str v.Sender),
        (goStr "recipient", false, json.Encoded.str v.Recipient),
        (goStr "error", true, json.Encoded.str v.Error) ]
      (Byte.ofNat 0x7B)

/-- The JSON encoding of a `*SettleResponse`, from its struct tags; `null` for
the nil pointer. -/
def SettleResponse.marshal (v : Option SettleResponse) : List Byte :=
  match v with
  | none => goStr "null"
  | some v =>
    json.encodeStruct
      [ (goStr "settled", false, json.Encoded.bool v.Settled),
        (goStr "txHash", true, json.Encoded.str v.TxHash),
        (goStr "error", true, json.Encoded.str v.Error),
        (goStr "timestamp", true, json.Encoded.int v.Timestamp) ]
      (Byte.ofNat 0x7B)

/-- Loop of `decodeState.object` for a `SettleRequest`: the member whose key is
`payment` (exactly, or else without regard to case) is stored into the field
`Payment`, an object member by member, `null` as a no-op and a value of
another kind as a type error; other members are skipped. -/
def SettleRequest.storeMembers :
    List (GoString × json.JValue) → SettleRequest × Option json.JsonError →
      SettleRequest × Option json.JsonError
  | [], st => st
  | (key, v) :: ms, st =>
    if key = goStr "payment" ∨ json.foldName key = json.foldName (goStr "payment") then
      match v with
      | json.JValue.object pms =>
        SettleRequest.storeMembers ms
          ({ Payment := (json.decodeMembers Payment.fields pms (st.1.Payment, st.2)).1 },
            (json.decodeMembers Payment.fields pms (st.1.Payment, st.2)).2)
      | json.JValue.null => SettleRequest.storeMembers ms st
      | json.JValue.bool _ =>
        SettleRequest.storeMembers ms (st.1, json.saveError st.2
          (some (json.JsonError.unmarshalTypeError (goStr "bool") (goStr "payment"))))
      | json.JValue.number _ =>
        SettleRequest.storeMembers ms (st.1, json.saveError st.2
          (some (json.JsonError.unmarshalTypeError (goStr "number") (goStr "payment"))))
      | json.JValue.string _ =>
        SettleRequest.storeMembers ms (st.1, json.saveError st.2
          (some (json.JsonError.unmarshalTypeError (goStr "string") (goStr "payment"))))
      | json.JValue.array _ =>
        SettleRequest.storeMembers ms (st.1, json.saveError st.2
          (some (json.JsonError.unmarshalTypeError (goStr "array") (goStr "payment"))))
    else SettleRequest.storeMembers ms st

/-- Function `decodeState.value` for a `SettleRequest` target. -/
def SettleRequest.store (v : json.JValue) (target : SettleRequest) :
    SettleRequest × Option json.JsonError :=
  match v with
  | json.JValue.object ms => SettleRequest.storeMembers ms (target, none)
  | json.JValue.null => (target, none)
  | json.JValue.bool _ => (target, some (json.JsonError.unmarshalTypeError (goStr "bool") []))
  | json.JValue.number _ => (target, some (json.JsonError.unmarshalTypeError (goStr "number") []))
  | json.JValue.string _ => (target, some (json.JsonError.unmarshalTypeError (goStr "string") []))
  | json.JValue.array _ => (target, some (json.JsonError.unmarshalTypeError (goStr "array") []))

/-! ## File `facilitator.go` -/

namespace http

/-- Status code 404. -/
def StatusNotFound : Nat := 404

/-- Status code 405. -/
def StatusMethodNotAllowed : Nat := 405

/-- The constant `http.MethodPost`. -/
def MethodPost : GoString := goStr "POST"

/-- The body the server hands a handler when the request has none
(`http.NoBody`): an empty stream. -/
def NoBody : Body := { data := [], err := none }

/-- Function `http.NotFound`. -/
def NotFound (w : ResponseWriter) : ResponseWriter :=
  Error w (goStr "404 page not found") StatusNotFound

end http

/-- Interface `Facilitator`: blockchain verification and settlement services.
Each method returns its result pair and the new state of the world. -/
structure Facilitator (σ : Type) where
  Verify : VerifyRequest → σ → (Option VerifyResponse × Option GoError) × σ
  Settle : SettleRequest → σ → (Option SettleResponse × Option GoError) × σ

/-- Type `FacilitatorServer`: a `Facilitator` with HTTP handlers. Its mux holds
the three routes that `NewFacilitatorServer` registers. -/
structure FacilitatorServer (σ : Type) where
  facilitator : Facilitator σ

/-- Function `NewFacilitatorServer`. -/
def NewFacilitatorServer {σ : Type} (facilitator : Facilitator σ) : FacilitatorServer σ :=
  { facilitator := facilitator }

/-- Calls of the facilitator made while a request is handled. -/
inductive FacilitatorEvent where
  /-- Call of `fs.facilitator.Verify`. -/
  | verify (req : VerifyRequest)
  /-- Call of `fs.facilitator.Settle`. -/
  | settle (req : SettleRequest)
  deriving DecidableEq

/-- What handling a facilitator request leaves: the response writer, the world,
and the calls made, in order. -/
structure FacilitatorOutcome (σ : Type) where
  w : ResponseWriter
  world : σ
  trace : List FacilitatorEvent

/-- The body of the request as the server hands it to a handler: never nil. -/
def Request.serverBody (r : Request) : X402.Body :=
  match r.Body with
  | some b => b
  | none => http.NoBody

/-- Method `(*FacilitatorServer).handleVerify`: handles POST /verify requests. -/
def FacilitatorServer.handleVerify {σ : Type} (fs : FacilitatorServer σ) (rt : Runtime σ)
    (w : ResponseWriter) (r : Request) (s : σ) : FacilitatorOutcome σ :=
  if r.Method ≠ http.MethodPost then
    { w := http.Error w (goStr "Method not allowed") http.StatusMethodNotAllowed, world := s,
      trace := [] }
  else
    match json.Decode (json.storeStruct VerifyRequest.fields) r.serverBody VerifyRequest.empty with
    | (_, some _) =>
      { w := http.Error w (goStr "Invalid request body") http.StatusBadRequest, world := s,
        trace := [] }
    | (req, none) =>
      match fs.facilitator.Verify req s with
      | ((_, some err), s1) =>
        let w1 := w.SetHeader (goStr "Content-Type") (goStr "application/json")
        let w2 := w1.WriteHeader http.StatusInternalServerError
        { w := json.Encode w2 (json.encodeMap1 (goStr "error") (err.Error rt.jsonText)),
          world := s1, trace := [FacilitatorEvent.verify req] }
      | ((resp, none), s1) =>
        let w1 := w.SetHeader (goStr "Content-Type") (goStr "application/json")
        { w := json.Encode w1 (VerifyResponse.marshal resp), world := s1,
          trace := [FacilitatorEvent.verify req] }

/-- Method `(*FacilitatorServer).handleSettle`: handles POST /settle requests. -/
def FacilitatorServer.handleSettle {σ : Type} (fs : FacilitatorServer σ) (rt : Runtime σ)
    (w : ResponseWriter) (r : Request) (s : σ) : FacilitatorOutcome σ :=
  if r.Method ≠ http.MethodPost then
    { w := http.Error w (goStr "Method not allowed") http.StatusMethodNotAllowed, world := s,
      trace := [] }
  else
    match json.Decode SettleRequest.store r.serverBody SettleRequest.empty with
    | (_, some _) =>
      { w := http.Error w (goStr "Invalid request body") http.StatusBadRequest, world := s,
        trace := [] }
    | (req, none) =>
      match fs.facilitator.Settle req s with
      | ((_, some err), s1) =>
        let w1 := w.SetHeader (goStr "Content-Type") (goStr "application/json")
        let w2 := w1.WriteHeader http.StatusInternalServerError
        { w := json.Encode w2 (json.encodeMap1 (goStr "error") (err.Error rt.jsonText)),
          world := s1, trace := [FacilitatorEvent.settle req] }
      | ((resp, none), s1) =>
        let w1 := w.SetHeader (goStr "Content-Type") (goStr "application/json")
        { w := json.Encode w1 (SettleResponse.marshal resp), world := s1,
          trace := [FacilitatorEvent.settle req] }

/-- Method `(*FacilitatorServer).handleHealth`: handles GET /health requests. -/
def FacilitatorServer.handleHealth {σ : Type} (_fs : FacilitatorServer σ)
    (w : ResponseWriter) (_r : Request) (s : σ) : FacilitatorOutcome σ :=
  let w1 := w.SetHeader (goStr "Content-Type") (goStr "application/json")
  { w := json.Encode w1 (json.encodeMap1 (goStr "status") (goStr "ok")), world := s, trace := [] }

/-- Method `(*FacilitatorServer).ServeHTTP`: the mux calls the handler
registered for the path of the request, which `URL` stands for here, and
answers 404 when there is none. The redirection by which the mux answers a
path that is not in canonical form is not modelled. -/
def FacilitatorServer.ServeHTTP {σ : Type} (fs : FacilitatorServer σ) (rt : Runtime σ)
    (w : ResponseWriter) (r : Request) (s : σ) : FacilitatorOutcome σ :=
  if r.URL = goStr "/verify" then fs.handleVerify rt w r s
  else if r.URL = goStr "/settle" then fs.handleSettle rt w r s
  else if r.URL = goStr "/health" then fs.handleHealth w r s
  else { w := http.NotFound w, world := s, trace := [] }

/-! ## Reading traces -/

/-- The requests with which the wrapped handler was called, in order. -/
def nextCalls (trace : List Event) : List Request :=
  trace.filterMap (fun e => match e with
    | Event.next r => some r
    | _ => none)

/-- The calls of the verifier, in order. -/
def verifyCalls (trace : List Event) : List (Payment × PaymentRequirements) :=
  trace.filterMap (fun e => match e with
    | Event.verify p r => some (p, r)
    | _ => none)

/-- The requests the client sent, in order. -/
def sendCalls (trace : List ClientEvent) : List Request :=
  trace.filterMap (fun e => match e with
    | ClientEvent.send r => some r
    | _ => none)

/-- The requirements with which the payment handler was called, in order. -/
def payCalls (trace : List ClientEvent) : List PaymentRequirements :=
  trace.filterMap (fun e => match e with
    | ClientEvent.pay r => some r
    | _ => none)

/-! ## Notions used in the round-trip statements -/

/-- A byte that may follow a value inside an object: a comma or a closing
brace. -/
def isSep (t : Byte) : Prop := t.val = 0x2C ∨ t.val = 0x7D

/-- The JSON value the encoder writes for a field value. -/
def valueOf (v : json.FieldVal) : json.JValue :=
  match v with
  | json.FieldVal.str s => json.JValue.string s
  | json.FieldVal.int i => json.JValue.number (strconv.formatInt i.val)

/-- A field value whose string is valid UTF-8. -/
def validValue (v : json.FieldVal) : Prop :=
  match v with
  | json.FieldVal.str s => utf8.ValidString s = true
  | json.FieldVal.int _ => True

/-- The fields the encoder writes: those not omitted as empty. -/
def written {α : Type} (v : α) (fields : List (json.Field α)) : List (json.Field α) :=
  fields.filter (fun f => !(f.omitEmpty && json.isEmptyValue (f.get v)))

/-- The members of the object the encoder writes. -/
def membersOf {α : Type} (v : α) (fields : List (json.Field α)) : List (GoString × json.JValue) :=
  (written v fields).map (fun f => (f.name, valueOf (f.get v)))

/-- What `parseMembers` does after a member: the end of the object, or a comma
and the members that follow. -/
def afterValue (fuel depth : Nat) (kv : GoString × json.JValue) (s : List Byte) :
    Option (List (GoString × json.JValue) × List Byte) :=
  match json.skipSpace s with
  | [] => none
  | sep :: rest4 =>
    if sep.val = 0x7D then some ([kv], rest4)
    else if sep.val = 0x2C then
      match json.parseMembers fuel depth (json.skipSpace rest4) with
      | some (ms, rest5) => some (kv :: ms, rest5)
      | none => none
    else none

/-- All string fields of a payment are valid UTF-8. -/
def Payment.validUTF8 (p : Payment) : Prop :=
  utf8.ValidString p.Scheme = true ∧ utf8.ValidString p.TxHash = true
    ∧ utf8.ValidString p.Chain = true ∧ utf8.ValidString p.Token = true
    ∧ utf8.ValidString p.Amount = true ∧ utf8.ValidString p.Sender = true
    ∧ utf8.ValidString p.Recipient = true ∧ utf8.ValidString p.Nonce = true

instance (p : Payment) : Decidable p.validUTF8 := by
  unfold Payment.validUTF8
  exact inferInstance

/-- All string fields of payment requirements are valid UTF-8. -/
def PaymentRequirements.validUTF8 (r : PaymentRequirements) : Prop :=
  utf8.ValidString r.Scheme = true ∧ utf8.ValidString r.Amount = true
    ∧ utf8.ValidString r.Token = true ∧ utf8.ValidString r.Chain = true
    ∧ utf8.ValidString r.Recipient = true ∧ utf8.ValidString r.Nonce = true
    ∧ utf8.ValidString r.Facilitator = true

instance (r : PaymentRequirements) : Decidable r.validUTF8 := by
  unfold PaymentRequirements.validUTF8
  exact inferInstance

/-! ## Notions used in the statements on the 402 response -/

/-- The requirements a 402 response is to carry, in the words of the
specification: the configured requirements in every field, except that the
nonce is what `NonceGenerator` returns only when the configured nonce is
empty, and the expiry is the Unix time of the current time plus
`ExpiryDuration` (five minutes when unset) only when the configured expiry is
zero. The clock is read after the nonce is generated. -/
def expectedRequirements {σ : Type} (rt : Runtime σ) (config : MiddlewareConfig σ)
    (reqs : PaymentRequirements) (s : σ) : PaymentRequirements :=
  let generator := match config.NonceGenerator with
    | some g => g
    | none => generateNonce rt
  let duration := if config.ExpiryDuration = 0 then 5 * Minute else config.ExpiryDuration
  let s1 := if reqs.Nonce = [] then (generator s).2 else s
  { Scheme := reqs.Scheme, Amount := reqs.Amount, Token := reqs.Token, Chain := reqs.Chain,
    Recipient := reqs.Recipient,
    Nonce := if reqs.Nonce = [] then (generator s).1 else reqs.Nonce,
    Expiry := if reqs.Expiry.val = 0 then ((rt.Now s1).1.Add duration).Unix else reqs.Expiry,
    Facilitator := reqs.Facilitator }

/-! ## Notions used in the statements on the facilitator -/

/-- The JSON value the struct encoder writes for a field of a response. -/
def encodedValue (v : json.Encoded) : json.JValue :=
  match v with
  | json.Encoded.str s => json.JValue.string s
  | json.Encoded.int i => json.JValue.number (strconv.formatInt i.val)
  | json.Encoded.bool b => json.JValue.bool b

/-- A field of a response whose string is valid UTF-8. -/
def validEncoded (v : json.Encoded) : Prop :=
  match v with
  | json.Encoded.str s => utf8.ValidString s = true
  | json.Encoded.int _ => True
  | json.Encoded.bool _ => True

/-- The fields of a response the struct encoder writes: those not omitted as
empty. -/
def writtenOf (fields : List (GoString × Bool × json.Encoded)) :
    List (GoString × Bool × json.Encoded) :=
  fields.filter (fun f => !(f.2.1 && f.2.2.isEmpty))

/-- The members of the object the struct encoder writes for a response. -/
def membersOfStruct (fields : List (GoString × Bool × json.Encoded)) :
    List (GoString × json.JValue) :=
  (writtenOf fields).map (fun f => (f.1, encodedValue f.2.2))

/-! ## Example values -/

namespace Ex

/-- A world without state: a fixed clock and a fixed random source. -/
def rt : Runtime Unit :=
  { Now := fun s => ({ sec := 1700000000, nsec := 0 }, s),
    RandRead := fun n s => (List.replicate n (Byte.ofNat 7), s),
    jsonText := fun _ => goStr "json error" }

/-- Requirements of one unit of a token on chain 1. -/
def reqs : PaymentRequirements :=
  { PaymentRequirements.empty with Chain := goStr "1", Amount := goStr "5" }

/-- A wrapped handler that answers `ok`. -/
def next : Handler Unit := fun w _ s => (w.Write (goStr "ok"), s)

/-- A configuration with the requirements only. -/
def config : MiddlewareConfig Unit :=
  { Requirements := some reqs, Verifier := none, OnPaymentVerified := none,
    OnPaymentRequired := none, NonceGenerator := none, ExpiryDuration := 0 }

/-- A request with the given payment header. -/
def request (payment : GoString) : Request :=
  { Method := goStr "GET", URL := goStr "/premium",
    Header := [(HeaderPaymentResponse, [payment])], Body := none, ctx := [] }

/-- A payment that meets `reqs`. -/
def goodPayment : Payment := { Payment.empty with Chain := goStr "1", Amount := goStr "5" }

/-- A payment on another chain. -/
def badPayment : Payment := { Payment.empty with Chain := goStr "2", Amount := goStr "5" }

/-- A verifier that fails. -/
def failingVerifier : PaymentVerifier Unit :=
  { Verify := fun _ _ s => ((false, some (GoError.text (goStr "rpc down"))), s),
    Writes := fun payment requirements _ => (payment, requirements) }

/-- The JSON of `reqs`, as a server sends it. -/
def reqsJSON : GoString := goStr "\x7b\"chain\":\"1\",\"amount\":\"5\"\x7d"

/-- A 402 response with the given `X-Payment` header values. -/
def paymentRequired (values : List GoString) : Response :=
  { StatusCode := 402, Header := [(goStr "X-Payment", values)], Body := [] }

/-- A server that answers 402 with `reqsJSON` until the request carries a
payment, and 200 afterwards; `left` is the state in which the transport leaves
the body of a request. -/
def server (values : List GoString) (left : Option Body) :
    Request → Unit → RoundTrip × Option Body × Unit :=
  fun req s =>
    if req.Header.Get HeaderPaymentResponse = [] then
      (RoundTrip.response (paymentRequired values), left, s)
    else (RoundTrip.response { StatusCode := 200, Header := [], Body := goStr "ok" }, left, s)

/-- A payment handler that pays `goodPayment`. -/
def pays : PaymentRequirements → Unit → (Option Payment × Option GoError) × Unit :=
  fun _ s => ((some goodPayment, none), s)

/-- A payment handler that fails. -/
def refuses : PaymentRequirements → Unit → (Option Payment × Option GoError) × Unit :=
  fun _ s => ((none, some (GoError.text (goStr "wallet locked"))), s)

/-- A request without payment; `body` is its body. -/
def plain (body : Option Body) : Request :=
  { Method := goStr "POST", URL := goStr "/premium", Header := [], Body := body, ctx := [] }

/-- A payment whose scheme is the single byte `0xFF`, which is not UTF-8. -/
def rawPayment : Payment := { Payment.empty with Scheme := [Byte.ofNat 0xFF] }

/-- A payment with text in every field but the omitted ones. -/
def fullPayment : Payment :=
  { Scheme := goStr "exact", TxHash := goStr "0xab", Chain := goStr "1", Token := goStr "t",
    Amount := goStr "5", Sender := goStr "s", Recipient := goStr "r", Nonce := [],
    Timestamp := Int64.zero }

/-- A configuration whose `OnPaymentRequired` callback writes nothing. -/
def hookConfig : MiddlewareConfig Unit :=
  { config with OnPaymentRequired := some (fun w _ s => (w, s)) }

/-- A configuration whose scheme is the single byte `0xFF`. -/
def rawConfig : MiddlewareConfig Unit :=
  { config with Requirements := some { reqs with Scheme := [Byte.ofNat 0xFF] } }

/-- Requirements with nonce and expiry set. -/
def pinnedReqs : PaymentRequirements :=
  { reqs with Nonce := goStr "n1", Expiry := ⟨1700000300, by decide⟩ }

/-- A configuration with nonce and expiry set. -/
def pinnedConfig : MiddlewareConfig Unit := { config with Requirements := some pinnedReqs }

/-- A configuration whose `OnPaymentRequired` callback answers 200. -/
def freeConfig : MiddlewareConfig Unit :=
  { config with OnPaymentRequired := some (fun w _ s => (w.WriteHeader 200, s)) }

/-- A facilitator that finds every transaction valid and cannot settle. -/
def ledger : Facilitator Unit :=
  { Verify := fun req s =>
      ((some { Valid := true, TxHash := req.TxHash, Chain := req.Chain, Token := [],
               Amount := goStr "5", Sender := [], Recipient := [], Error := [] }, none), s),
    Settle := fun _ s => ((none, some (GoError.text (goStr "rpc down"))), s) }

/-- A POST request to the facilitator. -/
def post (url body : GoString) : Request :=
  { Method := goStr "POST", URL := url, Header := [],
    Body := some { data := body, err := none }, ctx := [] }

/-- The body of a request to verify transaction `0xab` on chain 1. -/
def verifyJSON : GoString := goStr "\x7b\"txHash\":\"0xab\",\"chain\":\"1\"\x7d"

/-- The body of a request to settle a payment on chain 1. -/
def settleJSON : GoString := goStr "\x7b\"payment\":\x7b\"chain\":\"1\"\x7d\x7d"

/-- A configuration whose `OnPaymentVerified` callback writes the sender
`hook` into the payment it is handed. -/
def stampConfig : MiddlewareConfig Unit :=
  { config with
    OnPaymentVerified := some (fun payment r s => ({ payment with Sender := goStr "hook" }, r, s)) }

/-- A verifier that accepts every payment and sets the amount of the
requirements it is handed to `0`. -/
def waivingVerifier : PaymentVerifier Unit :=
  { Verify := fun _ _ s => ((true, none), s),
    Writes := fun payment requirements _ => (payment, { requirements with Amount := goStr "0" }) }

/-- A configuration with the verifier `waivingVerifier`. -/
def waivingConfig : MiddlewareConfig Unit := { config with Verifier := some waivingVerifier }

/-- The JSON of `goodPayment`, as a client sends it. -/
def goodJSON : GoString := goStr "\x7b\"chain\":\"1\",\"amount\":\"5\"\x7d"

/-- The response of `ledger` to a request to verify transaction `0xab` on
chain 1. -/
def receipt : VerifyResponse :=
  { Valid := true, TxHash := goStr "0xab", Chain := goStr "1", Token := [],
    Amount := goStr "5", Sender := [], Recipient := [], Error := [] }

end Ex

/-! ## The middleware -/

theorem status_Error (w : ResponseWriter) (msg : GoString) (code : Nat) (hw : w.sent = none) :
    (http.Error w msg code).status = some code := by
  simp [http.Error, ResponseWriter.Write, ResponseWriter.WriteHeader, ResponseWriter.SetHeader,
    ResponseWriter.status, hw]

theorem parseJSON_nil : json.parseJSON [] = none := by
  simp [json.parseJSON, json.parseValue, json.skipSpace]

theorem Unmarshal_nil {α : Type} (fields : List (json.Field α)) (t : α) :
    json.Unmarshal fields [] t = (t, some json.JsonError.syntaxError) := by
  simp [json.Unmarshal, parseJSON_nil]

theorem header_ne_of_decodes {α : Type} (fields : List (json.Field α)) (hdr : GoString) (t p : α)
    (h : json.Unmarshal fields hdr t = (p, none)) : hdr ≠ [] := by
  intro h0
  rw [h0, Unmarshal_nil] at h
  simp at h

theorem RequirePaymentWithConfig_eq {σ : Type} (rt : Runtime σ) (config : MiddlewareConfig σ)
    (next : Handler σ) (reqs : PaymentRequirements) (hreq : config.Requirements = some reqs) :
    RequirePaymentWithConfig rt config next
      = some (paymentHandler rt (setDefaults rt config reqs) next) := by
  simp [RequirePaymentWithConfig, hreq]

/-- C4: `DefaultVerifier.Verify` never returns an error, returns true exactly
when chain, token, amount and recipient of the payment equal those of the
requirements, and its result does not change when scheme, transaction hash,
sender, nonce, timestamp or expiry change. -/
theorem defaultVerifier_verdict (p : Payment) (r : PaymentRequirements) :
    (DefaultVerifier.Verify p r).2 = none
    ∧ ((DefaultVerifier.Verify p r).1 = true
        ↔ (p.Chain = r.Chain ∧ p.Token = r.Token ∧ p.Amount = r.Amount
            ∧ p.Recipient = r.Recipient))
    ∧ ∀ (scheme txHash sender nonce scheme1 nonce1 facilitator : GoString) (timestamp expiry : Int64),
        DefaultVerifier.Verify
            { p with Scheme := scheme, TxHash := txHash, Sender := sender, Nonce := nonce,
                     Timestamp := timestamp }
            { r with Scheme := scheme1, Nonce := nonce1, Expiry := expiry,
                     Facilitator := facilitator }
          = DefaultVerifier.Verify p r := by
  refine ⟨?_, ?_, ?_⟩
  · unfold DefaultVerifier.Verify
    split_ifs <;> rfl
  · unfold DefaultVerifier.Verify
    split_ifs <;> simp_all
  · intros
    rfl

/-- C3: under the default verifier, a request whose payment header decodes to a
payment that differs from the requirements in chain, token, amount or
recipient is answered with status 402 and the wrapped handler is not called. -/
theorem default_verifier_rejects_mismatch {σ : Type} (rt : Runtime σ)
    (config : MiddlewareConfig σ) (next : Handler σ) (reqs : PaymentRequirements)
    (w : ResponseWriter) (r : Request) (s : σ) (p : Payment)
    (hreq : config.Requirements = some reqs) (hver : config.Verifier = none)
    (hw : w.sent = none)
    (hdec : json.Unmarshal Payment.fields (r.Header.Get HeaderPaymentResponse) Payment.empty
      = (p, none))
    (hdiff : p.Chain ≠ reqs.Chain ∨ p.Token ≠ reqs.Token ∨ p.Amount ≠ reqs.Amount
      ∨ p.Recipient ≠ reqs.Recipient) :
    ∃ h, RequirePaymentWithConfig rt config next = some h
      ∧ (h w r s).w.status = some 402 ∧ nextCalls (h w r s).trace = [] := by
  refine ⟨_, RequirePaymentWithConfig_eq rt config next reqs hreq, ?_⟩
  have hne := header_ne_of_decodes _ _ _ _ hdec
  have hv : DefaultVerifier.Verify p reqs = (false, none) := by
    unfold DefaultVerifier.Verify
    split_ifs <;> first | rfl | (exfalso; tauto)
  simp only [paymentHandler, if_neg hne, hdec, setDefaults, hver, DefaultVerifier, hv]
  exact ⟨status_Error _ _ _ hw, rfl⟩

set_option maxRecDepth 100000 in
theorem default_verifier_rejects_mismatch_witness :
    Ex.config.Requirements = some Ex.reqs ∧ Ex.config.Verifier = none
    ∧ json.Unmarshal Payment.fields
        ((Ex.request (goStr "\x7b\"chain\":\"2\",\"amount\":\"5\"\x7d")).Header.Get
          HeaderPaymentResponse) Payment.empty = (Ex.badPayment, none)
    ∧ Ex.badPayment.Chain ≠ Ex.reqs.Chain
    ∧ ∃ h, RequirePaymentWithConfig Ex.rt Ex.config Ex.next = some h
      ∧ (h ResponseWriter.fresh (Ex.request (goStr "\x7b\"chain\":\"2\",\"amount\":\"5\"\x7d")) ()).w.status
          = some 402
      ∧ nextCalls (h ResponseWriter.fresh
          (Ex.request (goStr "\x7b\"chain\":\"2\",\"amount\":\"5\"\x7d")) ()).trace = [] :=
  ⟨rfl, rfl, by decide, by decide,
    default_verifier_rejects_mismatch Ex.rt Ex.config Ex.next Ex.reqs ResponseWriter.fresh
      (Ex.request (goStr "\x7b\"chain\":\"2\",\"amount\":\"5\"\x7d")) () Ex.badPayment rfl rfl rfl
      (by decide) (Or.inl (by decide))⟩


set_option maxRecDepth 1000000 in
/-- C2 fails as stated: the verifier and `OnPaymentVerified` are handed a
pointer to the decoded payment, and the payment is copied into the context
after both have run. Here the header decodes to `goodPayment`, the default
verifier accepts it, the callback writes the sender `hook` into it, and the
wrapped handler finds the payment with that sender, not the decoded one. -/
theorem context_payment_is_as_callback_left_it :
    json.Unmarshal Payment.fields ((Ex.request Ex.goodJSON).Header.Get HeaderPaymentResponse)
        Payment.empty = (Ex.goodPayment, none)
    ∧ (setDefaults Ex.rt Ex.stampConfig Ex.reqs).Verifier.Verify Ex.goodPayment Ex.reqs ()
        = ((true, none), ())
    ∧ ∃ h, RequirePaymentWithConfig Ex.rt Ex.stampConfig Ex.next = some h
      ∧ (nextCalls (h ResponseWriter.fresh (Ex.request Ex.goodJSON) ()).trace).map
            (fun r1 => ((GetPayment r1).1.map (fun ctx => ctx.Payment), (GetPayment r1).2))
          = [(some { Ex.goodPayment with Sender := goStr "hook" }, true)]
      ∧ ({ Ex.goodPayment with Sender := goStr "hook" } : Payment) ≠ Ex.goodPayment :=
  ⟨by decide, by decide, _, RequirePaymentWithConfig_eq Ex.rt Ex.stampConfig Ex.next Ex.reqs rfl,
    by decide, by decide⟩

/-- C2, amended: when the payment header decodes to a payment the configured
verifier accepts, the wrapped handler is called exactly once and the response
is the one it writes; on its request, which is the incoming one with the
context added, `GetPayment` finds a context that is marked verified and holds
the decoded payment as the verifier and `OnPaymentVerified` left it, which is
the decoded payment when neither writes to it. -/
theorem verified_payment_reaches_handler {σ : Type} (rt : Runtime σ)
    (config : MiddlewareConfig σ) (next : Handler σ) (reqs : PaymentRequirements)
    (w : ResponseWriter) (r : Request) (s s1 : σ) (p p1 : Payment)
    (hreq : config.Requirements = some reqs)
    (hdec : json.Unmarshal Payment.fields (r.Header.Get HeaderPaymentResponse) Payment.empty
      = (p, none))
    (hver : (setDefaults rt config reqs).Verifier.Verify p reqs s = ((true, none), s1))
    (hleft : ((setDefaults rt config reqs).Verifier.Writes p reqs s).1 = p1) :
    ∃ h, RequirePaymentWithConfig rt config next = some h
      ∧ ∃ r1 ctx, nextCalls (h w r s).trace = [r1] ∧ GetPayment r1 = (some ctx, true)
          ∧ ctx.Verified = true
          ∧ (config.OnPaymentVerified = none →
              ctx.Payment = p1
              ∧ r1 = r.WithContext
                  (r.Context.WithValue paymentContextKey (CtxValue.paymentContext ctx))
              ∧ (h w r s).w = (next w r1 (rt.Now s1).2).1
              ∧ (h w r s).world = (next w r1 (rt.Now s1).2).2)
          ∧ (∀ hook, config.OnPaymentVerified = some hook →
              ctx.Payment = (hook p1 r s1).1
              ∧ r1 = (hook p1 r s1).2.1.WithContext
                  ((hook p1 r s1).2.1.Context.WithValue paymentContextKey
                    (CtxValue.paymentContext ctx))
              ∧ (h w r s).w = (next w r1 (rt.Now (hook p1 r s1).2.2).2).1
              ∧ (h w r s).world = (next w r1 (rt.Now (hook p1 r s1).2.2).2).2)
          ∧ (p1 = p → (∀ hook, config.OnPaymentVerified = some hook → (hook p r s1).1 = p) →
              ctx.Payment = p) := by
  refine ⟨_, RequirePaymentWithConfig_eq rt config next reqs hreq, ?_⟩
  have hne := header_ne_of_decodes _ _ _ _ hdec
  have hreqs : (setDefaults rt config reqs).Requirements = reqs := rfl
  have hk : (setDefaults rt config reqs).OnPaymentVerified = config.OnPaymentVerified := rfl
  simp only [paymentHandler, if_neg hne, hdec, hreqs, hver, hleft, hk]
  cases hhook : config.OnPaymentVerified with
  | none =>
    refine ⟨_, _, rfl, rfl, rfl, fun _ => ⟨rfl, rfl, rfl, rfl⟩, fun hook hh => ?_, fun h1 _ => h1⟩
    cases hh
  | some hook =>
    refine ⟨_, _, rfl, rfl, rfl, fun hh => ?_, fun hook1 hh => ?_, fun h1 h2 => ?_⟩
    · cases hh
    · cases hh
      exact ⟨rfl, rfl, rfl, rfl⟩
    · have h3 := h2 hook rfl
      rw [h1]
      exact h3

set_option maxRecDepth 1000000 in
theorem verified_payment_reaches_handler_witness :
    Ex.config.Requirements = some Ex.reqs
    ∧ json.Unmarshal Payment.fields ((Ex.request Ex.goodJSON).Header.Get HeaderPaymentResponse)
        Payment.empty = (Ex.goodPayment, none)
    ∧ (setDefaults Ex.rt Ex.config Ex.reqs).Verifier.Verify Ex.goodPayment Ex.reqs ()
        = ((true, none), ())
    ∧ ((setDefaults Ex.rt Ex.config Ex.reqs).Verifier.Writes Ex.goodPayment Ex.reqs ()).1
        = Ex.goodPayment
    ∧ ∃ h, RequirePaymentWithConfig Ex.rt Ex.config Ex.next = some h
      ∧ ∃ r1 ctx,
          nextCalls (h ResponseWriter.fresh (Ex.request Ex.goodJSON) ()).trace = [r1]
          ∧ GetPayment r1 = (some ctx, true) ∧ ctx.Verified = true
          ∧ ctx.Payment = Ex.goodPayment
          ∧ (h ResponseWriter.fresh (Ex.request Ex.goodJSON) ()).w.body = goStr "ok" := by
  refine ⟨rfl, by decide, by decide, rfl, ?_⟩
  obtain ⟨h, h1, r1, ctx, h2, h3, h4, h5, _, _⟩ :=
    verified_payment_reaches_handler Ex.rt Ex.config Ex.next Ex.reqs ResponseWriter.fresh
      (Ex.request Ex.goodJSON) () () Ex.goodPayment Ex.goodPayment rfl (by decide) (by decide) rfl
  obtain ⟨h6, _, h8, _⟩ := h5 rfl
  refine ⟨h, h1, r1, ctx, h2, h3, h4, h6, ?_⟩
  rw [h8]
  rfl

/-- C9: a request with a non-empty payment header is answered with status 400,
and the wrapped handler is not called, when the header does not decode as a
payment (the verifier is not called then) and when the verifier returns an
error. -/
theorem bad_payment_header_is_400 {σ : Type} (rt : Runtime σ)
    (config : MiddlewareConfig σ) (next : Handler σ) (reqs : PaymentRequirements)
    (w : ResponseWriter) (r : Request) (s : σ)
    (hreq : config.Requirements = some reqs) (hw : w.sent = none)
    (hne : r.Header.Get HeaderPaymentResponse ≠ []) :
    ∃ h, RequirePaymentWithConfig rt config next = some h
      ∧ (∀ t e,
          json.Unmarshal Payment.fields (r.Header.Get HeaderPaymentResponse) Payment.empty
            = (t, some e) →
          (h w r s).w.status = some 400 ∧ nextCalls (h w r s).trace = []
            ∧ verifyCalls (h w r s).trace = [])
      ∧ (∀ p verdict e s1,
          json.Unmarshal Payment.fields (r.Header.Get HeaderPaymentResponse) Payment.empty
            = (p, none) →
          (setDefaults rt config reqs).Verifier.Verify p reqs s = ((verdict, some e), s1) →
          (h w r s).w.status = some 400 ∧ nextCalls (h w r s).trace = []) := by
  refine ⟨_, RequirePaymentWithConfig_eq rt config next reqs hreq, ?_, ?_⟩
  · intro t e hdec
    simp only [paymentHandler, if_neg hne, hdec]
    exact ⟨status_Error _ _ _ hw, rfl, rfl⟩
  · intro p verdict e s1 hdec hver
    have hreqs : (setDefaults rt config reqs).Requirements = reqs := rfl
    simp only [paymentHandler, if_neg hne, hdec, hreqs, hver]
    exact ⟨status_Error _ _ _ hw, rfl⟩

set_option maxRecDepth 100000 in
theorem bad_payment_header_is_400_witness :
    (∃ h, RequirePaymentWithConfig Ex.rt Ex.config Ex.next = some h
      ∧ (h ResponseWriter.fresh (Ex.request (goStr "\x7b\"chain\":")) ()).w.status = some 400
      ∧ nextCalls (h ResponseWriter.fresh (Ex.request (goStr "\x7b\"chain\":")) ()).trace = []
      ∧ verifyCalls (h ResponseWriter.fresh (Ex.request (goStr "\x7b\"chain\":")) ()).trace = [])
    ∧ (∃ h, RequirePaymentWithConfig Ex.rt
          { Ex.config with Verifier := some Ex.failingVerifier } Ex.next = some h
      ∧ (h ResponseWriter.fresh
          (Ex.request (goStr "\x7b\"chain\":\"1\",\"amount\":\"5\"\x7d")) ()).w.status = some 400
      ∧ nextCalls (h ResponseWriter.fresh
          (Ex.request (goStr "\x7b\"chain\":\"1\",\"amount\":\"5\"\x7d")) ()).trace = []) :=
  ⟨(bad_payment_header_is_400 Ex.rt Ex.config Ex.next Ex.reqs ResponseWriter.fresh
      (Ex.request (goStr "\x7b\"chain\":")) () rfl rfl (by decide)).imp
      (fun _ hh => ⟨hh.1, hh.2.1 Payment.empty json.JsonError.syntaxError (by decide)⟩),
    (bad_payment_header_is_400 Ex.rt { Ex.config with Verifier := some Ex.failingVerifier }
      Ex.next Ex.reqs ResponseWriter.fresh
      (Ex.request (goStr "\x7b\"chain\":\"1\",\"amount\":\"5\"\x7d")) () rfl rfl (by decide)).imp
      (fun _ hh => ⟨hh.1, hh.2.2 Ex.goodPayment false (GoError.text (goStr "rpc down")) ()
        (by decide) rfl⟩)⟩

set_option maxRecDepth 100000 in
/-- C10, evaluated: under the default verifier a payment on the wrong chain is
answered with status 402, and that response has no `WWW-Authenticate` header
(nor an `X-Payment` header); its headers are those `http.Error` sets. -/
theorem rejected_payment_402_lacks_www_authenticate :
    ∃ h, RequirePaymentWithConfig Ex.rt Ex.config Ex.next = some h
      ∧ (h ResponseWriter.fresh
          (Ex.request (goStr "\x7b\"chain\":\"2\",\"amount\":\"5\"\x7d")) ()).w.sent
        = some (402, [(goStr "X-Content-Type-Options", [goStr "nosniff"]),
            (goStr "Content-Type", [goStr "text/plain; charset=utf-8"])])
      ∧ ((h ResponseWriter.fresh
          (Ex.request (goStr "\x7b\"chain\":\"2\",\"amount\":\"5\"\x7d")) ()).w.sentHeader.map
            (fun hd => hd.Get HeaderWWWAuthenticate)) = some [] :=
  ⟨_, RequirePaymentWithConfig_eq Ex.rt Ex.config Ex.next Ex.reqs rfl, by decide, by decide⟩


/-! ## The client -/

/-- C7: when the first response comes without transport error and its status
is not 402, `Do` returns that response and no error; the only call made is the
one request (no payment handler call, no second request). -/
theorem do_passes_through_non_402 {σ : Type} (c : Client σ) (req : Request) (s s1 : σ)
    (resp : Response) (body1 : Option Body)
    (hsend : c.httpClient req s = (RoundTrip.response resp, body1, s1))
    (hstatus : resp.StatusCode ≠ 402) :
    (c.Do req s).resp = some resp ∧ (c.Do req s).err = none
      ∧ (c.Do req s).trace = [ClientEvent.send req]
      ∧ payCalls (c.Do req s).trace = [] ∧ sendCalls (c.Do req s).trace = [req] := by
  have hs : resp.StatusCode ≠ http.StatusPaymentRequired := hstatus
  simp only [Client.Do, hsend, if_pos hs]
  refine ⟨?_, ?_, ?_, ?_, ?_⟩ <;> trivial

theorem do_passes_through_non_402_witness :
    (Ex.server [Ex.reqsJSON] none) (Ex.request Ex.reqsJSON) ()
        = (RoundTrip.response { StatusCode := 200, Header := [], Body := goStr "ok" }, none, ())
    ∧ (200 : Nat) ≠ 402
    ∧ ((NewClientWithHandler (Ex.server [Ex.reqsJSON] none) Ex.pays).Do
          (Ex.request Ex.reqsJSON) ()).resp
        = some { StatusCode := 200, Header := [], Body := goStr "ok" }
    ∧ ((NewClientWithHandler (Ex.server [Ex.reqsJSON] none) Ex.pays).Do
          (Ex.request Ex.reqsJSON) ()).trace = [ClientEvent.send (Ex.request Ex.reqsJSON)] :=
  ⟨by decide, by decide,
    (do_passes_through_non_402 (NewClientWithHandler (Ex.server [Ex.reqsJSON] none) Ex.pays)
      (Ex.request Ex.reqsJSON) () () { StatusCode := 200, Header := [], Body := goStr "ok" } none
      (by decide) (by decide)).1,
    (do_passes_through_non_402 (NewClientWithHandler (Ex.server [Ex.reqsJSON] none) Ex.pays)
      (Ex.request Ex.reqsJSON) () () { StatusCode := 200, Header := [], Body := goStr "ok" } none
      (by decide) (by decide)).2.2.1⟩

theorem append_ne_of_head_ne (a b r1 r2 : GoString) (x y : Byte) (ha : a.head? = some x)
    (hb : b.head? = some y) (hxy : x ≠ y) : a ++ r1 ≠ b ++ r2 := by
  intro h
  cases a with
  | nil => simp at ha
  | cons a0 at1 =>
    cases b with
    | nil => simp at hb
    | cons b0 bt =>
      simp at ha hb h
      exact hxy (by rw [← ha, ← hb]; exact h.1)

/-- C8: when the first response is 402, `Do` returns no response and an error,
and sends no second request, if the `X-Payment` header is absent or empty, if
its value does not decode as requirements, or if the payment handler returns
an error; the payment handler is not called in the first two cases, and the
messages of the three errors are pairwise different. -/
theorem do_fails_without_retry {σ : Type} (c : Client σ) (req : Request) (s s1 : σ)
    (resp : Response) (body1 : Option Body)
    (hsend : c.httpClient req s = (RoundTrip.response resp, body1, s1))
    (h402 : resp.StatusCode = 402) :
    (resp.Header.Get HeaderPayment = [] →
        (c.Do req s).resp = none
        ∧ (c.Do req s).err = some (GoError.text (goStr "402 response missing X-Payment header"))
        ∧ sendCalls (c.Do req s).trace = [req] ∧ payCalls (c.Do req s).trace = [])
    ∧ (∀ t e, resp.Header.Get HeaderPayment ≠ [] →
        json.Unmarshal PaymentRequirements.fields (resp.Header.Get HeaderPayment)
            PaymentRequirements.empty = (t, some e) →
        (c.Do req s).resp = none
        ∧ (c.Do req s).err
            = some (GoError.wrap (goStr "failed to parse payment requirements: ") (GoError.json e))
        ∧ sendCalls (c.Do req s).trace = [req] ∧ payCalls (c.Do req s).trace = [])
    ∧ (∀ reqs handler p e s2,
        json.Unmarshal PaymentRequirements.fields (resp.Header.Get HeaderPayment)
            PaymentRequirements.empty = (reqs, none) →
        c.PaymentHandler = some handler → handler reqs s1 = ((p, some e), s2) →
        (c.Do req s).resp = none
        ∧ (c.Do req s).err = some (GoError.wrap (goStr "payment handler failed: ") e)
        ∧ sendCalls (c.Do req s).trace = [req] ∧ payCalls (c.Do req s).trace = [reqs])
    ∧ (∀ (jsonText : json.JsonError → GoString) (e : json.JsonError) (e1 : GoError),
        (GoError.text (goStr "402 response missing X-Payment header")).Error jsonText
          ≠ (GoError.wrap (goStr "failed to parse payment requirements: ")
              (GoError.json e)).Error jsonText
        ∧ (GoError.text (goStr "402 response missing X-Payment header")).Error jsonText
          ≠ (GoError.wrap (goStr "payment handler failed: ") e1).Error jsonText
        ∧ (GoError.wrap (goStr "failed to parse payment requirements: ")
              (GoError.json e)).Error jsonText
          ≠ (GoError.wrap (goStr "payment handler failed: ") e1).Error jsonText) := by
  have hs : ¬ resp.StatusCode ≠ http.StatusPaymentRequired := by
    simp [h402, http.StatusPaymentRequired]
  refine ⟨?_, ?_, ?_, ?_⟩
  · intro h0
    simp only [Client.Do, hsend, if_neg hs, Client.handlePaymentRequired, if_pos h0]
    refine ⟨?_, ?_, ?_, ?_⟩ <;> trivial
  · intro t e hne hdec
    simp only [Client.Do, hsend, if_neg hs, Client.handlePaymentRequired, if_neg hne, hdec]
    refine ⟨?_, ?_, ?_, ?_⟩ <;> trivial
  · intro reqs handler p e s2 hdec hh hpay
    have hne := header_ne_of_decodes _ _ _ _ hdec
    simp only [Client.Do, hsend, if_neg hs, Client.handlePaymentRequired, if_neg hne, hdec, hh,
      hpay]
    refine ⟨?_, ?_, ?_, ?_⟩ <;> trivial
  · intro jsonText e e1
    simp only [GoError.Error]
    refine ⟨?_, ?_, ?_⟩
    · have h := append_ne_of_head_ne (goStr "402 response missing X-Payment header")
        (goStr "failed to parse payment requirements: ") [] (jsonText e) (Byte.ofNat 52)
        (Byte.ofNat 102) (by decide) (by decide) (by decide)
      rwa [List.append_nil] at h
    · have h := append_ne_of_head_ne (goStr "402 response missing X-Payment header")
        (goStr "payment handler failed: ") [] (GoError.Error jsonText e1) (Byte.ofNat 52)
        (Byte.ofNat 112) (by decide) (by decide) (by decide)
      rwa [List.append_nil] at h
    · exact append_ne_of_head_ne (goStr "failed to parse payment requirements: ")
        (goStr "payment handler failed: ") (jsonText e) (GoError.Error jsonText e1)
        (Byte.ofNat 102) (Byte.ofNat 112) (by decide) (by decide) (by decide)


set_option maxRecDepth 100000 in
theorem do_fails_without_retry_witness :
    ((NewClientWithHandler (Ex.server [] none) Ex.pays).Do (Ex.plain none) ()).err
        = some (GoError.text (goStr "402 response missing X-Payment header"))
    ∧ ((NewClientWithHandler (Ex.server [goStr "\x7b"] none) Ex.pays).Do (Ex.plain none) ()).err
        = some (GoError.wrap (goStr "failed to parse payment requirements: ")
            (GoError.json json.JsonError.syntaxError))
    ∧ ((NewClientWithHandler (Ex.server [Ex.reqsJSON] none) Ex.refuses).Do (Ex.plain none) ()).err
        = some (GoError.wrap (goStr "payment handler failed: ")
            (GoError.text (goStr "wallet locked"))) :=
  ⟨((do_fails_without_retry (NewClientWithHandler (Ex.server [] none) Ex.pays) (Ex.plain none)
      () () (Ex.paymentRequired []) none (by decide) rfl).1 (by decide)).2.1,
    ((do_fails_without_retry (NewClientWithHandler (Ex.server [goStr "\x7b"] none) Ex.pays)
      (Ex.plain none) () () (Ex.paymentRequired [goStr "\x7b"]) none (by decide) rfl).2.1
      PaymentRequirements.empty json.JsonError.syntaxError (by decide) (by decide)).2.1,
    ((do_fails_without_retry (NewClientWithHandler (Ex.server [Ex.reqsJSON] none) Ex.refuses)
      (Ex.plain none) () () (Ex.paymentRequired [Ex.reqsJSON]) none (by decide) rfl).2.2.1
      Ex.reqs Ex.refuses none (GoError.text (goStr "wallet locked")) () (by decide) rfl rfl).2.1⟩

set_option maxRecDepth 100000 in
/-- C6, evaluated: `cloneRequest` copies the body of the request after the
first round trip has used it. The first response is 402 with well-formed
requirements and the payment handler pays without error; when the transport
has closed the body of the request, so that reading it fails, `Do` returns the
error of `cloneRequest` and the request is not sent a second time; and when
the transport has read the body to its end, the request sent the second time
has an empty body where the original had `abc`. -/
theorem do_retry_loses_request_body :
    (Ex.server [Ex.reqsJSON] (some { data := [], err := some (GoError.text (goStr "file already closed")) }))
        (Ex.plain (some { data := goStr "abc", err := none })) ()
      = (RoundTrip.response (Ex.paymentRequired [Ex.reqsJSON]),
          some { data := [], err := some (GoError.text (goStr "file already closed")) }, ())
    ∧ json.Unmarshal PaymentRequirements.fields
        ((Ex.paymentRequired [Ex.reqsJSON]).Header.Get HeaderPayment) PaymentRequirements.empty
      = (Ex.reqs, none)
    ∧ Ex.pays Ex.reqs () = ((some Ex.goodPayment, none), ())
    ∧ ((NewClientWithHandler
          (Ex.server [Ex.reqsJSON]
            (some { data := [], err := some (GoError.text (goStr "file already closed")) }))
          Ex.pays).Do (Ex.plain (some { data := goStr "abc", err := none })) ()).resp = none
    ∧ ((NewClientWithHandler
          (Ex.server [Ex.reqsJSON]
            (some { data := [], err := some (GoError.text (goStr "file already closed")) }))
          Ex.pays).Do (Ex.plain (some { data := goStr "abc", err := none })) ()).err
        = some (GoError.wrap (goStr "failed to clone request: ")
            (GoError.text (goStr "file already closed")))
    ∧ sendCalls ((NewClientWithHandler
          (Ex.server [Ex.reqsJSON]
            (some { data := [], err := some (GoError.text (goStr "file already closed")) }))
          Ex.pays).Do (Ex.plain (some { data := goStr "abc", err := none })) ()).trace
        = [Ex.plain (some { data := goStr "abc", err := none })]
    ∧ (sendCalls ((NewClientWithHandler
          (Ex.server [Ex.reqsJSON] (some { data := [], err := none }))
          Ex.pays).Do (Ex.plain (some { data := goStr "abc", err := none })) ()).trace).map
          (fun q => q.Body)
        = [some { data := goStr "abc", err := none }, some { data := [], err := none }] := by
  refine ⟨by decide, by decide, rfl, by decide, by decide, by decide, by decide⟩

/-- The retry of `Do`: when the first response is 402 with an `X-Payment`
header that decodes as requirements, the payment handler returns a payment
without error, and what the first round trip left of the body of the request
(if it has one) can be read without error, `Do` calls the handler once with
the decoded requirements, sends one more request, which has the method, URL,
context and headers of the original with `X-Payment-Response` set to the JSON
of the payment, and as body what the first round trip left, and returns the
result of that second request as it is. -/
theorem do_retries_once_with_payment {σ : Type} (c : Client σ) (req : Request) (s s1 s2 : σ)
    (resp : Response) (body1 : Option Body) (reqs : PaymentRequirements)
    (handler : PaymentRequirements → σ → (Option Payment × Option GoError) × σ) (p : Payment)
    (hsend : c.httpClient req s = (RoundTrip.response resp, body1, s1))
    (h402 : resp.StatusCode = 402)
    (hdec : json.Unmarshal PaymentRequirements.fields (resp.Header.Get HeaderPayment)
      PaymentRequirements.empty = (reqs, none))
    (hh : c.PaymentHandler = some handler)
    (hpay : handler reqs s1 = ((some p, none), s2))
    (hbody : ∀ b, body1 = some b → b.err = none) :
    ∃ retry : Request,
      retry.Method = req.Method ∧ retry.URL = req.URL ∧ retry.ctx = req.ctx
      ∧ retry.Header = req.Header.Set HeaderPaymentResponse (Payment.ToJSON (some p)).1
      ∧ retry.Body = body1
      ∧ payCalls (c.Do req s).trace = [reqs]
      ∧ sendCalls (c.Do req s).trace = [req, retry]
      ∧ ((c.Do req s).resp, (c.Do req s).err) = (c.httpClient retry s2).1.pair
      ∧ (c.Do req s).world = (c.httpClient retry s2).2.2 := by
  have hs : ¬ resp.StatusCode ≠ http.StatusPaymentRequired := by
    simp [h402, http.StatusPaymentRequired]
  have hne := header_ne_of_decodes _ _ _ _ hdec
  have hj : Payment.ToJSON (some p) = ((Payment.ToJSON (some p)).1, none) := by
    simp [Payment.ToJSON, json.Marshal]
  have hclone : (cloneRequest { req with Body := body1 }).2
      = Except.ok { req with Body := body1 } := by
    cases body1 with
    | none => rfl
    | some b =>
      have hb := hbody b rfl
      cases b with
      | mk data err =>
        simp only at hb
        subst hb
        rfl
  refine ⟨{ req with Body := body1,
                     Header := req.Header.Set HeaderPaymentResponse (Payment.ToJSON (some p)).1 },
    rfl, rfl, rfl, rfl, rfl, ?_⟩
  simp only [Client.Do, hsend, if_neg hs, Client.handlePaymentRequired, if_neg hne, hdec, hh, hpay]
  rw [hj]
  simp only []
  generalize hcl : cloneRequest { req with Body := body1 } = cl at hclone
  obtain ⟨cl1, cl2⟩ := cl
  simp only at hclone
  subst hclone
  simp only []
  refine ⟨?_, ?_, ?_, ?_⟩ <;> trivial

set_option maxRecDepth 100000 in
theorem do_retries_once_with_payment_witness :
    (Ex.server [Ex.reqsJSON] (some { data := [], err := none }))
        (Ex.plain (some { data := goStr "abc", err := none })) ()
      = (RoundTrip.response (Ex.paymentRequired [Ex.reqsJSON]), some { data := [], err := none }, ())
    ∧ json.Unmarshal PaymentRequirements.fields
        ((Ex.paymentRequired [Ex.reqsJSON]).Header.Get HeaderPayment) PaymentRequirements.empty
      = (Ex.reqs, none)
    ∧ Ex.pays Ex.reqs () = ((some Ex.goodPayment, none), ())
    ∧ ∃ retry : Request,
        retry.Method = (Ex.plain (some { data := goStr "abc", err := none })).Method
        ∧ retry.URL = (Ex.plain (some { data := goStr "abc", err := none })).URL
        ∧ retry.ctx = (Ex.plain (some { data := goStr "abc", err := none })).ctx
        ∧ retry.Header = (Ex.plain (some { data := goStr "abc", err := none })).Header.Set
            HeaderPaymentResponse (Payment.ToJSON (some Ex.goodPayment)).1
        ∧ payCalls ((NewClientWithHandler
              (Ex.server [Ex.reqsJSON] (some { data := [], err := none })) Ex.pays).Do
              (Ex.plain (some { data := goStr "abc", err := none })) ()).trace = [Ex.reqs]
        ∧ sendCalls ((NewClientWithHandler
              (Ex.server [Ex.reqsJSON] (some { data := [], err := none })) Ex.pays).Do
              (Ex.plain (some { data := goStr "abc", err := none })) ()).trace
            = [Ex.plain (some { data := goStr "abc", err := none }), retry] :=
  ⟨by decide, by decide, rfl,
    (do_retries_once_with_payment
      (NewClientWithHandler (Ex.server [Ex.reqsJSON] (some { data := [], err := none })) Ex.pays)
      (Ex.plain (some { data := goStr "abc", err := none })) () () ()
      (Ex.paymentRequired [Ex.reqsJSON]) (some { data := [], err := none }) Ex.reqs Ex.pays
      Ex.goodPayment (by decide) rfl (by decide) rfl rfl
      (fun b hb => by cases hb; rfl)).imp
      (fun _ hh => ⟨hh.1, hh.2.1, hh.2.2.1, hh.2.2.2.1, hh.2.2.2.2.2.1, hh.2.2.2.2.2.2.1⟩)⟩

/-! ## JSON round trip -/

theorem Byte.ofNat_eq (n : Nat) (b : Byte) (h : n % 256 = b.val) : Byte.ofNat n = b := by
  apply Fin.ext
  simpa [Byte.ofNat] using h

theorem EncodeRune_two (p0 b1 : Byte) (h0 : 0xC2 ≤ p0.val ∧ p0.val ≤ 0xDF)
    (h1 : 0x80 ≤ b1.val ∧ b1.val ≤ 0xBF) :
    utf8.EncodeRune ((p0.val % 32) * 64 + b1.val % 64) = [p0, b1] := by
  unfold utf8.EncodeRune
  rw [if_neg (by omega), if_pos (by omega)]
  rw [Byte.ofNat_eq _ p0 (by omega), Byte.ofNat_eq _ b1 (by omega)]

theorem EncodeRune_three (p0 b1 b2 : Byte) (h0 : 0xE0 ≤ p0.val ∧ p0.val ≤ 0xEF)
    (h1 : 0x80 ≤ b1.val ∧ b1.val ≤ 0xBF) (hlo : p0.val = 0xE0 → 0xA0 ≤ b1.val)
    (hhi : p0.val = 0xED → b1.val ≤ 0x9F) (h2 : 0x80 ≤ b2.val ∧ b2.val ≤ 0xBF) :
    utf8.EncodeRune ((p0.val % 16) * 4096 + (b1.val % 64) * 64 + b2.val % 64) = [p0, b1, b2] := by
  unfold utf8.EncodeRune utf8.MaxRune
  rw [if_neg (by omega), if_neg (by omega), if_neg (by omega), if_pos (by omega)]
  rw [Byte.ofNat_eq _ p0 (by omega), Byte.ofNat_eq _ b1 (by omega), Byte.ofNat_eq _ b2 (by omega)]

theorem EncodeRune_four (p0 b1 b2 b3 : Byte) (h0 : 0xF0 ≤ p0.val ∧ p0.val ≤ 0xF4)
    (h1 : 0x80 ≤ b1.val ∧ b1.val ≤ 0xBF) (hlo : p0.val = 0xF0 → 0x90 ≤ b1.val)
    (hhi : p0.val = 0xF4 → b1.val ≤ 0x8F) (h2 : 0x80 ≤ b2.val ∧ b2.val ≤ 0xBF)
    (h3 : 0x80 ≤ b3.val ∧ b3.val ≤ 0xBF) :
    utf8.EncodeRune ((p0.val % 8) * 262144 + (b1.val % 64) * 4096 + (b2.val % 64) * 64
      + b3.val % 64) = [p0, b1, b2, b3] := by
  unfold utf8.EncodeRune utf8.MaxRune
  rw [if_neg (by omega), if_neg (by omega), if_neg (by omega), if_neg (by omega)]
  rw [Byte.ofNat_eq _ p0 (by omega), Byte.ofNat_eq _ b1 (by omega), Byte.ofNat_eq _ b2 (by omega),
    Byte.ofNat_eq _ b3 (by omega)]

theorem first_spec (b sz lo hi : Nat) (h : utf8.first b = some (sz, lo, hi)) :
    0xC2 ≤ b ∧ b ≤ 0xF4 ∧ 0x80 ≤ lo ∧ hi ≤ 0xBF
    ∧ (sz = 2 ∧ b ≤ 0xDF ∨ sz = 3 ∧ 0xE0 ≤ b ∧ b ≤ 0xEF ∨ sz = 4 ∧ 0xF0 ≤ b)
    ∧ (b = 0xE0 → 0xA0 ≤ lo) ∧ (b = 0xED → hi ≤ 0x9F) ∧ (b = 0xF0 → 0x90 ≤ lo)
    ∧ (b = 0xF4 → hi ≤ 0x8F) := by
  unfold utf8.first at h
  split_ifs at h <;> simp at h <;> obtain ⟨rfl, rfl, rfl⟩ := h <;> omega

theorem isCont_iff (b : Byte) : utf8.isCont b = true ↔ 0x80 ≤ b.val ∧ b.val ≤ 0xBF := by
  simp [utf8.isCont]

/-- What `DecodeRune` says about an input on which it finds a rune of more than
one byte: the encoding of the rune is the bytes consumed, and the result
depends on those bytes only. -/
theorem DecodeRune_multibyte (b : Byte) (rest : List Byte) (hb : 0x80 ≤ b.val)
    (h1 : (utf8.DecodeRune (b :: rest)).2 ≠ 1) :
    ∃ pre post, rest = pre ++ post ∧ pre.length + 1 = (utf8.DecodeRune (b :: rest)).2
      ∧ utf8.EncodeRune (utf8.DecodeRune (b :: rest)).1 = b :: pre
      ∧ ∀ t, utf8.DecodeRune (b :: (pre ++ t)) = utf8.DecodeRune (b :: rest) := by
  have hb' : ¬ b.val < 0x80 := by omega
  unfold utf8.DecodeRune at h1 ⊢
  simp only [if_neg hb'] at h1 ⊢
  rcases hf : utf8.first b.val with _ | ⟨sz, lo, hi⟩
  · simp [hf] at h1
  · simp only [hf] at h1 ⊢
    have hs := first_spec _ _ _ _ hf
    rcases rest with _ | ⟨b1, rest1⟩
    · simp at h1
    · simp only at h1 ⊢
      by_cases hr1 : b1.val < lo ∨ hi < b1.val
      · simp [hr1] at h1
      · simp only [if_neg hr1] at h1 ⊢
        by_cases hsz2 : sz ≤ 2
        · simp only [if_pos hsz2] at h1 ⊢
          refine ⟨[b1], rest1, rfl, rfl, ?_, fun t => ?_⟩
          · exact EncodeRune_two b b1 (by omega) (by omega)
          · simp [hr1, hsz2]
        · simp only [if_neg hsz2] at h1 ⊢
          rcases rest1 with _ | ⟨b2, rest2⟩
          · simp at h1
          · simp only at h1 ⊢
            by_cases hc2 : utf8.isCont b2 = true
            · have hc2' := (isCont_iff b2).1 hc2
              simp only [hc2, Bool.not_true, Bool.false_eq_true, if_false] at h1 ⊢
              by_cases hsz3 : sz ≤ 3
              · simp only [if_pos hsz3] at h1 ⊢
                refine ⟨[b1, b2], rest2, rfl, rfl, ?_, fun t => ?_⟩
                · exact EncodeRune_three b b1 b2 (by omega) (by omega) (by omega) (by omega) hc2'
                · simp [hr1, hsz2, hsz3, hc2]
              · simp only [if_neg hsz3] at h1 ⊢
                rcases rest2 with _ | ⟨b3, rest3⟩
                · simp at h1
                · simp only at h1 ⊢
                  by_cases hc3 : utf8.isCont b3 = true
                  · have hc3' := (isCont_iff b3).1 hc3
                    simp only [hc3, Bool.not_true, Bool.false_eq_true, if_false] at h1 ⊢
                    refine ⟨[b1, b2, b3], rest3, rfl, rfl, ?_, fun t => ?_⟩
                    · exact EncodeRune_four b b1 b2 b3 (by omega) (by omega) (by omega) (by omega)
                        hc2' hc3'
                    · simp [hr1, hsz2, hsz3, hc2, hc3]
                  · simp [hc3] at h1
            · simp [hc2] at h1

theorem Byte.val_ofNat (n : Nat) (h : n < 256) : (Byte.ofNat n).val = n := by
  simp [Byte.ofNat, Nat.mod_eq_of_lt h]

/-! ### Strings -/

/-- The escape `appendString` writes for an ASCII byte is read back as that
byte. -/
theorem parse_escapeByte (b : Byte) (f : Nat) (tail : List Byte) (hb : b.val < 0x80)
    (hs : json.htmlSafeSet b.val = false) :
    json.parseStringBody (f + 1) (json.escapeByte b.val ++ tail)
      = json.withPre [b] (json.parseStringBody f tail) := by
  obtain ⟨v, hv⟩ := b
  simp only at hb hs ⊢
  interval_cases v <;> first | (exact absurd hs (by decide)) | rfl

/-- An ASCII byte that `appendString` copies is read back as itself. -/
theorem parse_safeByte (b : Byte) (f : Nat) (tail : List Byte) (hb : b.val < 0x80)
    (hs : json.htmlSafeSet b.val = true) :
    json.parseStringBody (f + 1) (b :: tail) = json.withPre [b] (json.parseStringBody f tail) := by
  obtain ⟨v, hv⟩ := b
  simp only at hb hs ⊢
  interval_cases v <;> first | (exact absurd hs (by decide)) | rfl

theorem escapeByte_length (b : Nat) : 1 ≤ (json.escapeByte b).length := by
  unfold json.escapeByte
  split_ifs <;> simp

/-- A byte beyond ASCII starts a rune, which is read whole and stored in its
UTF-8 encoding. -/
theorem parse_multibyte (c : Byte) (f : Nat) (rest : List Byte) (hc : 0x80 ≤ c.val) :
    json.parseStringBody (f + 1) (c :: rest)
      = json.withPre (utf8.EncodeRune (utf8.DecodeRune (c :: rest)).1)
          (json.parseStringBody f (rest.drop ((utf8.DecodeRune (c :: rest)).2 - 1))) := by
  rw [json.parseStringBody.eq_def]
  simp only
  rw [if_neg (by omega), if_neg (by omega), if_neg (by omega), if_neg (by omega)]

theorem parse_lineSep (f : Nat) (tail : List Byte) (r : Nat) (hr : r = 0x2028 ∨ r = 0x2029) :
    json.parseStringBody (f + 1) (goStr "\\u202" ++ json.hex r :: tail)
      = json.withPre (utf8.EncodeRune r) (json.parseStringBody f tail) := by
  rcases hr with rfl | rfl <;> rfl

theorem lineSep_length : (goStr "\\u202").length = 5 := by decide

/-- Reading back what `appendString` writes between the quotes: a string that
is valid UTF-8 is read back as it is. -/
theorem parse_appendStringLoop : ∀ (n : Nat) (s : GoString) (fuel : Nat) (rest : List Byte),
    s.length ≤ n → utf8.validLoop n s = true → (json.appendStringLoop n s).length < fuel →
    json.parseStringBody fuel (json.appendStringLoop n s ++ Byte.ofNat 0x22 :: rest)
      = some (s, rest) := by
  intro n
  induction n with
  | zero =>
    intro s fuel rest hlen _ hfuel
    have hs : s = [] := List.length_eq_zero.1 (Nat.le_zero.1 hlen)
    subst hs
    obtain ⟨f, rfl⟩ : ∃ f, fuel = f + 1 := ⟨fuel - 1, by omega⟩
    rfl
  | succ n ih =>
    intro s fuel rest hlen hvalid hfuel
    rcases s with _ | ⟨b, r⟩
    · obtain ⟨f, rfl⟩ : ∃ f, fuel = f + 1 := ⟨fuel - 1, by omega⟩
      rfl
    · obtain ⟨f, rfl⟩ : ∃ f, fuel = f + 1 := ⟨fuel - 1, by omega⟩
      simp only [List.length_cons] at hlen
      by_cases hb : b.val < 0x80
      · rw [utf8.validLoop, if_pos hb] at hvalid
        rw [json.appendStringLoop, if_pos hb] at hfuel ⊢
        simp only [List.length_append] at hfuel
        have ih' := ih r f rest (by omega) hvalid
        by_cases hs : json.htmlSafeSet b.val = true
        · simp only [hs, if_true] at hfuel ⊢
          simp only [List.length_singleton] at hfuel
          simp only [List.cons_append, List.nil_append, List.append_assoc]
          rw [parse_safeByte b f _ hb hs, ih' (by omega)]
          rfl
        · have hs' : json.htmlSafeSet b.val = false := by simpa using hs
          simp only [hs', Bool.false_eq_true, if_false] at hfuel ⊢
          have := escapeByte_length b.val
          rw [List.append_assoc, parse_escapeByte b f _ hb hs', ih' (by omega)]
          rfl
      · rw [utf8.validLoop, if_neg hb] at hvalid
        simp only at hvalid
        have hd1 : (utf8.DecodeRune (b :: r)).2 ≠ 1 := by
          intro h
          simp [h] at hvalid
        rw [if_neg hd1] at hvalid
        obtain ⟨pre, post, hr, hpre, henc, hdec⟩ := DecodeRune_multibyte b r (by omega) hd1
        have hdrop : r.drop ((utf8.DecodeRune (b :: r)).2 - 1) = post := by
          rw [← hpre, hr]
          simp
        have htake : (b :: r).take (utf8.DecodeRune (b :: r)).2 = b :: pre := by
          rw [← hpre, hr]
          simp
        rw [hdrop] at hvalid
        have hpost : post.length ≤ n := by
          have : r.length = pre.length + post.length := by rw [hr]; simp
          omega
        rw [json.appendStringLoop, if_neg hb] at hfuel ⊢
        simp only at hfuel ⊢
        rw [if_neg (by intro h; exact hd1 h.2)] at hfuel ⊢
        rw [hdrop, htake] at hfuel ⊢
        by_cases hls : (utf8.DecodeRune (b :: r)).1 = 0x2028 ∨ (utf8.DecodeRune (b :: r)).1 = 0x2029
        · rw [if_pos hls] at hfuel ⊢
          simp only [List.length_append, List.length_cons, lineSep_length] at hfuel
          simp only [List.cons_append, List.nil_append, List.append_assoc]
          rw [parse_lineSep f _ _ hls, henc, ih post f rest hpost hvalid (by omega), hr]
          rfl
        · rw [if_neg hls] at hfuel ⊢
          simp only [List.length_append, List.length_cons] at hfuel
          simp only [List.cons_append, List.nil_append, List.append_assoc]
          rw [parse_multibyte b f _ (by omega), hdec, henc]
          have hdrop2 : (pre ++ (json.appendStringLoop n post ++ Byte.ofNat 0x22 :: rest)).drop
              ((utf8.DecodeRune (b :: r)).2 - 1)
              = json.appendStringLoop n post ++ Byte.ofNat 0x22 :: rest := by
            rw [← hpre]
            simp
          rw [hdrop2, ih post f rest hpost hvalid (by omega), hr]
          rfl

/-! ### Numbers -/

theorem formatLoop_eq : ∀ (n fuel : Nat) (acc : List Byte), n < fuel →
    strconv.formatLoop fuel n acc = strconv.formatNat n ++ acc := by
  intro n
  induction n using Nat.strong_induction_on with
  | _ n ih =>
    intro fuel acc hfuel
    obtain ⟨f, rfl⟩ : ∃ f, fuel = f + 1 := ⟨fuel - 1, by omega⟩
    unfold strconv.formatNat
    rw [strconv.formatLoop, strconv.formatLoop]
    by_cases h : n < 10
    · rw [if_pos h, if_pos h]
      rfl
    · rw [if_neg h, if_neg h]
      have hlt : n / 10 < n := Nat.div_lt_self (by omega) (by decide)
      rw [ih (n / 10) hlt f _ (by omega), ih (n / 10) hlt n _ hlt]
      simp

theorem formatNat_small (n : Nat) (h : n < 10) : strconv.formatNat n = [Byte.ofNat (48 + n)] := by
  unfold strconv.formatNat
  rw [strconv.formatLoop, if_pos h]

theorem formatNat_big (n : Nat) (h : ¬ n < 10) :
    strconv.formatNat n = strconv.formatNat (n / 10) ++ [Byte.ofNat (48 + n % 10)] := by
  have hlt : n / 10 < n := Nat.div_lt_self (by omega) (by decide)
  conv_lhs => unfold strconv.formatNat
  rw [strconv.formatLoop, if_neg h, formatLoop_eq _ _ _ hlt]

theorem isDigit_ofNat (d : Nat) (h : d < 10) : strconv.isDigit (Byte.ofNat (48 + d)) = true := by
  simp [strconv.isDigit, Byte.val_ofNat (48 + d) (by omega)]
  omega

theorem formatNat_digits : ∀ n : Nat, (strconv.formatNat n).all strconv.isDigit = true := by
  intro n
  induction n using Nat.strong_induction_on with
  | _ n ih =>
    by_cases h : n < 10
    · rw [formatNat_small n h]
      simp [isDigit_ofNat n h]
    · have hlt : n / 10 < n := Nat.div_lt_self (by omega) (by decide)
      rw [formatNat_big n h, List.all_append, ih _ hlt]
      simp [isDigit_ofNat (n % 10) (Nat.mod_lt _ (by decide))]

theorem digitsValue_append (xs : List Byte) (d : Byte) :
    strconv.digitsValue (xs ++ [d]) = strconv.digitsValue xs * 10 + (d.val - 48) := by
  simp [strconv.digitsValue, List.foldl_append]

theorem digitsValue_formatNat : ∀ n : Nat, strconv.digitsValue (strconv.formatNat n) = n := by
  intro n
  induction n using Nat.strong_induction_on with
  | _ n ih =>
    by_cases h : n < 10
    · rw [formatNat_small n h]
      simp [strconv.digitsValue, Byte.val_ofNat (48 + n) (by omega)]
    · have hlt : n / 10 < n := Nat.div_lt_self (by omega) (by decide)
      rw [formatNat_big n h, digitsValue_append, ih _ hlt,
        Byte.val_ofNat _ (by omega)]
      omega

/-- The digits of a number start with a digit that is zero only for zero. -/
theorem formatNat_head : ∀ n : Nat, ∃ d ds, strconv.formatNat n = d :: ds
    ∧ (n = 0 → d.val = 0x30 ∧ ds = []) ∧ (0 < n → 0x31 ≤ d.val ∧ d.val ≤ 0x39) := by
  intro n
  induction n using Nat.strong_induction_on with
  | _ n ih =>
    by_cases h : n < 10
    · refine ⟨Byte.ofNat (48 + n), [], formatNat_small n h, ?_, ?_⟩
      · intro h0
        subst h0
        exact ⟨rfl, rfl⟩
      · intro hpos
        rw [Byte.val_ofNat _ (by omega)]
        omega
    · have hlt : n / 10 < n := Nat.div_lt_self (by omega) (by decide)
      obtain ⟨d, ds, hd, _, hpos⟩ := ih _ hlt
      refine ⟨d, ds ++ [Byte.ofNat (48 + n % 10)], ?_, ?_, ?_⟩
      · rw [formatNat_big n h, hd]
        rfl
      · intro h0
        omega
      · intro _
        exact hpos (Nat.div_pos (by omega) (by decide))

theorem spanDigits_append : ∀ (ds tail : List Byte), ds.all strconv.isDigit = true →
    (∀ t rest, tail = t :: rest → strconv.isDigit t = false) →
    json.spanDigits (ds ++ tail) = (ds, tail) := by
  intro ds
  induction ds with
  | nil =>
    intro tail _ ht
    rcases tail with _ | ⟨t, rest⟩
    · rfl
    · simp [json.spanDigits, ht t rest rfl]
  | cons d ds ih =>
    intro tail hds ht
    simp only [List.all_cons, Bool.and_eq_true] at hds
    simp [json.spanDigits, hds.1, ih tail hds.2 ht]

theorem scanFraction_sep (acc : List Byte) (t : Byte) (rest : List Byte) (ht : isSep t) :
    json.scanFraction acc (t :: rest) = some (acc, t :: rest) := by
  have h1 : ¬ t.val = 0x2E := by rcases ht with h | h <;> omega
  have h2 : ¬ (t.val = 0x65 ∨ t.val = 0x45) := by rcases ht with h | h <;> omega
  simp [json.scanFraction, json.scanExponent, h1, h2]

theorem isDigit_sep (t : Byte) (ht : isSep t) : strconv.isDigit t = false := by
  rcases ht with h | h <;> simp [strconv.isDigit, h]

theorem scanInteger_formatNat (acc : List Byte) (n : Nat) (t : Byte) (rest : List Byte)
    (ht : isSep t) :
    json.scanInteger acc (strconv.formatNat n ++ t :: rest)
      = some (acc ++ strconv.formatNat n, t :: rest) := by
  obtain ⟨d, ds, hd, h0, hpos⟩ := formatNat_head n
  have hall := formatNat_digits n
  rw [hd] at hall ⊢
  simp only [List.all_cons, Bool.and_eq_true] at hall
  rcases Nat.eq_zero_or_pos n with hn | hn
  · obtain ⟨hd0, hds⟩ := h0 hn
    subst hds
    simp [json.scanInteger, hd0, scanFraction_sep _ t rest ht]
  · have hd1 := hpos hn
    have hne : ¬ d.val = 0x30 := by omega
    have hsp := spanDigits_append ds (t :: rest) hall.2
      (fun t' rest' h => by cases h; exact isDigit_sep t ht)
    simp [json.scanInteger, hne, hd1, hsp, scanFraction_sep _ t rest ht]

theorem scanNumber_formatInt (i : Int) (t : Byte) (rest : List Byte) (ht : isSep t) :
    json.scanNumber (strconv.formatInt i ++ t :: rest) = some (strconv.formatInt i, t :: rest) := by
  unfold strconv.formatInt
  by_cases hneg : i < 0
  · rw [if_pos hneg]
    simp [json.scanNumber, Byte.val_ofNat, scanInteger_formatNat _ _ t rest ht]
  · rw [if_neg hneg]
    obtain ⟨d, ds, hd, h0, hpos⟩ := formatNat_head i.natAbs
    have hdm : ¬ d.val = 0x2D := by
      rcases Nat.eq_zero_or_pos i.natAbs with hn | hn
      · have := (h0 hn).1; omega
      · have := hpos hn; omega
    have := scanInteger_formatNat [] i.natAbs t rest ht
    rw [hd] at this ⊢
    simp only [List.cons_append, List.nil_append] at this
    simp [json.scanNumber, hdm, this]

theorem parseInt64_formatInt (i : Int64) : strconv.parseInt64 (strconv.formatInt i.val) = some i := by
  obtain ⟨v, hv⟩ := i
  simp only
  unfold strconv.formatInt
  by_cases hneg : v < 0
  · rw [if_pos hneg]
    have e : (-(v.natAbs : Int)) = v := by omega
    generalize v.natAbs = m at e
    obtain ⟨d, ds, hd, _, _⟩ := formatNat_head m
    have hall := formatNat_digits m
    have hval := digitsValue_formatNat m
    have hne : (strconv.formatNat m).isEmpty = false := by rw [hd]; rfl
    unfold strconv.parseInt64
    simp only [List.head?_cons, Option.map_some', Byte.val_ofNat 45 (by decide), decide_True,
      true_or, if_true, List.drop_succ_cons, List.drop_zero, hne, hall, Bool.not_true,
      Bool.false_eq_true, or_self, if_false, hval, e]
    rw [dif_pos hv]
  · rw [if_neg hneg]
    have e : ((v.natAbs : Nat) : Int) = v := by omega
    generalize v.natAbs = m at e
    obtain ⟨d, ds, hd, h0, hpos⟩ := formatNat_head m
    have hall := formatNat_digits m
    have hval := digitsValue_formatNat m
    have hne : (strconv.formatNat m).isEmpty = false := by rw [hd]; rfl
    have hdd : 0x30 ≤ d.val ∧ d.val ≤ 0x39 := by
      rcases Nat.eq_zero_or_pos m with hn | hn
      · have := (h0 hn).1; omega
      · have := hpos hn; omega
    have h45 : ¬ (strconv.formatNat m).head?.map Fin.val = some 45 := by
      rw [hd]; simp; omega
    have h43 : ¬ (strconv.formatNat m).head?.map Fin.val = some 43 := by
      rw [hd]; simp; omega
    unfold strconv.parseInt64
    simp only [h45, h43, decide_False, Bool.false_eq_true, or_self, if_false, hne, hall,
      Bool.not_true, hval, e]
    rw [dif_pos hv]

/-! ### Objects -/

theorem parse_appendString (s : GoString) (rest : List Byte) (hs : utf8.ValidString s = true) :
    json.parseStringBody (json.appendStringLoop s.length s ++ Byte.ofNat 0x22 :: rest).length
        (json.appendStringLoop s.length s ++ Byte.ofNat 0x22 :: rest) = some (s, rest) :=
  parse_appendStringLoop s.length s _ rest (Nat.le_refl _) hs (by simp)

theorem formatInt_head (i : Int) : ∃ c cs, strconv.formatInt i = c :: cs
    ∧ (c.val = 0x2D ∨ (0x30 ≤ c.val ∧ c.val ≤ 0x39)) := by
  unfold strconv.formatInt
  by_cases h : i < 0
  · rw [if_pos h]
    exact ⟨_, _, rfl, Or.inl rfl⟩
  · rw [if_neg h]
    obtain ⟨d, ds, hd, h0, hpos⟩ := formatNat_head i.natAbs
    refine ⟨d, ds, hd, Or.inr ?_⟩
    rcases Nat.eq_zero_or_pos i.natAbs with hn | hn
    · have := (h0 hn).1; omega
    · have := hpos hn; omega

theorem skipSpace_cons (c : Byte) (rest : List Byte) (h : json.isSpace c = false) :
    json.skipSpace (c :: rest) = c :: rest := by
  simp [json.skipSpace, h]

/-- A value the encoder writes, followed by a separator, is read back. -/
theorem parseValue_encodeValue (fuel depth : Nat) (v : json.FieldVal) (t : Byte) (rest : List Byte)
    (ht : isSep t) (hv : validValue v) :
    json.parseValue (fuel + 1) depth (json.encodeValue v ++ t :: rest)
      = some (valueOf v, t :: rest) := by
  cases v with
  | str s =>
    have h := parse_appendString s (t :: rest) hv
    simp only [json.encodeValue, json.appendString, List.cons_append, List.append_assoc,
      List.nil_append, valueOf]
    rw [json.parseValue, skipSpace_cons _ _ (by decide)]
    simp only [Byte.val_ofNat 0x22 (by decide)]
    rw [if_neg (by decide), if_neg (by decide), if_pos trivial, h]
  | int i =>
    obtain ⟨c, cs, hc, hcv⟩ := formatInt_head i.val
    have h := scanNumber_formatInt i.val t rest ht
    simp only [json.encodeValue, valueOf]
    rw [hc] at h ⊢
    simp only [List.cons_append] at h ⊢
    have hsp : json.isSpace c = false := by
      rcases hcv with h1 | h1 <;> simp [json.isSpace] <;> omega
    rw [json.parseValue, skipSpace_cons _ _ hsp]
    simp only
    rw [if_neg (by omega), if_neg (by omega), if_neg (by omega), if_neg (by omega),
      if_neg (by omega), if_neg (by omega), h]


theorem written_cons_omit {α : Type} (v : α) (f : json.Field α) (fs : List (json.Field α))
    (h : (f.omitEmpty && json.isEmptyValue (f.get v)) = true) :
    written v (f :: fs) = written v fs := by
  simp only [written, List.filter_cons, h, Bool.not_true, Bool.false_eq_true, if_false]

theorem written_cons_keep {α : Type} (v : α) (f : json.Field α) (fs : List (json.Field α))
    (h : ¬ (f.omitEmpty && json.isEmptyValue (f.get v)) = true) :
    written v (f :: fs) = f :: written v fs := by
  have h' : (f.omitEmpty && json.isEmptyValue (f.get v)) = false := by simpa using h
  simp only [written, List.filter_cons, h', Bool.not_false, if_true]

theorem encodeFields_comma_head {α : Type} (v : α) : ∀ fs : List (json.Field α),
    ∃ t tl, json.encodeFields v fs (Byte.ofNat 0x2C) = t :: tl ∧ isSep t := by
  intro fs
  induction fs with
  | nil => exact ⟨Byte.ofNat 0x7D, [], by rfl, Or.inr rfl⟩
  | cons f fs ih =>
    rw [json.encodeFields]
    by_cases h : (f.omitEmpty && json.isEmptyValue (f.get v)) = true
    · rw [if_pos h]
      exact ih
    · rw [if_neg h]
      exact ⟨_, _, rfl, Or.inl rfl⟩

/-- One member: a quoted key, a colon and a value, then what follows. -/
theorem parseMembers_member (fuel depth : Nat) (name : GoString) (v : json.FieldVal)
    (tail : List Byte) (t : Byte) (tl : List Byte) (htail : tail = t :: tl) (ht : isSep t)
    (hname : utf8.ValidString name = true) (hv : validValue v) :
    json.parseMembers (fuel + 2) depth
        (json.appendString name ++ Byte.ofNat 0x3A :: (json.encodeValue v ++ tail))
      = afterValue (fuel + 1) depth (name, valueOf v) tail := by
  subst htail
  have hk := parse_appendString name
    (Byte.ofNat 0x3A :: (json.encodeValue v ++ t :: tl)) hname
  have hval := parseValue_encodeValue fuel depth v t tl ht hv
  simp only [json.appendString, List.cons_append, List.append_assoc, List.nil_append]
  rw [json.parseMembers]
  simp only [Byte.val_ofNat 0x22 (by decide)]
  rw [if_neg (by decide), hk]
  simp only
  rw [skipSpace_cons _ _ (by decide)]
  simp only [Byte.val_ofNat 0x3A (by decide)]
  rw [if_neg (by decide), hval]
  rfl

/-- The members the encoder writes after a member are read back. -/
theorem afterValue_encodeFields {α : Type} (v : α) : ∀ (fs : List (json.Field α)),
    (∀ f ∈ fs, utf8.ValidString f.name = true) → (∀ f ∈ fs, validValue (f.get v)) →
    ∀ (fuel depth : Nat) (kv : GoString × json.JValue) (rest : List Byte),
    (written v fs).length < fuel →
    afterValue fuel depth kv (json.encodeFields v fs (Byte.ofNat 0x2C) ++ rest)
      = some (kv :: membersOf v fs, rest) := by
  intro fs
  induction fs with
  | nil =>
    intro _ _ fuel depth kv rest _
    rfl
  | cons f fs ih =>
    intro hnames hvals fuel depth kv rest hfuel
    have hnames' : ∀ g ∈ fs, utf8.ValidString g.name = true :=
      fun g hg => hnames g (List.mem_cons_of_mem _ hg)
    have hvals' : ∀ g ∈ fs, validValue (g.get v) :=
      fun g hg => hvals g (List.mem_cons_of_mem _ hg)
    rw [json.encodeFields]
    by_cases h : (f.omitEmpty && json.isEmptyValue (f.get v)) = true
    · have hw := written_cons_omit v f fs h
      have hm : membersOf v (f :: fs) = membersOf v fs := by
        simp [membersOf, hw]
      rw [if_pos h, hm]
      rw [hw] at hfuel
      exact ih hnames' hvals' fuel depth kv rest hfuel
    · have hw := written_cons_keep v f fs h
      have hm : membersOf v (f :: fs) = (f.name, valueOf (f.get v)) :: membersOf v fs := by
        simp [membersOf, hw]
      rw [if_neg h, hm]
      rw [hw] at hfuel
      simp only [List.length_cons] at hfuel
      obtain ⟨k, rfl⟩ : ∃ k, fuel = k + 2 := ⟨fuel - 2, by omega⟩
      obtain ⟨t, tl, htl, ht⟩ := encodeFields_comma_head v fs
      have hmem := parseMembers_member k depth f.name (f.get v)
        (json.encodeFields v fs (Byte.ofNat 0x2C) ++ rest) t (tl ++ rest) (by rw [htl]; rfl) ht
        (hnames f (List.mem_cons_self _ _)) (hvals f (List.mem_cons_self _ _))
      have hih := ih hnames' hvals' (k + 1) depth (f.name, valueOf (f.get v)) rest (by omega)
      simp only [List.cons_append, List.append_assoc] at hmem ⊢
      rw [afterValue, skipSpace_cons _ _ (by decide)]
      simp only [Byte.val_ofNat 0x2C (by decide)]
      rw [if_neg (by decide), if_pos trivial]
      have hq : json.skipSpace (json.appendString f.name ++ Byte.ofNat 0x3A ::
          (json.encodeValue (f.get v) ++ (json.encodeFields v fs (Byte.ofNat 0x2C) ++ rest)))
          = json.appendString f.name ++ Byte.ofNat 0x3A ::
          (json.encodeValue (f.get v) ++ (json.encodeFields v fs (Byte.ofNat 0x2C) ++ rest)) := by
        simp only [json.appendString, List.cons_append]
        exact skipSpace_cons _ _ (by decide)
      rw [hq, hmem, hih]

theorem encodeFields_length {α : Type} (v : α) : ∀ (fs : List (json.Field α)) (next : Byte),
    (written v fs).length < (json.encodeFields v fs next).length := by
  intro fs
  induction fs with
  | nil =>
    intro next
    rw [json.encodeFields]
    split_ifs <;> simp [written]
  | cons f fs ih =>
    intro next
    rw [json.encodeFields]
    by_cases h : (f.omitEmpty && json.isEmptyValue (f.get v)) = true
    · have hw := written_cons_omit v f fs h
      rw [if_pos h, hw]
      exact ih next
    · have hw := written_cons_keep v f fs h
      rw [if_neg h, hw]
      have := ih (Byte.ofNat 0x2C)
      simp only [List.length_cons, List.length_append]
      omega

/-- The object `json.Marshal` writes for a struct whose first field is always
written is read back as the members written. -/
theorem parseJSON_encodeFields {α : Type} (v : α) (f : json.Field α) (fs : List (json.Field α))
    (hf : f.omitEmpty = false)
    (hnames : ∀ g ∈ f :: fs, utf8.ValidString g.name = true)
    (hvals : ∀ g ∈ f :: fs, validValue (g.get v)) :
    json.parseJSON (json.encodeFields v (f :: fs) (Byte.ofNat 0x7B))
      = some (json.JValue.object ((f.name, valueOf (f.get v)) :: membersOf v fs)) := by
  have hnames' : ∀ g ∈ fs, utf8.ValidString g.name = true :=
    fun g hg => hnames g (List.mem_cons_of_mem _ hg)
  have hvals' : ∀ g ∈ fs, validValue (g.get v) :=
    fun g hg => hvals g (List.mem_cons_of_mem _ hg)
  have hlen := encodeFields_length v fs (Byte.ofNat 0x2C)
  obtain ⟨t, tl, htl, ht⟩ := encodeFields_comma_head v fs
  rw [json.encodeFields]
  simp only [hf, Bool.false_and, Bool.false_eq_true, if_false]
  unfold json.parseJSON
  simp only [List.length_cons, List.length_append]
  generalize hN : (json.appendString f.name).length
    + ((json.encodeValue (f.get v)).length
      + (json.encodeFields v fs (Byte.ofNat 0x2C)).length + 1) = N
  obtain ⟨k, rfl⟩ : ∃ k, N = k + 2 := ⟨N - 2, by omega⟩
  have hmem := parseMembers_member (k + 1) 1 f.name (f.get v)
    (json.encodeFields v fs (Byte.ofNat 0x2C) ++ []) t (tl ++ []) (by rw [htl]; rfl) ht
    (hnames f (List.mem_cons_self _ _)) (hvals f (List.mem_cons_self _ _))
  have hafter := afterValue_encodeFields v fs hnames' hvals' (k + 2) 1
    (f.name, valueOf (f.get v)) [] (by omega)
  simp only [List.append_nil] at hmem hafter
  rw [json.parseValue, skipSpace_cons _ _ (by decide)]
  simp only [Byte.val_ofNat 0x7B (by decide)]
  rw [if_pos trivial, if_neg (by decide)]
  have hq : json.skipSpace (json.appendString f.name ++ Byte.ofNat 0x3A ::
      (json.encodeValue (f.get v) ++ json.encodeFields v fs (Byte.ofNat 0x2C)))
      = Byte.ofNat 0x22 :: (json.appendStringLoop f.name.length f.name ++ [Byte.ofNat 0x22]
        ++ Byte.ofNat 0x3A :: (json.encodeValue (f.get v)
          ++ json.encodeFields v fs (Byte.ofNat 0x2C))) := by
    simp only [json.appendString, List.cons_append]
    exact skipSpace_cons _ _ (by decide)
  rw [hq]
  simp only [Byte.val_ofNat 0x22 (by decide)]
  rw [if_neg (by decide)]
  have hmem' : json.parseMembers (k + 3) (0 + 1)
      (Byte.ofNat 0x22 :: (json.appendStringLoop f.name.length f.name ++ [Byte.ofNat 0x22]
        ++ Byte.ofNat 0x3A :: (json.encodeValue (f.get v)
          ++ json.encodeFields v fs (Byte.ofNat 0x2C))))
      = some ((f.name, valueOf (f.get v)) :: membersOf v fs, []) := by
    rw [← hafter, ← hmem]
    simp only [json.appendString, List.cons_append]
  rw [hmem']
  rfl


/-! ### Structs -/

theorem decodeMembers_append {α : Type} (fields : List (json.Field α)) :
    ∀ (xs ys : List (GoString × json.JValue)) (st : α × Option json.JsonError),
    json.decodeMembers fields (xs ++ ys) st
      = json.decodeMembers fields ys (json.decodeMembers fields xs st) := by
  intro xs
  induction xs with
  | nil => intro ys st; rfl
  | cons x xs ih =>
    intro ys st
    obtain ⟨key, v⟩ := x
    simp only [List.cons_append, json.decodeMembers]
    cases json.findField fields key with
    | none => exact ih ys st
    | some f => exact ih ys _

theorem Int64.eq_zero (i : Int64) (h : i.val = 0) : i = Int64.zero := Subtype.ext h

theorem findField_payment_timestamp :
    json.findField Payment.fields (goStr "timestamp") = Payment.fields[8]? := rfl

theorem decode_payment_timestamp (p : Payment) (i : Int64) :
    json.decodeMembers Payment.fields
      [(goStr "timestamp", json.JValue.number (strconv.formatInt i.val))] (p, none)
      = ({ p with Timestamp := i }, none) := by
  simp only [json.decodeMembers, findField_payment_timestamp]
  simp only [Payment.fields, List.getElem?_cons_succ, List.getElem?_cons_zero, json.storeValue,
    parseInt64_formatInt]
  rfl

theorem decode_payment_strings (a b c d e f g : GoString) :
    json.decodeMembers Payment.fields
      [(goStr "scheme", json.JValue.string a), (goStr "txHash", json.JValue.string b),
        (goStr "chain", json.JValue.string c), (goStr "token", json.JValue.string d),
        (goStr "amount", json.JValue.string e), (goStr "sender", json.JValue.string f),
        (goStr "recipient", json.JValue.string g)] (Payment.empty, none)
      = ({ Scheme := a, TxHash := b, Chain := c, Token := d, Amount := e, Sender := f,
           Recipient := g, Nonce := [], Timestamp := Int64.zero }, none) := rfl

theorem membersOf_nil {α : Type} (v : α) : membersOf v ([] : List (json.Field α)) = [] := rfl

theorem membersOf_cons {α : Type} (v : α) (f : json.Field α) (fs : List (json.Field α)) :
    membersOf v (f :: fs)
      = if (f.omitEmpty && json.isEmptyValue (f.get v)) = true then membersOf v fs
        else (f.name, valueOf (f.get v)) :: membersOf v fs := by
  by_cases h : (f.omitEmpty && json.isEmptyValue (f.get v)) = true
  · rw [if_pos h, membersOf, written_cons_omit v f fs h]
    rfl
  · rw [if_neg h, membersOf, written_cons_keep v f fs h]
    rfl

theorem decodeMembers_cons {α : Type} (fields : List (json.Field α)) (m : GoString × json.JValue)
    (ms : List (GoString × json.JValue)) (st : α × Option json.JsonError) :
    json.decodeMembers fields (m :: ms) st
      = json.decodeMembers fields ms (json.decodeMembers fields [m] st) :=
  decodeMembers_append fields [m] ms st

theorem decode_payment_string (p : Payment) :
    (∀ s, json.decodeMembers Payment.fields [(goStr "scheme", json.JValue.string s)] (p, none)
      = ({ p with Scheme := s }, none))
    ∧ (∀ s, json.decodeMembers Payment.fields [(goStr "txHash", json.JValue.string s)] (p, none)
      = ({ p with TxHash := s }, none))
    ∧ (∀ s, json.decodeMembers Payment.fields [(goStr "chain", json.JValue.string s)] (p, none)
      = ({ p with Chain := s }, none))
    ∧ (∀ s, json.decodeMembers Payment.fields [(goStr "token", json.JValue.string s)] (p, none)
      = ({ p with Token := s }, none))
    ∧ (∀ s, json.decodeMembers Payment.fields [(goStr "amount", json.JValue.string s)] (p, none)
      = ({ p with Amount := s }, none))
    ∧ (∀ s, json.decodeMembers Payment.fields [(goStr "sender", json.JValue.string s)] (p, none)
      = ({ p with Sender := s }, none))
    ∧ (∀ s, json.decodeMembers Payment.fields [(goStr "recipient", json.JValue.string s)] (p, none)
      = ({ p with Recipient := s }, none))
    ∧ (∀ s, json.decodeMembers Payment.fields [(goStr "nonce", json.JValue.string s)] (p, none)
      = ({ p with Nonce := s }, none)) :=
  ⟨fun _ => rfl, fun _ => rfl, fun _ => rfl, fun _ => rfl, fun _ => rfl, fun _ => rfl,
    fun _ => rfl, fun _ => rfl⟩

theorem Unmarshal_encodeFields {α : Type} (v t : α) (fields : List (json.Field α))
    (f : json.Field α) (fs : List (json.Field α)) (hfields : fields = f :: fs)
    (hf : f.omitEmpty = false)
    (hnames : fields.all (fun g => utf8.ValidString g.name) = true)
    (hvals : ∀ g ∈ fields, validValue (g.get v)) :
    json.Unmarshal fields (json.Marshal fields (some v)).1 t
      = json.decodeMembers fields ((f.name, valueOf (f.get v)) :: membersOf v fs) (t, none) := by
  subst hfields
  have hn : ∀ g ∈ f :: fs, utf8.ValidString g.name = true := by
    intro g hg
    exact (List.all_eq_true.1 hnames) g hg
  unfold json.Unmarshal json.Marshal
  simp only
  rw [parseJSON_encodeFields v f fs hf hn hvals]

/-- Decoding the JSON of a payment whose strings are valid UTF-8 into an empty
payment gives the payment back. -/
theorem Unmarshal_Marshal_payment (p : Payment) (hp : p.validUTF8) :
    json.Unmarshal Payment.fields (json.Marshal Payment.fields (some p)).1 Payment.empty
      = (p, none) := by
  obtain ⟨h1, h2, h3, h4, h5, h6, h7, h8⟩ := hp
  have hvals : ∀ g ∈ Payment.fields, validValue (g.get p) := by
    intro g hg
    simp only [Payment.fields, List.mem_cons, List.mem_singleton, List.not_mem_nil, or_false] at hg
    rcases hg with rfl | rfl | rfl | rfl | rfl | rfl | rfl | rfl | rfl <;>
      simp only [validValue] <;> assumption
  rw [Unmarshal_encodeFields p Payment.empty Payment.fields _ _ rfl rfl (by decide) hvals]
  obtain ⟨a, b, c, d, e, f, g, n, ts⟩ := p
  simp only [membersOf_cons, membersOf_nil, Bool.false_and, Bool.true_and, Bool.false_eq_true,
    if_false, json.isEmptyValue, valueOf, decide_eq_true_eq]
  have hd := decode_payment_string
  have hts := decode_payment_timestamp
  cases n with
  | nil =>
    by_cases h0 : ts.val = 0
    · have := Int64.eq_zero ts h0
      subst this
      exact decode_payment_strings a b c d e f g
    · simp only [List.isEmpty_nil, if_true, if_neg h0]
      rw [decodeMembers_cons, (hd _).1, decodeMembers_cons, (hd _).2.1, decodeMembers_cons,
        (hd _).2.2.1, decodeMembers_cons, (hd _).2.2.2.1, decodeMembers_cons, (hd _).2.2.2.2.1,
        decodeMembers_cons, (hd _).2.2.2.2.2.1, decodeMembers_cons, (hd _).2.2.2.2.2.2.1, hts]
      rfl
  | cons x xs =>
    by_cases h0 : ts.val = 0
    · have := Int64.eq_zero ts h0
      subst this
      rfl
    · simp only [List.isEmpty_cons, Bool.false_eq_true, if_false, if_neg h0]
      rw [decodeMembers_cons, (hd _).1, decodeMembers_cons, (hd _).2.1, decodeMembers_cons,
        (hd _).2.2.1, decodeMembers_cons, (hd _).2.2.2.1, decodeMembers_cons, (hd _).2.2.2.2.1,
        decodeMembers_cons, (hd _).2.2.2.2.2.1, decodeMembers_cons, (hd _).2.2.2.2.2.2.1,
        decodeMembers_cons, (hd _).2.2.2.2.2.2.2, hts]


theorem findField_requirements_expiry :
    json.findField PaymentRequirements.fields (goStr "expiry") = PaymentRequirements.fields[6]? :=
  rfl

theorem decode_requirements_expiry (r : PaymentRequirements) (i : Int64) :
    json.decodeMembers PaymentRequirements.fields
      [(goStr "expiry", json.JValue.number (strconv.formatInt i.val))] (r, none)
      = ({ r with Expiry := i }, none) := by
  simp only [json.decodeMembers, findField_requirements_expiry]
  simp only [PaymentRequirements.fields, List.getElem?_cons_succ, List.getElem?_cons_zero,
    json.storeValue, parseInt64_formatInt]
  rfl

theorem decode_requirements_string (r : PaymentRequirements) :
    (∀ s, json.decodeMembers PaymentRequirements.fields
        [(goStr "scheme", json.JValue.string s)] (r, none) = ({ r with Scheme := s }, none))
    ∧ (∀ s, json.decodeMembers PaymentRequirements.fields
        [(goStr "amount", json.JValue.string s)] (r, none) = ({ r with Amount := s }, none))
    ∧ (∀ s, json.decodeMembers PaymentRequirements.fields
        [(goStr "token", json.JValue.string s)] (r, none) = ({ r with Token := s }, none))
    ∧ (∀ s, json.decodeMembers PaymentRequirements.fields
        [(goStr "chain", json.JValue.string s)] (r, none) = ({ r with Chain := s }, none))
    ∧ (∀ s, json.decodeMembers PaymentRequirements.fields
        [(goStr "recipient", json.JValue.string s)] (r, none) = ({ r with Recipient := s }, none))
    ∧ (∀ s, json.decodeMembers PaymentRequirements.fields
        [(goStr "nonce", json.JValue.string s)] (r, none) = ({ r with Nonce := s }, none))
    ∧ (∀ s, json.decodeMembers PaymentRequirements.fields
        [(goStr "facilitator", json.JValue.string s)] (r, none)
          = ({ r with Facilitator := s }, none)) :=
  ⟨fun _ => rfl, fun _ => rfl, fun _ => rfl, fun _ => rfl, fun _ => rfl, fun _ => rfl,
    fun _ => rfl⟩

theorem decodeMembers_nil {α : Type} (fields : List (json.Field α))
    (st : α × Option json.JsonError) : json.decodeMembers fields [] st = st := rfl

/-- Decoding the JSON of payment requirements whose strings are valid UTF-8
into empty requirements gives the requirements back. -/
theorem Unmarshal_Marshal_requirements (r : PaymentRequirements) (hr : r.validUTF8) :
    json.Unmarshal PaymentRequirements.fields
        (json.Marshal PaymentRequirements.fields (some r)).1 PaymentRequirements.empty
      = (r, none) := by
  obtain ⟨h1, h2, h3, h4, h5, h6, h7⟩ := hr
  have hvals : ∀ g ∈ PaymentRequirements.fields, validValue (g.get r) := by
    intro g hg
    simp only [PaymentRequirements.fields, List.mem_cons, List.mem_singleton, List.not_mem_nil,
      or_false] at hg
    rcases hg with rfl | rfl | rfl | rfl | rfl | rfl | rfl | rfl <;>
      simp only [validValue] <;> assumption
  rw [Unmarshal_encodeFields r PaymentRequirements.empty PaymentRequirements.fields _ _ rfl rfl
    (by decide) hvals]
  obtain ⟨a, b, c, d, e, n, ex, fac⟩ := r
  simp only [membersOf_cons, membersOf_nil, Bool.false_and, Bool.true_and, Bool.false_eq_true,
    if_false, json.isEmptyValue, valueOf, decide_eq_true_eq]
  have hd := decode_requirements_string
  have hex := decode_requirements_expiry
  rw [decodeMembers_cons, (hd _).1, decodeMembers_cons, (hd _).2.1, decodeMembers_cons,
    (hd _).2.2.1, decodeMembers_cons, (hd _).2.2.2.1, decodeMembers_cons, (hd _).2.2.2.2.1]
  cases n <;> cases fac <;> by_cases h0 : ex.val = 0 <;>
    simp only [List.isEmpty_nil, List.isEmpty_cons, if_true, Bool.false_eq_true, if_false,
      h0, eq_self_iff_true] <;>
    (try rw [decodeMembers_cons, (hd _).2.2.2.2.2.1]) <;>
    (try rw [decodeMembers_cons, hex]) <;>
    (try rw [decodeMembers_cons, (hd _).2.2.2.2.2.2]) <;>
    (try rw [decodeMembers_nil]) <;>
    (try (have hz := Int64.eq_zero ex h0; subst hz)) <;> rfl


/-! ## Round trip and the 402 response -/

set_option maxRecDepth 100000 in
/-- C5 fails as stated: a payment whose scheme is the byte `0xFF` is encoded
without error, with the scheme written as the escape of U+FFFD, and decoding
gives a payment whose scheme is the three bytes of U+FFFD, not the payment
encoded. -/
theorem json_round_trip_fails_on_invalid_utf8 :
    Payment.ToJSON (some Ex.rawPayment)
      = (goStr ("\x7b\"scheme\":\"\\ufffd\",\"txHash\":\"\",\"chain\":\"\",\"token\":\"\","
          ++ "\"amount\":\"\",\"sender\":\"\",\"recipient\":\"\"\x7d"), none)
    ∧ Payment.FromJSON Payment.empty (Payment.ToJSON (some Ex.rawPayment)).1
      = ({ Payment.empty with Scheme := [Byte.ofNat 0xEF, Byte.ofNat 0xBF, Byte.ofNat 0xBD] }, none)
    ∧ Payment.FromJSON Payment.empty (Payment.ToJSON (some Ex.rawPayment)).1
      ≠ (Ex.rawPayment, none) := by
  refine ⟨by decide, by decide, by decide⟩

/-- C5, amended: `ToJSON` succeeds on every payment and on all requirements, and
when the string fields are valid UTF-8, decoding the output into an empty
value gives the value encoded back (also when the `omitempty` fields are
zero). -/
theorem json_round_trip (p : Payment) (r : PaymentRequirements) :
    (Payment.ToJSON (some p)).2 = none
    ∧ (PaymentRequirements.ToJSON (some r)).2 = none
    ∧ (p.validUTF8 → Payment.FromJSON Payment.empty (Payment.ToJSON (some p)).1 = (p, none))
    ∧ (r.validUTF8 →
        json.Unmarshal PaymentRequirements.fields (PaymentRequirements.ToJSON (some r)).1
          PaymentRequirements.empty = (r, none)) := by
  refine ⟨rfl, rfl, ?_, ?_⟩
  · intro hp
    have h := Unmarshal_Marshal_payment p hp
    have hj : (Payment.ToJSON (some p)).1 = (json.Marshal Payment.fields (some p)).1 := rfl
    simp only [Payment.FromJSON, hj, h]
    rfl
  · intro hr
    exact Unmarshal_Marshal_requirements r hr

theorem json_round_trip_witness :
    Ex.fullPayment.validUTF8 ∧ Ex.reqs.validUTF8
    ∧ Payment.FromJSON Payment.empty (Payment.ToJSON (some Ex.fullPayment)).1
        = (Ex.fullPayment, none)
    ∧ json.Unmarshal PaymentRequirements.fields (PaymentRequirements.ToJSON (some Ex.reqs)).1
          PaymentRequirements.empty = (Ex.reqs, none) :=
  ⟨by decide, by decide,
    (json_round_trip Ex.fullPayment Ex.reqs).2.2.1 (by decide),
    (json_round_trip Ex.fullPayment Ex.reqs).2.2.2 (by decide)⟩

/-! ### The 402 response -/

theorem lookup_filter_ne (h : Header) (k k1 : GoString) (hk : k ≠ k1) :
    List.lookup k (h.filter (fun kv => decide (kv.1 ≠ k1))) = List.lookup k h := by
  induction h with
  | nil => rfl
  | cons kv h ih =>
    obtain ⟨a, v⟩ := kv
    by_cases ha : a = k1
    · subst ha
      have hne : (k == a) = false := by simpa using hk
      simp only [List.filter_cons, List.lookup, hne, ne_eq, not_true_eq_false, decide_False,
        Bool.false_eq_true, if_false]
      exact ih
    · by_cases hka : k = a
      · subst hka
        simp [List.filter_cons, ha, List.lookup]
      · have hne : (k == a) = false := by simpa using hka
        simp only [List.filter_cons, List.lookup, hne, ne_eq, ha, not_false_eq_true, decide_True,
          if_true]
        exact ih

theorem Get_Set_ne (h : Header) (k k1 v : GoString)
    (hk : http.CanonicalMIMEHeaderKey k ≠ http.CanonicalMIMEHeaderKey k1) :
    (h.Set k1 v).Get k = h.Get k := by
  have hne : (http.CanonicalMIMEHeaderKey k == http.CanonicalMIMEHeaderKey k1) = false := by
    simpa using hk
  simp only [Header.Get, Header.Set, Header.Del, List.lookup, hne, lookup_filter_ne _ _ _ hk]

theorem Get_Set_self (h : Header) (k v : GoString) : (h.Set k v).Get k = v := by
  simp [Header.Get, Header.Set, List.lookup]

theorem Time.Add_seconds (t : Time) (k : Int) (h0 : 0 ≤ t.nsec) (h1 : t.nsec < 1000000000) :
    (t.Add (k * 1000000000)).Unix = Int64.wrap (t.sec + k) := by
  unfold Time.Add Time.Unix
  simp only [Int.mul_tdiv_cancel k (by decide : (1000000000 : Int) ≠ 0), Int.mul_tmod_left,
    Int.add_zero]
  rw [if_neg (by omega), if_neg (by omega)]

theorem sendPaymentRequired_eq {σ : Type} (rt : Runtime σ) (config : MiddlewareConfig σ)
    (reqs : PaymentRequirements) (w : ResponseWriter) (s : σ)
    (hhook : config.OnPaymentRequired = none) :
    (sendPaymentRequired rt w (setDefaults rt config reqs) s).w
      = ((((w.SetHeader HeaderPayment
            (PaymentRequirements.ToJSON (some (expectedRequirements rt config reqs s))).1).SetHeader
          HeaderWWWAuthenticate (goStr "X-Payment")).SetHeader (goStr "Content-Type")
          (goStr "application/json")).WriteHeader http.StatusPaymentRequired).Write
          (paymentRequiredBody (expectedRequirements rt config reqs s))
    ∧ (sendPaymentRequired rt w (setDefaults rt config reqs) s).trace
      = if reqs.Nonce = [] then [Event.nonce] else [] := by
  have hh : (setDefaults rt config reqs).OnPaymentRequired = none := hhook
  have hr : (setDefaults rt config reqs).Requirements = reqs := rfl
  simp only [sendPaymentRequired, hh, hr]
  have hj : ∀ q : PaymentRequirements, PaymentRequirements.ToJSON (some q)
      = ((PaymentRequirements.ToJSON (some q)).1, none) := fun _ => rfl
  rw [hj]
  simp only
  have he : (if decide ((if decide (reqs.Nonce = []) = true then
        { reqs with Nonce := ((setDefaults rt config reqs).NonceGenerator s).1 } else reqs).Expiry.val = 0) = true then
      { (if decide (reqs.Nonce = []) = true then
        { reqs with Nonce := ((setDefaults rt config reqs).NonceGenerator s).1 } else reqs) with
        Expiry := ((rt.Now (if decide (reqs.Nonce = []) = true then
          ((setDefaults rt config reqs).NonceGenerator s).2 else s)).1.Add
            (setDefaults rt config reqs).ExpiryDuration).Unix }
      else (if decide (reqs.Nonce = []) = true then
        { reqs with Nonce := ((setDefaults rt config reqs).NonceGenerator s).1 } else reqs))
      = expectedRequirements rt config reqs s := by
    unfold expectedRequirements setDefaults
    by_cases hn : reqs.Nonce = [] <;> by_cases hx : reqs.Expiry.val = 0 <;>
      simp only [hn, hx, decide_True, decide_False, if_true, if_false, Bool.false_eq_true]
  rw [he]
  refine ⟨rfl, ?_⟩
  by_cases hn : reqs.Nonce = [] <;> simp [hn]


theorem writer_paymentRequired (w : ResponseWriter) (j body : List Byte) (hw : w.sent = none) :
    (((((w.SetHeader HeaderPayment j).SetHeader HeaderWWWAuthenticate (goStr "X-Payment")).SetHeader
        (goStr "Content-Type") (goStr "application/json")).WriteHeader
          http.StatusPaymentRequired).Write body).status = some 402
    ∧ (((((w.SetHeader HeaderPayment j).SetHeader HeaderWWWAuthenticate (goStr "X-Payment")).SetHeader
        (goStr "Content-Type") (goStr "application/json")).WriteHeader
          http.StatusPaymentRequired).Write body).sentHeader.map (fun hd => hd.Get HeaderPayment)
        = some j
    ∧ (((((w.SetHeader HeaderPayment j).SetHeader HeaderWWWAuthenticate (goStr "X-Payment")).SetHeader
        (goStr "Content-Type") (goStr "application/json")).WriteHeader
          http.StatusPaymentRequired).Write body).body = w.body ++ body := by
  have h1 : ((w.SetHeader HeaderPayment j).SetHeader HeaderWWWAuthenticate
      (goStr "X-Payment")).sent = none := hw
  simp only [ResponseWriter.Write, ResponseWriter.WriteHeader, ResponseWriter.SetHeader,
    ResponseWriter.status, ResponseWriter.sentHeader, hw, Option.map_some', http.StatusPaymentRequired]
  refine ⟨trivial, ?_, trivial⟩
  rw [Get_Set_ne _ _ _ _ (by decide), Get_Set_ne _ _ _ _ (by decide), Get_Set_self]

/-- C1, amended: a request without payment header never reaches the wrapped
handler. When no `OnPaymentRequired` callback is configured it is answered
with status 402 and an `X-Payment` header that is the JSON of the configured
requirements, with the nonce taken from `NonceGenerator` when the configured
one is empty and the expiry from the clock when the configured one is zero;
that JSON decodes back to those requirements when their strings are valid
UTF-8. When a callback is configured the response is what the callback
writes. -/
theorem payment_required_without_header {σ : Type} (rt : Runtime σ)
    (config : MiddlewareConfig σ) (next : Handler σ) (reqs : PaymentRequirements)
    (w : ResponseWriter) (r : Request) (s : σ)
    (hreq : config.Requirements = some reqs)
    (hw : w.sent = none) (hhdr : r.Header.Get HeaderPaymentResponse = []) :
    ∃ h, RequirePaymentWithConfig rt config next = some h
      ∧ nextCalls (h w r s).trace = []
      ∧ (config.OnPaymentRequired = none →
          (h w r s).w.status = some 402
          ∧ (h w r s).w.sentHeader.map (fun hd => hd.Get HeaderPayment)
              = some (PaymentRequirements.ToJSON
                  (some (expectedRequirements rt config reqs s))).1
          ∧ ((expectedRequirements rt config reqs s).validUTF8 →
              json.Unmarshal PaymentRequirements.fields
                (PaymentRequirements.ToJSON (some (expectedRequirements rt config reqs s))).1
                PaymentRequirements.empty
              = (expectedRequirements rt config reqs s, none)))
      ∧ (∀ hook, config.OnPaymentRequired = some hook →
          (h w r s).w = (hook w none s).1 ∧ (h w r s).world = (hook w none s).2) := by
  refine ⟨_, RequirePaymentWithConfig_eq rt config next reqs hreq, ?_⟩
  have hk : (setDefaults rt config reqs).OnPaymentRequired = config.OnPaymentRequired := rfl
  have hrun : paymentHandler rt (setDefaults rt config reqs) next w r s
      = sendPaymentRequired rt w (setDefaults rt config reqs) s := by
    simp only [paymentHandler, if_pos hhdr]
  rw [hrun]
  cases hhook : config.OnPaymentRequired with
  | some hook =>
    have hout : sendPaymentRequired rt w (setDefaults rt config reqs) s
        = { w := (hook w none s).1, world := (hook w none s).2,
            trace := [Event.paymentRequired none], requirements := reqs } := by
      simp only [sendPaymentRequired, hk, hhook]
      rfl
    rw [hout]
    refine ⟨rfl, fun hh => ?_, fun hook1 hh => ?_⟩
    · cases hh
    · cases hh
      exact ⟨rfl, rfl⟩
  | none =>
    obtain ⟨hweq, htr⟩ := sendPaymentRequired_eq rt config reqs w s hhook
    obtain ⟨h1, h2, _⟩ := writer_paymentRequired w
      (PaymentRequirements.ToJSON (some (expectedRequirements rt config reqs s))).1
      (paymentRequiredBody (expectedRequirements rt config reqs s)) hw
    refine ⟨?_, fun _ => ⟨?_, ?_, fun hv => Unmarshal_Marshal_requirements _ hv⟩, fun hook hh => ?_⟩
    · rw [htr]
      split_ifs <;> rfl
    · rw [hweq]
      exact h1
    · rw [hweq]
      exact h2
    · cases hh

set_option maxRecDepth 1000000 in
theorem payment_required_without_header_witness :
    Ex.config.Requirements = some Ex.reqs ∧ ResponseWriter.fresh.sent = none
    ∧ (Ex.plain none).Header.Get HeaderPaymentResponse = []
    ∧ ∃ h, RequirePaymentWithConfig Ex.rt Ex.config Ex.next = some h
        ∧ nextCalls (h ResponseWriter.fresh (Ex.plain none) ()).trace = []
        ∧ (h ResponseWriter.fresh (Ex.plain none) ()).w.status = some 402
        ∧ (((h ResponseWriter.fresh (Ex.plain none) ()).w.sentHeader.map
            (fun hd => hd.Get HeaderPayment)).map
            (fun j => json.Unmarshal PaymentRequirements.fields j PaymentRequirements.empty))
          = some ({ Ex.reqs with Nonce := goStr "BwcHBwcHBwcHBwcHBwcHBw==",
                                 Expiry := ⟨1700000300, by decide⟩ }, none) := by
  refine ⟨rfl, rfl, by decide, ?_⟩
  obtain ⟨h, h1, h2, h3, _⟩ :=
    payment_required_without_header Ex.rt Ex.config Ex.next Ex.reqs
      ResponseWriter.fresh (Ex.plain none) () rfl rfl (by decide)
  obtain ⟨h4, h5, h6⟩ := h3 rfl
  refine ⟨h, h1, h2, h4, ?_⟩
  rw [h5, Option.map_some', h6 (by decide)]
  decide

set_option maxRecDepth 1000000 in
/-- C1 fails as stated, in two ways. With an `OnPaymentRequired` callback the
middleware hands the response to the callback: here the callback writes
nothing, so there is no 402 status and no `X-Payment` header. And with
requirements whose scheme is the byte `0xFF` the `X-Payment` header decodes to
requirements whose scheme is U+FFFD, not the configured one. -/
theorem payment_required_fails_as_stated :
    (∃ h, RequirePaymentWithConfig Ex.rt Ex.hookConfig Ex.next = some h
      ∧ (h ResponseWriter.fresh (Ex.plain none) ()).w.status = none
      ∧ (h ResponseWriter.fresh (Ex.plain none) ()).w.header.Get HeaderPayment = [])
    ∧ (∃ h, RequirePaymentWithConfig Ex.rt Ex.rawConfig Ex.next = some h
      ∧ (h ResponseWriter.fresh (Ex.plain none) ()).w.status = some 402
      ∧ (json.Unmarshal PaymentRequirements.fields
          (((h ResponseWriter.fresh (Ex.plain none) ()).w.sentHeader.map
            (fun hd => hd.Get HeaderPayment)).getD []) PaymentRequirements.empty).1.Scheme
          = [Byte.ofNat 0xEF, Byte.ofNat 0xBF, Byte.ofNat 0xBD]
      ∧ (Ex.rawConfig.Requirements.map (fun q => q.Scheme)) = some [Byte.ofNat 0xFF]) :=
  ⟨⟨_, RequirePaymentWithConfig_eq Ex.rt Ex.hookConfig Ex.next Ex.reqs rfl, by decide, by decide⟩,
    ⟨_, RequirePaymentWithConfig_eq Ex.rt Ex.rawConfig Ex.next
        { Ex.reqs with Scheme := [Byte.ofNat 0xFF] } rfl, by decide, by decide, by decide⟩⟩

/-! ### The requirements of the 402 response -/

theorem sendPaymentRequired_requirements {σ : Type} (rt : Runtime σ) (w : ResponseWriter)
    (config : Config σ) (s : σ) :
    (sendPaymentRequired rt w config s).requirements = config.Requirements := by
  unfold sendPaymentRequired
  cases config.OnPaymentRequired with
  | some hook => rfl
  | none =>
    have hj : ∀ q : PaymentRequirements, PaymentRequirements.ToJSON (some q)
        = ((PaymentRequirements.ToJSON (some q)).1, none) := fun _ => rfl
    simp only
    rw [hj]

theorem paymentHandler_requirements {σ : Type} (rt : Runtime σ) (config : Config σ)
    (next : Handler σ) (w : ResponseWriter) (r : Request) (s : σ) :
    (r.Header.Get HeaderPaymentResponse = [] →
      (paymentHandler rt config next w r s).requirements = config.Requirements)
    ∧ (∀ t e,
        json.Unmarshal Payment.fields (r.Header.Get HeaderPaymentResponse) Payment.empty
          = (t, some e) →
        (paymentHandler rt config next w r s).requirements = config.Requirements)
    ∧ (∀ p,
        json.Unmarshal Payment.fields (r.Header.Get HeaderPaymentResponse) Payment.empty
          = (p, none) →
        (paymentHandler rt config next w r s).requirements
          = (config.Verifier.Writes p config.Requirements s).2) := by
  have h0 : r.Header.Get HeaderPaymentResponse = [] →
      (paymentHandler rt config next w r s).requirements = config.Requirements := by
    intro hhdr
    simp only [paymentHandler, if_pos hhdr]
    exact sendPaymentRequired_requirements rt w config s
  refine ⟨h0, ?_, ?_⟩
  · intro t e hdec
    by_cases hhdr : r.Header.Get HeaderPaymentResponse = []
    · exact h0 hhdr
    · simp only [paymentHandler, if_neg hhdr, hdec]
  · intro p hdec
    have hhdr := header_ne_of_decodes _ _ _ _ hdec
    simp only [paymentHandler, if_neg hhdr, hdec]
    cases hver : config.Verifier.Verify p config.Requirements s with
    | mk res s1 =>
      obtain ⟨ok, err⟩ := res
      cases err with
      | some err => simp only
      | none =>
        cases ok with
        | false => simp only
        | true => simp only

set_option maxRecDepth 1000000 in
/-- C11 fails as stated: the verifier is handed the pointer
`config.Requirements`. Here the verifier sets the amount of the requirements to
`0` while a request with a payment is handled; afterwards the configured
requirements have that amount, and the 402 response to a request without
payment carries it. -/
theorem verifier_rewrites_configured_requirements :
    Ex.waivingConfig.Requirements = some Ex.reqs
    ∧ Ex.reqs.Amount = goStr "5"
    ∧ ∃ h, RequirePaymentWithConfig Ex.rt Ex.waivingConfig Ex.next = some h
      ∧ (h ResponseWriter.fresh (Ex.request Ex.goodJSON) ()).requirements
          = { Ex.reqs with Amount := goStr "0" }
      ∧ (h ResponseWriter.fresh (Ex.request Ex.goodJSON) ()).requirements ≠ Ex.reqs
      ∧ ((paymentHandler Ex.rt
            { setDefaults Ex.rt Ex.waivingConfig Ex.reqs with
              Requirements := (h ResponseWriter.fresh (Ex.request Ex.goodJSON) ()).requirements }
            Ex.next ResponseWriter.fresh (Ex.plain none) ()).w.sentHeader.map
            (fun hd => (json.Unmarshal PaymentRequirements.fields (hd.Get HeaderPayment)
              PaymentRequirements.empty).1.Amount))
          = some (goStr "0") :=
  ⟨rfl, rfl, _, RequirePaymentWithConfig_eq Ex.rt Ex.waivingConfig Ex.next Ex.reqs rfl,
    by decide, by decide, by decide⟩

/-- C11, amended: when the middleware itself answers a request without payment
(no `OnPaymentRequired` callback), the requirements in the `X-Payment` header
and in the body of the 402 response are the configured ones in every field,
but for a nonce from `NonceGenerator` only when the configured nonce is empty
and an expiry of the current time plus `ExpiryDuration` (five minutes when
unset), as Unix seconds, only when the configured expiry is zero; the
generator is called only for an empty nonce. Answering that request leaves the
configured requirements as they are, and so does any request that does not
reach the verifier or that reaches the default verifier; a request that
reaches a configured verifier leaves them as that verifier left them. -/
theorem emitted_requirements_frame {σ : Type} (rt : Runtime σ) (config : MiddlewareConfig σ)
    (next : Handler σ) (reqs : PaymentRequirements) (w : ResponseWriter) (r : Request) (s : σ)
    (hreq : config.Requirements = some reqs) (hhook : config.OnPaymentRequired = none)
    (hw : w.sent = none) (hhdr : r.Header.Get HeaderPaymentResponse = []) :
    ∃ h, RequirePaymentWithConfig rt config next = some h
      ∧ (h w r s).w.status = some 402
      ∧ (h w r s).w.sentHeader.map (fun hd => hd.Get HeaderPayment)
          = some (PaymentRequirements.ToJSON (some (expectedRequirements rt config reqs s))).1
      ∧ (h w r s).w.body = w.body ++ paymentRequiredBody (expectedRequirements rt config reqs s)
      ∧ ((expectedRequirements rt config reqs s).validUTF8 →
          json.Unmarshal PaymentRequirements.fields
              (PaymentRequirements.ToJSON (some (expectedRequirements rt config reqs s))).1
              PaymentRequirements.empty
            = (expectedRequirements rt config reqs s, none))
      ∧ (h w r s).trace = (if reqs.Nonce = [] then [Event.nonce] else [])
      ∧ (reqs.Nonce ≠ [] → (expectedRequirements rt config reqs s).Nonce = reqs.Nonce)
      ∧ (reqs.Expiry.val ≠ 0 → (expectedRequirements rt config reqs s).Expiry = reqs.Expiry)
      ∧ (∀ (t : Time) (k : Int), 0 ≤ t.nsec → t.nsec < 1000000000 →
          (t.Add (k * 1000000000)).Unix = Int64.wrap (t.sec + k))
      ∧ 5 * Minute = 300 * 1000000000
      ∧ (h w r s).requirements = reqs
      ∧ (∀ (w0 : ResponseWriter) (r0 : Request) (s0 : σ),
          (r0.Header.Get HeaderPaymentResponse = [] → (h w0 r0 s0).requirements = reqs)
          ∧ (∀ t e,
              json.Unmarshal Payment.fields (r0.Header.Get HeaderPaymentResponse) Payment.empty
                = (t, some e) →
              (h w0 r0 s0).requirements = reqs)
          ∧ (∀ p,
              json.Unmarshal Payment.fields (r0.Header.Get HeaderPaymentResponse) Payment.empty
                = (p, none) →
              (h w0 r0 s0).requirements
                = ((setDefaults rt config reqs).Verifier.Writes p reqs s0).2)
          ∧ (config.Verifier = none → (h w0 r0 s0).requirements = reqs)) := by
  refine ⟨_, RequirePaymentWithConfig_eq rt config next reqs hreq, ?_⟩
  have hrun : paymentHandler rt (setDefaults rt config reqs) next w r s
      = sendPaymentRequired rt w (setDefaults rt config reqs) s := by
    simp only [paymentHandler, if_pos hhdr]
  obtain ⟨h1, h2, h3⟩ := writer_paymentRequired w
    (PaymentRequirements.ToJSON (some (expectedRequirements rt config reqs s))).1
    (paymentRequiredBody (expectedRequirements rt config reqs s)) hw
  obtain ⟨hweq, htr⟩ := sendPaymentRequired_eq rt config reqs w s hhook
  refine ⟨?_, ?_, ?_, ?_, ?_, ?_, ?_, ?_, ?_, ?_, ?_⟩
  · rw [hrun, hweq]
    exact h1
  · rw [hrun, hweq]
    exact h2
  · rw [hrun, hweq]
    exact h3
  · intro hv
    exact Unmarshal_Marshal_requirements _ hv
  · rw [hrun]
    exact htr
  · intro hn
    simp only [expectedRequirements, if_neg hn]
  · intro hx
    simp only [expectedRequirements, if_neg hx]
  · intro t k h0 h1
    exact Time.Add_seconds t k h0 h1
  · decide
  · exact (paymentHandler_requirements rt (setDefaults rt config reqs) next w r s).1 hhdr
  · intro w0 r0 s0
    obtain ⟨g1, g2, g3⟩ := paymentHandler_requirements rt (setDefaults rt config reqs) next w0 r0 s0
    refine ⟨g1, g2, g3, fun hv => ?_⟩
    cases hdec : json.Unmarshal Payment.fields (r0.Header.Get HeaderPaymentResponse)
        Payment.empty with
    | mk p e =>
      cases e with
      | some e => exact g2 p e hdec
      | none =>
        rw [g3 p hdec]
        simp only [setDefaults, hv]
        rfl

set_option maxRecDepth 1000000 in
theorem emitted_requirements_frame_witness :
    Ex.config.Requirements = some Ex.reqs ∧ Ex.config.OnPaymentRequired = none
    ∧ ResponseWriter.fresh.sent = none
    ∧ (Ex.plain none).Header.Get HeaderPaymentResponse = []
    ∧ ∃ h, RequirePaymentWithConfig Ex.rt Ex.config Ex.next = some h
        ∧ (h ResponseWriter.fresh (Ex.plain none) ()).w.sentHeader.map
            (fun hd => hd.Get HeaderPayment)
          = some (goStr
              "\x7b\"scheme\":\"\",\"amount\":\"5\",\"token\":\"\",\"chain\":\"1\",\"recipient\":\"\",\"nonce\":\"BwcHBwcHBwcHBwcHBwcHBw==\",\"expiry\":1700000300\x7d")
        ∧ (h ResponseWriter.fresh (Ex.plain none) ()).trace = [Event.nonce]
        ∧ (h ResponseWriter.fresh (Ex.plain none) ()).requirements = Ex.reqs
        ∧ (h ResponseWriter.fresh (Ex.request Ex.goodJSON) ()).requirements = Ex.reqs
        ∧ ∃ h2, RequirePaymentWithConfig Ex.rt Ex.pinnedConfig Ex.next = some h2
          ∧ (h2 ResponseWriter.fresh (Ex.plain none) ()).w.sentHeader.map
              (fun hd => hd.Get HeaderPayment)
            = some (PaymentRequirements.ToJSON (some Ex.pinnedReqs)).1
          ∧ (h2 ResponseWriter.fresh (Ex.plain none) ()).trace = [] := by
  refine ⟨rfl, rfl, rfl, by decide, ?_⟩
  obtain ⟨h, h1, _, h3, _, _, h6, _, _, _, _, h11, h12⟩ :=
    emitted_requirements_frame Ex.rt Ex.config Ex.next Ex.reqs
      ResponseWriter.fresh (Ex.plain none) () rfl rfl rfl (by decide)
  obtain ⟨h2, k1, _, k3, _, _, k6, _⟩ :=
    emitted_requirements_frame Ex.rt Ex.pinnedConfig Ex.next Ex.pinnedReqs
      ResponseWriter.fresh (Ex.plain none) () rfl rfl rfl (by decide)
  refine ⟨h, h1, ?_, ?_, h11, (h12 _ _ _).2.2.2 rfl, h2, k1, ?_, ?_⟩
  · rw [h3]
    decide
  · rw [h6]
    decide
  · rw [k3]
    decide
  · rw [k6]
    decide

/-! ### Gate safety -/

set_option maxRecDepth 1000000 in
/-- C13 fails as stated: with an `OnPaymentRequired` callback that answers 200,
a request without payment is handed to the callback; the wrapped handler is not
called, and the status of the response is 200, neither 402 nor 400. -/
theorem gate_status_fails_with_callback :
    (Ex.plain none).Header.Get HeaderPaymentResponse = []
    ∧ ∃ h, RequirePaymentWithConfig Ex.rt Ex.freeConfig Ex.next = some h
      ∧ nextCalls (h ResponseWriter.fresh (Ex.plain none) ()).trace = []
      ∧ (h ResponseWriter.fresh (Ex.plain none) ()).w.status = some 200 :=
  ⟨by decide, _, RequirePaymentWithConfig_eq Ex.rt Ex.freeConfig Ex.next Ex.reqs rfl,
    by decide, by decide⟩

/-- C13, amended: the wrapped handler is called only if the payment header is
not empty, decodes as a payment, and the configured verifier returned
`(true, nil)` for that payment against the configured requirements; in every
other case the handler is not called, and the status of the response is 402 or
400 unless the header is empty and an `OnPaymentRequired` callback is
configured. -/
theorem gate_safety {σ : Type} (rt : Runtime σ) (config : MiddlewareConfig σ)
    (next : Handler σ) (reqs : PaymentRequirements) (w : ResponseWriter) (r : Request) (s : σ)
    (hreq : config.Requirements = some reqs) (hw : w.sent = none) :
    ∃ h, RequirePaymentWithConfig rt config next = some h
      ∧ (nextCalls (h w r s).trace ≠ [] →
          r.Header.Get HeaderPaymentResponse ≠ []
          ∧ ∃ p s1,
              json.Unmarshal Payment.fields (r.Header.Get HeaderPaymentResponse) Payment.empty
                = (p, none)
              ∧ (setDefaults rt config reqs).Verifier.Verify p reqs s = ((true, none), s1))
      ∧ (¬ (r.Header.Get HeaderPaymentResponse ≠ []
          ∧ ∃ p s1,
              json.Unmarshal Payment.fields (r.Header.Get HeaderPaymentResponse) Payment.empty
                = (p, none)
              ∧ (setDefaults rt config reqs).Verifier.Verify p reqs s = ((true, none), s1)) →
          nextCalls (h w r s).trace = []
          ∧ ((r.Header.Get HeaderPaymentResponse ≠ [] ∨ config.OnPaymentRequired = none) →
              (h w r s).w.status = some 402 ∨ (h w r s).w.status = some 400)) := by
  refine ⟨_, RequirePaymentWithConfig_eq rt config next reqs hreq, ?_⟩
  have hr : (setDefaults rt config reqs).Requirements = reqs := rfl
  have hk : (setDefaults rt config reqs).OnPaymentRequired = config.OnPaymentRequired := rfl
  by_cases hhdr : r.Header.Get HeaderPaymentResponse = []
  · -- no payment: `sendPaymentRequired`
    have hrun : paymentHandler rt (setDefaults rt config reqs) next w r s
        = sendPaymentRequired rt w (setDefaults rt config reqs) s := by
      simp only [paymentHandler, if_pos hhdr]
    rw [hrun]
    cases hhook : config.OnPaymentRequired with
    | some hook =>
      have hnx : nextCalls (sendPaymentRequired rt w (setDefaults rt config reqs) s).trace = [] := by
        simp only [sendPaymentRequired, hk, hhook]
        rfl
      refine ⟨fun hne => absurd hnx hne, fun _ => ⟨hnx, ?_⟩⟩
      intro hor
      rcases hor with hor | hor
      · exact absurd hhdr hor
      · cases hor
    | none =>
      obtain ⟨hweq, htr⟩ := sendPaymentRequired_eq rt config reqs w s hhook
      have hnx : nextCalls (sendPaymentRequired rt w (setDefaults rt config reqs) s).trace = [] := by
        rw [htr]
        split_ifs <;> rfl
      refine ⟨fun hne => absurd hnx hne, fun _ => ⟨hnx, fun _ => Or.inl ?_⟩⟩
      rw [hweq]
      exact (writer_paymentRequired w _ _ hw).1
  · -- a payment header
    cases hdec : json.Unmarshal Payment.fields (r.Header.Get HeaderPaymentResponse) Payment.empty with
    | mk p e =>
      cases e with
      | some e =>
        have hrun : paymentHandler rt (setDefaults rt config reqs) next w r s
            = { w := http.Error w (goStr "Invalid payment format") http.StatusBadRequest,
                world := s, trace := [], requirements := reqs } := by
          simp only [paymentHandler, if_neg hhdr, hdec, hr]
        rw [hrun]
        refine ⟨fun hne => absurd rfl hne, fun _ => ⟨rfl, fun _ => Or.inr ?_⟩⟩
        exact status_Error w _ _ hw
      | none =>
        cases hver : (setDefaults rt config reqs).Verifier.Verify p reqs s with
        | mk res s1 =>
          obtain ⟨ok, err⟩ := res
          cases err with
          | some err =>
            have hrun : paymentHandler rt (setDefaults rt config reqs) next w r s
                = { w := http.Error w (goStr "Payment verification failed: " ++ err.Error rt.jsonText)
                      http.StatusBadRequest,
                    world := s1, trace := [Event.verify p reqs],
                    requirements := ((setDefaults rt config reqs).Verifier.Writes p reqs s).2 } := by
              simp only [paymentHandler, if_neg hhdr, hdec, hr, hver]
            rw [hrun]
            refine ⟨fun hne => absurd rfl hne, fun _ => ⟨rfl, fun _ => Or.inr ?_⟩⟩
            exact status_Error w _ _ hw
          | none =>
            cases ok with
            | false =>
              have hrun : paymentHandler rt (setDefaults rt config reqs) next w r s
                  = { w := http.Error w (goStr "Payment verification failed")
                        http.StatusPaymentRequired,
                      world := s1, trace := [Event.verify p reqs],
                      requirements := ((setDefaults rt config reqs).Verifier.Writes p reqs s).2 } := by
                simp only [paymentHandler, if_neg hhdr, hdec, hr, hver]
              rw [hrun]
              refine ⟨fun hne => absurd rfl hne, fun _ => ⟨rfl, fun _ => Or.inl ?_⟩⟩
              exact status_Error w _ _ hw
            | true =>
              have hg : r.Header.Get HeaderPaymentResponse ≠ []
                  ∧ ∃ p0 s0, (p, (none : Option json.JsonError)) = (p0, none)
                    ∧ (setDefaults rt config reqs).Verifier.Verify p0 reqs s = ((true, none), s0) :=
                ⟨hhdr, p, s1, rfl, hver⟩
              exact ⟨fun _ => hg, fun hng => absurd hg hng⟩

set_option maxRecDepth 1000000 in
theorem gate_safety_witness :
    Ex.config.Requirements = some Ex.reqs ∧ ResponseWriter.fresh.sent = none
    ∧ ∃ h, RequirePaymentWithConfig Ex.rt Ex.config Ex.next = some h
        ∧ nextCalls (h ResponseWriter.fresh (Ex.plain none) ()).trace = []
        ∧ ((h ResponseWriter.fresh (Ex.plain none) ()).w.status = some 402
            ∨ (h ResponseWriter.fresh (Ex.plain none) ()).w.status = some 400) := by
  refine ⟨rfl, rfl, ?_⟩
  obtain ⟨h, h1, _, h3⟩ :=
    gate_safety Ex.rt Ex.config Ex.next Ex.reqs ResponseWriter.fresh (Ex.plain none) () rfl rfl
  have hno : (Ex.plain none).Header.Get HeaderPaymentResponse = [] := by decide
  exact ⟨h, h1, (h3 (fun hg => hg.1 hno)).1, (h3 (fun hg => hg.1 hno)).2 (Or.inr rfl)⟩

/-! ### The facilitator server -/

theorem writer_Encode (w : ResponseWriter) (v data : List Byte) (hw : w.sent = none) :
    (json.Encode (w.SetHeader (goStr "Content-Type") v) data).status = some 200
    ∧ (json.Encode (w.SetHeader (goStr "Content-Type") v) data).sentHeader.map
        (fun hd => hd.Get (goStr "Content-Type")) = some v
    ∧ (json.Encode (w.SetHeader (goStr "Content-Type") v) data).body
        = w.body ++ data ++ [Byte.ofNat 0x0A] := by
  simp only [json.Encode, ResponseWriter.Write, ResponseWriter.WriteHeader,
    ResponseWriter.SetHeader, ResponseWriter.status, ResponseWriter.sentHeader, hw,
    Option.map_some', List.append_assoc, Get_Set_self]
  exact ⟨trivial, trivial, trivial⟩

theorem writer_Encode_status (w : ResponseWriter) (v data : List Byte) (code : Nat)
    (hw : w.sent = none) :
    (json.Encode ((w.SetHeader (goStr "Content-Type") v).WriteHeader code) data).status = some code
    ∧ (json.Encode ((w.SetHeader (goStr "Content-Type") v).WriteHeader code) data).sentHeader.map
        (fun hd => hd.Get (goStr "Content-Type")) = some v
    ∧ (json.Encode ((w.SetHeader (goStr "Content-Type") v).WriteHeader code) data).body
        = w.body ++ data ++ [Byte.ofNat 0x0A] := by
  simp only [json.Encode, ResponseWriter.Write, ResponseWriter.WriteHeader,
    ResponseWriter.SetHeader, ResponseWriter.status, ResponseWriter.sentHeader, hw,
    Option.map_some', List.append_assoc, Get_Set_self]
  exact ⟨trivial, trivial, trivial⟩

theorem encodeMap1_error (msg : GoString) :
    json.encodeMap1 (goStr "error") msg
      = goStr "\x7b\"error\":" ++ json.appendString msg ++ goStr "\x7d" := by
  have h : json.appendString (goStr "error") = goStr "\"error\"" := by decide
  simp only [json.encodeMap1, h]
  rfl

/-- A field value the struct encoder writes, followed by a separator, is read
back. -/
theorem parseValue_encoded (fuel depth : Nat) (v : json.Encoded) (t : Byte) (rest : List Byte)
    (ht : isSep t) (hv : validEncoded v) :
    json.parseValue (fuel + 1) depth (v.encode ++ t :: rest)
      = some (encodedValue v, t :: rest) := by
  cases v with
  | str s => exact parseValue_encodeValue fuel depth (json.FieldVal.str s) t rest ht hv
  | int i => exact parseValue_encodeValue fuel depth (json.FieldVal.int i) t rest ht hv
  | bool b =>
    cases b with
    | true =>
      have hk : json.stripKeyword (goStr "rue") (goStr "rue" ++ t :: rest) = some (t :: rest) := by
        simp [json.stripKeyword, goStr]
      have he : (json.Encoded.bool true).encode ++ t :: rest
          = Byte.ofNat 0x74 :: (goStr "rue" ++ t :: rest) := rfl
      rw [he, json.parseValue, skipSpace_cons _ _ (by decide)]
      simp only [Byte.val_ofNat 0x74 (by decide)]
      rw [if_neg (by decide), if_neg (by decide), if_neg (by decide), if_pos trivial, hk]
      rfl
    | false =>
      have hk : json.stripKeyword (goStr "alse") (goStr "alse" ++ t :: rest)
          = some (t :: rest) := by
        simp [json.stripKeyword, goStr]
      have he : (json.Encoded.bool false).encode ++ t :: rest
          = Byte.ofNat 0x66 :: (goStr "alse" ++ t :: rest) := rfl
      rw [he, json.parseValue, skipSpace_cons _ _ (by decide)]
      simp only [Byte.val_ofNat 0x66 (by decide)]
      rw [if_neg (by decide), if_neg (by decide), if_neg (by decide), if_neg (by decide),
        if_pos trivial, hk]
      rfl

theorem writtenOf_cons_omit (f : GoString × Bool × json.Encoded)
    (fs : List (GoString × Bool × json.Encoded)) (h : (f.2.1 && f.2.2.isEmpty) = true) :
    writtenOf (f :: fs) = writtenOf fs := by
  simp only [writtenOf, List.filter_cons, h, Bool.not_true, Bool.false_eq_true, if_false]

theorem writtenOf_cons_keep (f : GoString × Bool × json.Encoded)
    (fs : List (GoString × Bool × json.Encoded)) (h : ¬ (f.2.1 && f.2.2.isEmpty) = true) :
    writtenOf (f :: fs) = f :: writtenOf fs := by
  have h' : (f.2.1 && f.2.2.isEmpty) = false := by simpa using h
  simp only [writtenOf, List.filter_cons, h', Bool.not_false, if_true]

theorem encodeStruct_cons (f : GoString × Bool × json.Encoded)
    (fs : List (GoString × Bool × json.Encoded)) (next : Byte) :
    json.encodeStruct (f :: fs) next
      = if f.2.1 && f.2.2.isEmpty then json.encodeStruct fs next
        else next :: (json.appendString f.1 ++ Byte.ofNat 0x3A ::
          (f.2.2.encode ++ json.encodeStruct fs (Byte.ofNat 0x2C))) := by
  obtain ⟨name, omitEmpty, v⟩ := f
  rw [json.encodeStruct]

theorem encodeStruct_comma_head : ∀ fs : List (GoString × Bool × json.Encoded),
    ∃ t tl, json.encodeStruct fs (Byte.ofNat 0x2C) = t :: tl ∧ isSep t := by
  intro fs
  induction fs with
  | nil => exact ⟨Byte.ofNat 0x7D, [], by rfl, Or.inr rfl⟩
  | cons f fs ih =>
    rw [encodeStruct_cons]
    by_cases h : (f.2.1 && f.2.2.isEmpty) = true
    · rw [if_pos h]
      exact ih
    · rw [if_neg h]
      exact ⟨_, _, rfl, Or.inl rfl⟩

/-- One member of a response: a quoted key, a colon and a value, then what
follows. -/
theorem parseMembers_encoded (fuel depth : Nat) (name : GoString) (v : json.Encoded)
    (tail : List Byte) (t : Byte) (tl : List Byte) (htail : tail = t :: tl) (ht : isSep t)
    (hname : utf8.ValidString name = true) (hv : validEncoded v) :
    json.parseMembers (fuel + 2) depth
        (json.appendString name ++ Byte.ofNat 0x3A :: (v.encode ++ tail))
      = afterValue (fuel + 1) depth (name, encodedValue v) tail := by
  subst htail
  have hk := parse_appendString name (Byte.ofNat 0x3A :: (v.encode ++ t :: tl)) hname
  have hval := parseValue_encoded fuel depth v t tl ht hv
  simp only [json.appendString, List.cons_append, List.append_assoc, List.nil_append]
  rw [json.parseMembers]
  simp only [Byte.val_ofNat 0x22 (by decide)]
  rw [if_neg (by decide), hk]
  simp only
  rw [skipSpace_cons _ _ (by decide)]
  simp only [Byte.val_ofNat 0x3A (by decide)]
  rw [if_neg (by decide), hval]
  rfl

/-- The members the struct encoder writes after a member are read back. -/
theorem afterValue_encodeStruct : ∀ (fs : List (GoString × Bool × json.Encoded)),
    (∀ f ∈ fs, utf8.ValidString f.1 = true) → (∀ f ∈ fs, validEncoded f.2.2) →
    ∀ (fuel depth : Nat) (kv : GoString × json.JValue) (rest : List Byte),
    (writtenOf fs).length < fuel →
    afterValue fuel depth kv (json.encodeStruct fs (Byte.ofNat 0x2C) ++ rest)
      = some (kv :: membersOfStruct fs, rest) := by
  intro fs
  induction fs with
  | nil =>
    intro _ _ fuel depth kv rest _
    rfl
  | cons f fs ih =>
    intro hnames hvals fuel depth kv rest hfuel
    have hnames' : ∀ g ∈ fs, utf8.ValidString g.1 = true :=
      fun g hg => hnames g (List.mem_cons_of_mem _ hg)
    have hvals' : ∀ g ∈ fs, validEncoded g.2.2 :=
      fun g hg => hvals g (List.mem_cons_of_mem _ hg)
    rw [encodeStruct_cons]
    by_cases h : (f.2.1 && f.2.2.isEmpty) = true
    · have hw := writtenOf_cons_omit f fs h
      have hm : membersOfStruct (f :: fs) = membersOfStruct fs := by
        simp [membersOfStruct, hw]
      rw [if_pos h, hm]
      rw [hw] at hfuel
      exact ih hnames' hvals' fuel depth kv rest hfuel
    · have hw := writtenOf_cons_keep f fs h
      have hm : membersOfStruct (f :: fs) = (f.1, encodedValue f.2.2) :: membersOfStruct fs := by
        simp [membersOfStruct, hw]
      rw [if_neg h, hm]
      rw [hw] at hfuel
      simp only [List.length_cons] at hfuel
      obtain ⟨k, rfl⟩ : ∃ k, fuel = k + 2 := ⟨fuel - 2, by omega⟩
      obtain ⟨t, tl, htl, ht⟩ := encodeStruct_comma_head fs
      have hmem := parseMembers_encoded k depth f.1 f.2.2
        (json.encodeStruct fs (Byte.ofNat 0x2C) ++ rest) t (tl ++ rest) (by rw [htl]; rfl) ht
        (hnames f (List.mem_cons_self _ _)) (hvals f (List.mem_cons_self _ _))
      have hih := ih hnames' hvals' (k + 1) depth (f.1, encodedValue f.2.2) rest (by omega)
      simp only [List.cons_append, List.append_assoc] at hmem ⊢
      rw [afterValue, skipSpace_cons _ _ (by decide)]
      simp only [Byte.val_ofNat 0x2C (by decide)]
      rw [if_neg (by decide), if_pos trivial]
      have hq : json.skipSpace (json.appendString f.1 ++ Byte.ofNat 0x3A ::
          (f.2.2.encode ++ (json.encodeStruct fs (Byte.ofNat 0x2C) ++ rest)))
          = json.appendString f.1 ++ Byte.ofNat 0x3A ::
          (f.2.2.encode ++ (json.encodeStruct fs (Byte.ofNat 0x2C) ++ rest)) := by
        simp only [json.appendString, List.cons_append]
        exact skipSpace_cons _ _ (by decide)
      rw [hq, hmem, hih]

theorem encodeStruct_length : ∀ (fs : List (GoString × Bool × json.Encoded)) (next : Byte),
    (writtenOf fs).length < (json.encodeStruct fs next).length := by
  intro fs
  induction fs with
  | nil =>
    intro next
    rw [json.encodeStruct]
    split_ifs <;> simp [writtenOf]
  | cons f fs ih =>
    intro next
    rw [encodeStruct_cons]
    by_cases h : (f.2.1 && f.2.2.isEmpty) = true
    · have hw := writtenOf_cons_omit f fs h
      rw [if_pos h, hw]
      exact ih next
    · have hw := writtenOf_cons_keep f fs h
      rw [if_neg h, hw]
      have := ih (Byte.ofNat 0x2C)
      simp only [List.length_cons, List.length_append]
      omega

/-- The object the struct encoder writes for a response whose first field is
always written is read back as the members written. -/
theorem parseJSON_encodeStruct (f : GoString × Bool × json.Encoded)
    (fs : List (GoString × Bool × json.Encoded)) (hf : f.2.1 = false)
    (hnames : ∀ g ∈ f :: fs, utf8.ValidString g.1 = true)
    (hvals : ∀ g ∈ f :: fs, validEncoded g.2.2) :
    json.parseJSON (json.encodeStruct (f :: fs) (Byte.ofNat 0x7B))
      = some (json.JValue.object ((f.1, encodedValue f.2.2) :: membersOfStruct fs)) := by
  have hnames' : ∀ g ∈ fs, utf8.ValidString g.1 = true :=
    fun g hg => hnames g (List.mem_cons_of_mem _ hg)
  have hvals' : ∀ g ∈ fs, validEncoded g.2.2 :=
    fun g hg => hvals g (List.mem_cons_of_mem _ hg)
  have hlen := encodeStruct_length fs (Byte.ofNat 0x2C)
  obtain ⟨t, tl, htl, ht⟩ := encodeStruct_comma_head fs
  rw [encodeStruct_cons]
  simp only [hf, Bool.false_and, Bool.false_eq_true, if_false]
  unfold json.parseJSON
  simp only [List.length_cons, List.length_append]
  generalize hN : (json.appendString f.1).length
    + ((f.2.2.encode).length
      + (json.encodeStruct fs (Byte.ofNat 0x2C)).length + 1) = N
  obtain ⟨k, rfl⟩ : ∃ k, N = k + 2 := ⟨N - 2, by omega⟩
  have hmem := parseMembers_encoded (k + 1) 1 f.1 f.2.2
    (json.encodeStruct fs (Byte.ofNat 0x2C) ++ []) t (tl ++ []) (by rw [htl]; rfl) ht
    (hnames f (List.mem_cons_self _ _)) (hvals f (List.mem_cons_self _ _))
  have hafter := afterValue_encodeStruct fs hnames' hvals' (k + 2) 1
    (f.1, encodedValue f.2.2) [] (by omega)
  simp only [List.append_nil] at hmem hafter
  rw [json.parseValue, skipSpace_cons _ _ (by decide)]
  simp only [Byte.val_ofNat 0x7B (by decide)]
  rw [if_pos trivial, if_neg (by decide)]
  have hq : json.skipSpace (json.appendString f.1 ++ Byte.ofNat 0x3A ::
      (f.2.2.encode ++ json.encodeStruct fs (Byte.ofNat 0x2C)))
      = Byte.ofNat 0x22 :: (json.appendStringLoop f.1.length f.1 ++ [Byte.ofNat 0x22]
        ++ Byte.ofNat 0x3A :: (f.2.2.encode
          ++ json.encodeStruct fs (Byte.ofNat 0x2C))) := by
    simp only [json.appendString, List.cons_append]
    exact skipSpace_cons _ _ (by decide)
  rw [hq]
  simp only [Byte.val_ofNat 0x22 (by decide)]
  rw [if_neg (by decide)]
  have hmem' : json.parseMembers (k + 3) (0 + 1)
      (Byte.ofNat 0x22 :: (json.appendStringLoop f.1.length f.1 ++ [Byte.ofNat 0x22]
        ++ Byte.ofNat 0x3A :: (f.2.2.encode
          ++ json.encodeStruct fs (Byte.ofNat 0x2C))))
      = some ((f.1, encodedValue f.2.2) :: membersOfStruct fs, []) := by
    rw [← hafter, ← hmem]
    simp only [json.appendString, List.cons_append]
  rw [hmem']
  rfl

theorem VerifyResponse_marshal_text (v : VerifyResponse) :
    VerifyResponse.marshal (some v)
      = goStr "\x7b\"valid\":" ++ (if v.Valid then goStr "true" else goStr "false")
        ++ goStr ",\"txHash\":" ++ json.appendString v.TxHash
        ++ goStr ",\"chain\":" ++ json.appendString v.Chain
        ++ goStr ",\"token\":" ++ json.appendString v.Token
        ++ goStr ",\"amount\":" ++ json.appendString v.Amount
        ++ goStr ",\"sender\":" ++ json.appendString v.Sender
        ++ goStr ",\"recipient\":" ++ json.appendString v.Recipient
        ++ (if v.Error = [] then [] else goStr ",\"error\":" ++ json.appendString v.Error)
        ++ goStr "\x7d" := by
  have k1 : json.appendString (goStr "valid") = goStr "\"valid\"" := by decide
  have k2 : json.appendString (goStr "txHash") = goStr "\"txHash\"" := by decide
  have k3 : json.appendString (goStr "chain") = goStr "\"chain\"" := by decide
  have k4 : json.appendString (goStr "token") = goStr "\"token\"" := by decide
  have k5 : json.appendString (goStr "amount") = goStr "\"amount\"" := by decide
  have k6 : json.appendString (goStr "sender") = goStr "\"sender\"" := by decide
  have k7 : json.appendString (goStr "recipient") = goStr "\"recipient\"" := by decide
  have k8 : json.appendString (goStr "error") = goStr "\"error\"" := by decide
  have hb : (json.Encoded.bool v.Valid).encode
      = if v.Valid then goStr "true" else goStr "false" := by
    cases v.Valid <;> rfl
  simp only [VerifyResponse.marshal, json.encodeStruct, Bool.false_and, Bool.false_eq_true,
    if_false, Bool.true_and, k1, k2, k3, k4, k5, k6, k7, k8, hb]
  by_cases he : v.Error = []
  · simp only [he, json.Encoded.isEmpty, List.isEmpty_nil, if_true, List.append_nil]
    simp only [json.Encoded.encode, List.append_assoc, List.cons_append, List.nil_append, goStr]
    rfl
  · have hne : (json.Encoded.str v.Error).isEmpty = false := by
      cases hv : v.Error with
      | nil => exact absurd hv he
      | cons a b => rfl
    simp only [hne, if_neg he, Bool.false_eq_true, if_false]
    simp only [json.Encoded.encode, List.append_assoc, List.cons_append, List.nil_append, goStr]
    rfl

theorem SettleResponse_marshal_text (v : SettleResponse) :
    SettleResponse.marshal (some v)
      = goStr "\x7b\"settled\":" ++ (if v.Settled then goStr "true" else goStr "false")
        ++ (if v.TxHash = [] then [] else goStr ",\"txHash\":" ++ json.appendString v.TxHash)
        ++ (if v.Error = [] then [] else goStr ",\"error\":" ++ json.appendString v.Error)
        ++ (if v.Timestamp.val = 0 then []
            else goStr ",\"timestamp\":" ++ strconv.formatInt v.Timestamp.val)
        ++ goStr "\x7d" := by
  have k1 : json.appendString (goStr "settled") = goStr "\"settled\"" := by decide
  have k2 : json.appendString (goStr "txHash") = goStr "\"txHash\"" := by decide
  have k3 : json.appendString (goStr "error") = goStr "\"error\"" := by decide
  have k4 : json.appendString (goStr "timestamp") = goStr "\"timestamp\"" := by decide
  have hb : (json.Encoded.bool v.Settled).encode
      = if v.Settled then goStr "true" else goStr "false" := by
    cases v.Settled <;> rfl
  have hs : ∀ x : GoString, (json.Encoded.str x).isEmpty = decide (x = []) := by
    intro x
    cases x <;> rfl
  have hi : (json.Encoded.int v.Timestamp).isEmpty = decide (v.Timestamp.val = 0) := rfl
  simp only [SettleResponse.marshal, json.encodeStruct, Bool.false_and, Bool.false_eq_true,
    if_false, Bool.true_and, k1, k2, k3, k4, hb, hs, hi]
  by_cases h1 : v.TxHash = [] <;> by_cases h2 : v.Error = [] <;>
    by_cases h3 : v.Timestamp.val = 0 <;>
    simp only [h1, h2, h3, decide_True, decide_False, if_true, if_false, Bool.false_eq_true,
      List.append_nil, json.Encoded.encode, List.append_assoc, List.cons_append,
      List.nil_append, goStr] <;> rfl

theorem VerifyResponse_marshal_parses (v : VerifyResponse)
    (hv : utf8.ValidString v.TxHash = true ∧ utf8.ValidString v.Chain = true
      ∧ utf8.ValidString v.Token = true ∧ utf8.ValidString v.Amount = true
      ∧ utf8.ValidString v.Sender = true ∧ utf8.ValidString v.Recipient = true
      ∧ utf8.ValidString v.Error = true) :
    json.parseJSON (VerifyResponse.marshal (some v))
      = some (json.JValue.object
          ([ (goStr "valid", json.JValue.bool v.Valid),
             (goStr "txHash", json.JValue.string v.TxHash),
             (goStr "chain", json.JValue.string v.Chain),
             (goStr "token", json.JValue.string v.Token),
             (goStr "amount", json.JValue.string v.Amount),
             (goStr "sender", json.JValue.string v.Sender),
             (goStr "recipient", json.JValue.string v.Recipient) ]
            ++ (if v.Error = [] then [] else [(goStr "error", json.JValue.string v.Error)]))) := by
  obtain ⟨h1, h2, h3, h4, h5, h6, h7⟩ := hv
  have hs : ∀ x : GoString, (json.Encoded.str x).isEmpty = decide (x = []) := by
    intro x
    cases x <;> rfl
  unfold VerifyResponse.marshal
  simp only
  rw [parseJSON_encodeStruct _ _ rfl]
  · by_cases he : v.Error = [] <;>
      simp [membersOfStruct, writtenOf, encodedValue, hs, he]
  · intro g hg
    simp only [List.mem_cons, List.mem_singleton, List.not_mem_nil, or_false] at hg
    rcases hg with rfl | rfl | rfl | rfl | rfl | rfl | rfl | rfl <;> (dsimp only; decide)
  · intro g hg
    simp only [List.mem_cons, List.mem_singleton, List.not_mem_nil, or_false] at hg
    rcases hg with rfl | rfl | rfl | rfl | rfl | rfl | rfl | rfl <;>
      simp only [validEncoded] <;> assumption

theorem SettleResponse_marshal_parses (v : SettleResponse)
    (hv : utf8.ValidString v.TxHash = true ∧ utf8.ValidString v.Error = true) :
    json.parseJSON (SettleResponse.marshal (some v))
      = some (json.JValue.object
          ([(goStr "settled", json.JValue.bool v.Settled)]
            ++ (if v.TxHash = [] then [] else [(goStr "txHash", json.JValue.string v.TxHash)])
            ++ (if v.Error = [] then [] else [(goStr "error", json.JValue.string v.Error)])
            ++ (if v.Timestamp.val = 0 then []
                else [(goStr "timestamp",
                  json.JValue.number (strconv.formatInt v.Timestamp.val))]))) := by
  obtain ⟨h1, h2⟩ := hv
  have hs : ∀ x : GoString, (json.Encoded.str x).isEmpty = decide (x = []) := by
    intro x
    cases x <;> rfl
  have hi : (json.Encoded.int v.Timestamp).isEmpty = decide (v.Timestamp.val = 0) := rfl
  unfold SettleResponse.marshal
  simp only
  rw [parseJSON_encodeStruct _ _ rfl]
  · by_cases k1 : v.TxHash = [] <;> by_cases k2 : v.Error = [] <;>
      by_cases k3 : v.Timestamp.val = 0 <;>
      simp [membersOfStruct, writtenOf, encodedValue, hs, hi, k1, k2, k3]
  · intro g hg
    simp only [List.mem_cons, List.mem_singleton, List.not_mem_nil, or_false] at hg
    rcases hg with rfl | rfl | rfl | rfl <;> (dsimp only; decide)
  · intro g hg
    simp only [List.mem_cons, List.mem_singleton, List.not_mem_nil, or_false] at hg
    rcases hg with rfl | rfl | rfl | rfl <;> simp only [validEncoded] <;> assumption

/-- C12: on `/verify` and `/settle`, for a POST request whose body decodes:
when the facilitator returns an error, the response has status 500, content
type `application/json` and the body `{"error":` the quoted text of the error
`}` with a newline; otherwise it has status 200 and the body is the JSON
encoding of the value the facilitator returned, with a newline: `null` for a
nil pointer, and else the object written out here, which is read back as the
members of the value under their tags when its strings are valid UTF-8.
Either way the facilitator is called once, with the decoded request. -/
theorem facilitator_relays_result {σ : Type} (fs : FacilitatorServer σ) (rt : Runtime σ)
    (w : ResponseWriter) (r : Request) (s : σ)
    (hw : w.sent = none) (hpost : r.Method = http.MethodPost) :
    (r.URL = goStr "/verify" →
      ∀ req, json.Decode (json.storeStruct VerifyRequest.fields) r.serverBody VerifyRequest.empty
          = (req, none) →
        (∀ resp err s1, fs.facilitator.Verify req s = ((resp, some err), s1) →
          (fs.ServeHTTP rt w r s).w.status = some 500
          ∧ (fs.ServeHTTP rt w r s).w.sentHeader.map (fun hd => hd.Get (goStr "Content-Type"))
              = some (goStr "application/json")
          ∧ (fs.ServeHTTP rt w r s).w.body
              = w.body ++ (goStr "\x7b\"error\":" ++ json.appendString (err.Error rt.jsonText)
                  ++ goStr "\x7d") ++ [Byte.ofNat 0x0A]
          ∧ (fs.ServeHTTP rt w r s).trace = [FacilitatorEvent.verify req]
          ∧ (fs.ServeHTTP rt w r s).world = s1)
        ∧ (∀ resp s1, fs.facilitator.Verify req s = ((resp, none), s1) →
          (fs.ServeHTTP rt w r s).w.status = some 200
          ∧ (fs.ServeHTTP rt w r s).w.sentHeader.map (fun hd => hd.Get (goStr "Content-Type"))
              = some (goStr "application/json")
          ∧ (fs.ServeHTTP rt w r s).w.body
              = w.body ++ VerifyResponse.marshal resp ++ [Byte.ofNat 0x0A]
          ∧ (fs.ServeHTTP rt w r s).trace = [FacilitatorEvent.verify req]
          ∧ (fs.ServeHTTP rt w r s).world = s1))
    ∧ (r.URL = goStr "/settle" →
      ∀ req, json.Decode SettleRequest.store r.serverBody SettleRequest.empty = (req, none) →
        (∀ resp err s1, fs.facilitator.Settle req s = ((resp, some err), s1) →
          (fs.ServeHTTP rt w r s).w.status = some 500
          ∧ (fs.ServeHTTP rt w r s).w.sentHeader.map (fun hd => hd.Get (goStr "Content-Type"))
              = some (goStr "application/json")
          ∧ (fs.ServeHTTP rt w r s).w.body
              = w.body ++ (goStr "\x7b\"error\":" ++ json.appendString (err.Error rt.jsonText)
                  ++ goStr "\x7d") ++ [Byte.ofNat 0x0A]
          ∧ (fs.ServeHTTP rt w r s).trace = [FacilitatorEvent.settle req]
          ∧ (fs.ServeHTTP rt w r s).world = s1)
        ∧ (∀ resp s1, fs.facilitator.Settle req s = ((resp, none), s1) →
          (fs.ServeHTTP rt w r s).w.status = some 200
          ∧ (fs.ServeHTTP rt w r s).w.sentHeader.map (fun hd => hd.Get (goStr "Content-Type"))
              = some (goStr "application/json")
          ∧ (fs.ServeHTTP rt w r s).w.body
              = w.body ++ SettleResponse.marshal resp ++ [Byte.ofNat 0x0A]
          ∧ (fs.ServeHTTP rt w r s).trace = [FacilitatorEvent.settle req]
          ∧ (fs.ServeHTTP rt w r s).world = s1))
    ∧ (VerifyResponse.marshal none = goStr "null" ∧ SettleResponse.marshal none = goStr "null")
    ∧ (∀ v : VerifyResponse,
        VerifyResponse.marshal (some v)
          = goStr "\x7b\"valid\":" ++ (if v.Valid then goStr "true" else goStr "false")
            ++ goStr ",\"txHash\":" ++ json.appendString v.TxHash
            ++ goStr ",\"chain\":" ++ json.appendString v.Chain
            ++ goStr ",\"token\":" ++ json.appendString v.Token
            ++ goStr ",\"amount\":" ++ json.appendString v.Amount
            ++ goStr ",\"sender\":" ++ json.appendString v.Sender
            ++ goStr ",\"recipient\":" ++ json.appendString v.Recipient
            ++ (if v.Error = [] then [] else goStr ",\"error\":" ++ json.appendString v.Error)
            ++ goStr "\x7d"
        ∧ (utf8.ValidString v.TxHash = true ∧ utf8.ValidString v.Chain = true
            ∧ utf8.ValidString v.Token = true ∧ utf8.ValidString v.Amount = true
            ∧ utf8.ValidString v.Sender = true ∧ utf8.ValidString v.Recipient = true
            ∧ utf8.ValidString v.Error = true →
          json.parseJSON (VerifyResponse.marshal (some v))
            = some (json.JValue.object
                ([ (goStr "valid", json.JValue.bool v.Valid),
                   (goStr "txHash", json.JValue.string v.TxHash),
                   (goStr "chain", json.JValue.string v.Chain),
                   (goStr "token", json.JValue.string v.Token),
                   (goStr "amount", json.JValue.string v.Amount),
                   (goStr "sender", json.JValue.string v.Sender),
                   (goStr "recipient", json.JValue.string v.Recipient) ]
                  ++ (if v.Error = [] then []
                      else [(goStr "error", json.JValue.string v.Error)])))))
    ∧ (∀ v : SettleResponse,
        SettleResponse.marshal (some v)
          = goStr "\x7b\"settled\":" ++ (if v.Settled then goStr "true" else goStr "false")
            ++ (if v.TxHash = [] then [] else goStr ",\"txHash\":" ++ json.appendString v.TxHash)
            ++ (if v.Error = [] then [] else goStr ",\"error\":" ++ json.appendString v.Error)
            ++ (if v.Timestamp.val = 0 then []
                else goStr ",\"timestamp\":" ++ strconv.formatInt v.Timestamp.val)
            ++ goStr "\x7d"
        ∧ (utf8.ValidString v.TxHash = true ∧ utf8.ValidString v.Error = true →
          json.parseJSON (SettleResponse.marshal (some v))
            = some (json.JValue.object
                ([(goStr "settled", json.JValue.bool v.Settled)]
                  ++ (if v.TxHash = [] then []
                      else [(goStr "txHash", json.JValue.string v.TxHash)])
                  ++ (if v.Error = [] then [] else [(goStr "error", json.JValue.string v.Error)])
                  ++ (if v.Timestamp.val = 0 then []
                      else [(goStr "timestamp",
                        json.JValue.number (strconv.formatInt v.Timestamp.val))]))))) := by
  have hm : ¬ (r.Method ≠ http.MethodPost) := fun h => h hpost
  refine ⟨?_, ?_, ⟨rfl, rfl⟩,
    fun v => ⟨VerifyResponse_marshal_text v, VerifyResponse_marshal_parses v⟩,
    fun v => ⟨SettleResponse_marshal_text v, SettleResponse_marshal_parses v⟩⟩
  · intro hurl req hdec
    have hrun : fs.ServeHTTP rt w r s = fs.handleVerify rt w r s := by
      simp only [FacilitatorServer.ServeHTTP, if_pos hurl]
    rw [hrun]
    constructor
    · intro resp err s1 hver
      have hout : fs.handleVerify rt w r s
          = { w := json.Encode ((w.SetHeader (goStr "Content-Type")
                    (goStr "application/json")).WriteHeader http.StatusInternalServerError)
                  (json.encodeMap1 (goStr "error") (err.Error rt.jsonText)),
              world := s1, trace := [FacilitatorEvent.verify req] } := by
        simp only [FacilitatorServer.handleVerify, if_neg hm, hdec, hver]
      rw [hout, ← encodeMap1_error]
      obtain ⟨h1, h2, h3⟩ := writer_Encode_status w (goStr "application/json")
        (json.encodeMap1 (goStr "error") (err.Error rt.jsonText)) http.StatusInternalServerError hw
      exact ⟨h1, h2, h3, rfl, rfl⟩
    · intro resp s1 hver
      have hout : fs.handleVerify rt w r s
          = { w := json.Encode (w.SetHeader (goStr "Content-Type") (goStr "application/json"))
                  (VerifyResponse.marshal resp),
              world := s1, trace := [FacilitatorEvent.verify req] } := by
        simp only [FacilitatorServer.handleVerify, if_neg hm, hdec, hver]
      rw [hout]
      obtain ⟨h1, h2, h3⟩ := writer_Encode w (goStr "application/json")
        (VerifyResponse.marshal resp) hw
      exact ⟨h1, h2, h3, rfl, rfl⟩
  · intro hurl req hdec
    have hne : ¬ (r.URL = goStr "/verify") := by
      rw [hurl]
      decide
    have hrun : fs.ServeHTTP rt w r s = fs.handleSettle rt w r s := by
      simp only [FacilitatorServer.ServeHTTP, if_neg hne, if_pos hurl]
    rw [hrun]
    constructor
    · intro resp err s1 hver
      have hout : fs.handleSettle rt w r s
          = { w := json.Encode ((w.SetHeader (goStr "Content-Type")
                    (goStr "application/json")).WriteHeader http.StatusInternalServerError)
                  (json.encodeMap1 (goStr "error") (err.Error rt.jsonText)),
              world := s1, trace := [FacilitatorEvent.settle req] } := by
        simp only [FacilitatorServer.handleSettle, if_neg hm, hdec, hver]
      rw [hout, ← encodeMap1_error]
      obtain ⟨h1, h2, h3⟩ := writer_Encode_status w (goStr "application/json")
        (json.encodeMap1 (goStr "error") (err.Error rt.jsonText)) http.StatusInternalServerError hw
      exact ⟨h1, h2, h3, rfl, rfl⟩
    · intro resp s1 hver
      have hout : fs.handleSettle rt w r s
          = { w := json.Encode (w.SetHeader (goStr "Content-Type") (goStr "application/json"))
                  (SettleResponse.marshal resp),
              world := s1, trace := [FacilitatorEvent.settle req] } := by
        simp only [FacilitatorServer.handleSettle, if_neg hm, hdec, hver]
      rw [hout]
      obtain ⟨h1, h2, h3⟩ := writer_Encode w (goStr "application/json")
        (SettleResponse.marshal resp) hw
      exact ⟨h1, h2, h3, rfl, rfl⟩

set_option maxRecDepth 1000000 in
theorem facilitator_relays_result_witness :
    ResponseWriter.fresh.sent = none
    ∧ (Ex.post (goStr "/settle") Ex.settleJSON).Method = http.MethodPost
    ∧ ((NewFacilitatorServer Ex.ledger).ServeHTTP Ex.rt ResponseWriter.fresh
          (Ex.post (goStr "/settle") Ex.settleJSON) ()).w.status = some 500
    ∧ ((NewFacilitatorServer Ex.ledger).ServeHTTP Ex.rt ResponseWriter.fresh
          (Ex.post (goStr "/settle") Ex.settleJSON) ()).w.body
        = goStr "\x7b\"error\":\"rpc down\"\x7d\n"
    ∧ ((NewFacilitatorServer Ex.ledger).ServeHTTP Ex.rt ResponseWriter.fresh
          (Ex.post (goStr "/settle") Ex.settleJSON) ()).trace
        = [FacilitatorEvent.settle
            { Payment := { Payment.empty with Chain := goStr "1" } }]
    ∧ ((NewFacilitatorServer Ex.ledger).ServeHTTP Ex.rt ResponseWriter.fresh
          (Ex.post (goStr "/verify") Ex.verifyJSON) ()).w.status = some 200
    ∧ ((NewFacilitatorServer Ex.ledger).ServeHTTP Ex.rt ResponseWriter.fresh
          (Ex.post (goStr "/verify") Ex.verifyJSON) ()).w.body
        = goStr "\x7b\"valid\":true,\"txHash\":\"0xab\",\"chain\":\"1\",\"token\":\"\","
          ++ goStr "\"amount\":\"5\",\"sender\":\"\",\"recipient\":\"\"\x7d\n"
    ∧ ((NewFacilitatorServer Ex.ledger).ServeHTTP Ex.rt ResponseWriter.fresh
          (Ex.post (goStr "/verify") Ex.verifyJSON) ()).trace
        = [FacilitatorEvent.verify { TxHash := goStr "0xab", Chain := goStr "1" }]
    ∧ json.parseJSON (VerifyResponse.marshal (some Ex.receipt))
        = some (json.JValue.object
            [ (goStr "valid", json.JValue.bool true),
              (goStr "txHash", json.JValue.string (goStr "0xab")),
              (goStr "chain", json.JValue.string (goStr "1")),
              (goStr "token", json.JValue.string []),
              (goStr "amount", json.JValue.string (goStr "5")),
              (goStr "sender", json.JValue.string []),
              (goStr "recipient", json.JValue.string []) ]) := by
  refine ⟨rfl, rfl, ?_⟩
  have hall := facilitator_relays_result (NewFacilitatorServer Ex.ledger) Ex.rt
    ResponseWriter.fresh (Ex.post (goStr "/verify") Ex.verifyJSON) () rfl rfl
  obtain ⟨g1, _, g3, g4, _⟩ :=
    (hall.1 rfl { TxHash := goStr "0xab", Chain := goStr "1" } (by decide)).2 _ () rfl
  obtain ⟨h1, _, h3, h4, _⟩ :=
    ((facilitator_relays_result (NewFacilitatorServer Ex.ledger) Ex.rt ResponseWriter.fresh
      (Ex.post (goStr "/settle") Ex.settleJSON) () rfl rfl).2.1 rfl
      { Payment := { Payment.empty with Chain := goStr "1" } } (by decide)).1
      none (GoError.text (goStr "rpc down")) () rfl
  have hp := (hall.2.2.2.1 Ex.receipt).2 (by decide)
  refine ⟨h1, ?_, h4, g1, ?_, g4, ?_⟩
  · rw [h3]
    decide
  · rw [g3]
    decide
  · rw [hp]
    rfl

end X402
